import Mathlib

/-!
# Go-JSON: lexer, type-directed decoder and encoder

A shallow embedding of `src/json/token.go`, `src/json/lexer.go`,
`src/json/decoder.go` and `src/json/encoder.go`.

Conventions of the embedding.

* A rune is its code point, a byte is its value, both natural numbers
  (`Nat`).  A Go string is the list of its bytes (`List Nat`), valid UTF-8 or
  not: so are the strings inside a `Value`, the field names and the text the
  encoder writes.
* The lexer reads runes from a `bufio.Reader`; the model keeps the look-ahead
  rune `currdata` and the runes the reader has still to deliver as one list
  `input` (head = `currdata`, empty list = the `eof` sentinel).  `next()` drops
  the head.  For a reader over the bytes `b` the runes are `readRunes b`, what
  `ReadRune` decodes call after call.  A text reader has no read error other
  than `io.EOF`, so the `err != nil` branches after `next()` are never taken
  and are left out.
* The lexer builds its string payload with `WriteRune`; the model keeps the
  runes written (`svalue`), and the Go string is their UTF-8 encoding
  `encodeRunes svalue`, which the decoder stores and compares with field names.
* The Go functions mutate the receiver and return an error; the model returns
  the mutated state next to the error (`none` is Go's `nil`).
* The Go standard library (`strconv`, `unicode`, `reflect`) is not part of the
  repository; the fragments the code uses are modelled below from their
  documentation, and what depends on the Go release or the platform is a field
  of `Platform`.
* The decoder recursion (`value` calls `object`, whose loop calls `value`) is
  bounded by a budget `fuel`; `Decode` starts with more than it can use
  (`Decode_fuel`).
* A `reflect.Value` is the value it refers to together with its flags; a method
  that writes through it returns the value written.  `Decode` writes into a
  new variable (`reflect.New`, `reflect.MakeMap`), so nothing it writes is
  visible through the caller's variable before the final assignment.
-/

namespace GoJSON

/-! ## token.go -/

/-- The token kinds of `token.go`, in the order of the `iota` block. -/
inductive Token
  | TK_LBRACE
  | TK_RBRACE
  | TK_LBRACKET
  | TK_RBRACKET
  | TK_COMMA
  | TK_COLON
  | TK_EOF
  | TK_NULL
  | TK_FALSE
  | TK_TRUE
  | TK_STRING_LITERAL
  | TK_NUMBER_LITERAL
  | NO_TOKEN
  deriving DecidableEq, Repr


/-! ## The standard library fragments -/

/-- An IEEE-754 binary64 datum.  `fin neg m e` is the number `(-1)^neg * m * 2^e`,
kept in the canonical form of the format: `2^52 ≤ m < 2^53` and
`-1074 ≤ e ≤ 971` (normal), or `m < 2^52` and `e = -1074` (subnormal, zero). -/
inductive F64
  | fin (neg : Bool) (m : Nat) (e : Int)
  | inf (neg : Bool)
  | nan
  deriving DecidableEq, Repr

/-- What the embedding takes as given: the Unicode range tables of the Go
release beyond Latin-1, and what the Go specification leaves to the platform. -/
structure Platform where
  /-- Membership in the range table `unicode.Letter`, asked beyond Latin-1 only. -/
  letterTable : Nat → Bool
  /-- Membership in the range table `unicode.Digit`, asked beyond Latin-1 only. -/
  digitTable : Nat → Bool
  /-- Whether `int` and `uint` have 64 bits (otherwise 32). -/
  is64 : Bool
  /-- The result of `int64(f)` when `f` is NaN, infinite or out of range. -/
  int64Conv : F64 → Int
  /-- The result of `uint64(f)` when `f` is NaN, infinite or out of range. -/
  uint64Conv : F64 → Nat

/-- Size of `int` and `uint` in bits. -/
def Platform.intSize (P : Platform) : Nat := if P.is64 then 64 else 32

/-- The function `unicode.IsDigit`: decimal digits; for Latin-1 only `0`..`9`. -/
def isDigit (P : Platform) (r : Nat) : Bool :=
  if r ≤ 255 then decide (48 ≤ r ∧ r ≤ 57) else P.digitTable r

/-- The function `unicode.IsLetter`: category L; for Latin-1 the letters are
`A`-`Z`, `a`-`z`, U+00AA, U+00B5, U+00BA, U+00C0-U+00D6, U+00D8-U+00F6 and
U+00F8-U+00FF. -/
def isLetter (P : Platform) (r : Nat) : Bool :=
  if r ≤ 255 then
    decide ((65 ≤ r ∧ r ≤ 90) ∨ (97 ≤ r ∧ r ≤ 122) ∨ r = 170 ∨ r = 181 ∨ r = 186
      ∨ (192 ≤ r ∧ r ≤ 214) ∨ (216 ≤ r ∧ r ≤ 246) ∨ (248 ≤ r ∧ r ≤ 255))
  else P.letterTable r

/-- Quotient of `num / den` rounded to nearest, ties to even. -/
def divRoundEven (num den : Nat) : Nat :=
  let q := num / den
  let r := num % den
  if 2 * r < den then q
  else if 2 * r = den then (if q % 2 = 0 then q else q + 1)
  else q + 1

/-- Halving `n` until it is below 2, at most `fuel` times, counting the steps. -/
def log2Aux : Nat → Nat → Nat
  | 0, _ => 0
  | fuel + 1, n => if 2 ≤ n then log2Aux fuel (n / 2) + 1 else 0

/-- For positive `n`: the integer `k` with `2^k ≤ n < 2^(k+1)`. -/
def floorLog2 (n : Nat) : Nat := log2Aux n n

/-- For positive `p` and `q`: the integer `k` with `2^k ≤ p / q < 2^(k+1)`. -/
def floorLog2Ratio (p q : Nat) : Int :=
  let k : Int := (floorLog2 p : Int) - (floorLog2 q : Int)
  if 0 ≤ k then (if q * 2 ^ k.toNat ≤ p then k else k - 1)
  else (if q ≤ p * 2 ^ (-k).toNat then k else k - 1)

/-- The rational `(-1)^neg * p / q` (`q > 0`) rounded to the nearest number with
`prec` bits of mantissa, least exponent `emin` and greatest exponent `emax`
(ties to even, overflow to infinity). -/
def roundBinary (prec : Nat) (emin emax : Int) (neg : Bool) (p q : Nat) : F64 :=
  if p = 0 then F64.fin neg 0 emin
  else
    let e := max (floorLog2Ratio p q - ((prec : Int) - 1)) emin
    let m := if 0 ≤ e then divRoundEven p (q * 2 ^ e.toNat)
             else divRoundEven (p * 2 ^ (-e).toNat) q
    let m1 := if m = 2 ^ prec then 2 ^ (prec - 1) else m
    let e1 := if m = 2 ^ prec then e + 1 else e
    if emax < e1 then F64.inf neg else F64.fin neg m1 e1

/-- Rounding to binary64. -/
def F64.round (neg : Bool) (p q : Nat) : F64 :=
  roundBinary 53 (-1074) 971 neg p q

/-- The conversion `float32(f)` followed by `float64(..)`: the binary32 number
nearest to `f`, as a binary64 datum. -/
def F64.toFloat32 : F64 → F64
  | F64.fin neg m e =>
    let r := if 0 ≤ e then roundBinary 24 (-149) 104 neg (m * 2 ^ e.toNat) 1
             else roundBinary 24 (-149) 104 neg m (2 ^ (-e).toNat)
    match r with
    | F64.fin n m1 e1 =>
      if 0 ≤ e1 then F64.round n (m1 * 2 ^ e1.toNat) 1 else F64.round n m1 (2 ^ (-e1).toNat)
    | other => other
  | other => other

/-- Positive zero, the zero value of a float. -/
def F64.zero : F64 := F64.fin false 0 (-1074)

/-- The number a finite datum denotes, truncated toward zero. -/
def F64.trunc : F64 → Option Int
  | F64.fin neg m e =>
    let mag : Nat := if 0 ≤ e then m * 2 ^ e.toNat else m / 2 ^ (-e).toNat
    some (if neg then -(mag : Int) else (mag : Int))
  | _ => none

/-- The exact value of a finite datum. -/
def F64.val : F64 → Option ℚ
  | F64.fin neg m e => some ((if neg then -1 else 1) * (m : ℚ) * (2 : ℚ) ^ e)
  | _ => none

/-- Two's complement wrap of an integer to `bits` bits, signed. -/
def wrapInt (bits : Nat) (v : Int) : Int :=
  (v + 2 ^ (bits - 1)) % 2 ^ bits - 2 ^ (bits - 1)

/-- The conversion `int64(f)` of the Go specification: truncation toward zero;
platform-defined when the result does not fit. -/
def int64OfFloat (P : Platform) (f : F64) : Int :=
  match f.trunc with
  | some v => if -(2 : Int) ^ 63 ≤ v ∧ v < 2 ^ 63 then v else wrapInt 64 (P.int64Conv f)
  | none => wrapInt 64 (P.int64Conv f)

/-- The conversion `uint64(f)` of the Go specification. -/
def uint64OfFloat (P : Platform) (f : F64) : Nat :=
  match f.trunc with
  | some v => if 0 ≤ v ∧ v < 2 ^ 64 then v.toNat else P.uint64Conv f % 2 ^ 64
  | none => P.uint64Conv f % 2 ^ 64

/-- A run of ASCII digits: the value accumulated onto `acc`, the number of
digits read onto `n`, and the unread rest. -/
def readDigits : Nat → Nat → List Nat → Nat × Nat × List Nat
  | acc, n, [] => (acc, n, [])
  | acc, n, c :: cs =>
    if 48 ≤ c ∧ c ≤ 57 then readDigits (acc * 10 + (c - 48)) (n + 1) cs
    else (acc, n, c :: cs)

/-- The value `strconv.ParseFloat(s, 64)` returns, on the texts `readNumber`
builds (runes among `-`, `+`, `.`, `e`, `E` and digits): the decimal grammar
`[+-] digits [. digits] [(e|E) [+-] digits]` with at least one mantissa digit,
correctly rounded to binary64; `0` on a syntax error and an infinity on
overflow (the accompanying error is dropped by the caller). -/
def parseFloat (s : List Nat) : F64 :=
  let neg : Bool := s.head? = some 45
  let s1 := if s.head? = some 43 ∨ s.head? = some 45 then s.tail else s
  let (m1, n1, r1) := readDigits 0 0 s1
  let (m2, n2, r2) := if r1.head? = some 46 then readDigits m1 0 r1.tail else (m1, 0, r1)
  if n1 + n2 = 0 then F64.zero
  else
    let hasExp : Bool := r2.head? = some 101 ∨ r2.head? = some 69
    let r3 := if hasExp then r2.tail else r2
    let eneg : Bool := hasExp && r3.head? = some 45
    let r4 := if hasExp ∧ (r3.head? = some 43 ∨ r3.head? = some 45) then r3.tail else r3
    let (ev, en, r5) := if hasExp then readDigits 0 0 r4 else (0, 1, r4)
    if en = 0 ∨ r5 ≠ [] then F64.zero
    else
      let dexp : Int := (if eneg then -(ev : Int) else (ev : Int)) - (n2 : Int)
      if 0 ≤ dexp then F64.round neg (m2 * 10 ^ dexp.toNat) 1
      else F64.round neg m2 (10 ^ (-dexp).toNat)

/-! ## unicode/utf8, as `ReadRune` and `WriteRune` use it -/

/-- The function `utf8.EncodeRune`, which `bytes.Buffer.WriteRune` rests on: the
UTF-8 bytes of a rune; a surrogate or a rune beyond `0x10FFFF` is written as
`U+FFFD`. -/
def encodeRune (r : Nat) : List Nat :=
  if r < 0x80 then [r]
  else if r < 0x800 then [0xC0 + r / 64, 0x80 + r % 64]
  else if (0xD800 ≤ r ∧ r ≤ 0xDFFF) ∨ 0x10FFFF < r then [0xEF, 0xBF, 0xBD]
  else if r < 0x10000 then [0xE0 + r / 4096, 0x80 + r / 64 % 64, 0x80 + r % 64]
  else [0xF0 + r / 262144, 0x80 + r / 4096 % 64, 0x80 + r / 64 % 64, 0x80 + r % 64]

/-- The bytes of the Go string built from runes: `WriteRune` for each, then
`String`. -/
def encodeRunes : List Nat → List Nat
  | [] => []
  | r :: rs => encodeRune r ++ encodeRunes rs

/-- The byte at position `i` of `bs`, and 0 (no continuation byte) behind its
end. -/
def byteAt : List Nat → Nat → Nat
  | [], _ => 0
  | b :: _, 0 => b
  | _ :: bs, i + 1 => byteAt bs i

/-- The function `utf8.DecodeRune` on the bytes `b0 :: bs`: the rune and the
number of bytes it takes.  A well-formed sequence (continuation bytes `0x80` to
`0xBF`, shortest form, no surrogate, at most `0x10FFFF`) is decoded; otherwise
the result is `U+FFFD` with width 1. -/
def decodeRune (b0 : Nat) (bs : List Nat) : Nat × Nat :=
  let b1 := byteAt bs 0
  let b2 := byteAt bs 1
  let b3 := byteAt bs 2
  let r3 := (b0 - 0xE0) * 4096 + (b1 - 0x80) * 64 + (b2 - 0x80)
  let r4 := (b0 - 0xF0) * 262144 + (b1 - 0x80) * 4096 + (b2 - 0x80) * 64 + (b3 - 0x80)
  if b0 < 0x80 then (b0, 1)
  else if 0xC2 ≤ b0 ∧ b0 ≤ 0xDF ∧ 0x80 ≤ b1 ∧ b1 ≤ 0xBF then
    ((b0 - 0xC0) * 64 + (b1 - 0x80), 2)
  else if 0xE0 ≤ b0 ∧ b0 ≤ 0xEF ∧ 0x80 ≤ b1 ∧ b1 ≤ 0xBF ∧ 0x80 ≤ b2 ∧ b2 ≤ 0xBF
      ∧ 0x800 ≤ r3 ∧ ¬(0xD800 ≤ r3 ∧ r3 ≤ 0xDFFF) then (r3, 3)
  else if 0xF0 ≤ b0 ∧ b0 ≤ 0xF7 ∧ 0x80 ≤ b1 ∧ b1 ≤ 0xBF ∧ 0x80 ≤ b2 ∧ b2 ≤ 0xBF
      ∧ 0x80 ≤ b3 ∧ b3 ≤ 0xBF ∧ 0x10000 ≤ r4 ∧ r4 ≤ 0x10FFFF then (r4, 4)
  else (0xFFFD, 1)

/-- The runes `ReadRune` returns for the bytes of a text, after `skip` bytes
that belong to the rune returned last. -/
def readRunesFrom : Nat → List Nat → List Nat
  | _, [] => []
  | skip + 1, _ :: bs => readRunesFrom skip bs
  | 0, b0 :: bs => (decodeRune b0 bs).1 :: readRunesFrom ((decodeRune b0 bs).2 - 1) bs

/-- The runes `bufio.Reader.ReadRune` returns, call after call, for a reader
over the bytes of a text: each call decodes one rune with `utf8.DecodeRune`
and consumes its bytes; a byte that starts no well-formed sequence is consumed
alone and returned as `U+FFFD`. -/
def readRunes (bs : List Nat) : List Nat := readRunesFrom 0 bs

/-! ## lexer.go -/

/-- The messages of the `errors.New` values of `lexer.go` and `decoder.go`. -/
inductive ErrMsg
  | ErrNotTerminatedToken
  | ErrNotTerminatedString
  | ErrInvalidUnicodeCharacter
  | ErrInvalidEscapeCharacter
  | ErrInvalidNumberLiteral
  | ErrInvalidKeyword
  | ErrUnsettableValue
  /-- The message "Unexpected character %x" of `Lex`. -/
  | unexpectedCharacter (r : Nat)
  /-- The message "This must be a string literal but" of `object`. -/
  | mustBeStringLiteral
  /-- The message "This must be a colon token" of `object`. -/
  | mustBeColon
  /-- The message "This must be a right brace token" of `object`. -/
  | mustBeRightBrace
  deriving DecidableEq, Repr

/-- The kinds of `reflect.Kind`. -/
inductive Kind
  | Invalid | Bool | Int | Int8 | Int16 | Int32 | Int64
  | Uint | Uint8 | Uint16 | Uint32 | Uint64 | Uintptr
  | Float32 | Float64 | Complex64 | Complex128
  | Array | Chan | Func | Interface | Map | Ptr | Slice | String | Struct | UnsafePointer
  deriving DecidableEq, Repr

/-- The error values the package returns: a bare `errors.New` value, or one of
the three error structures. -/
inductive Error
  | plain (e : ErrMsg)
  | LexerSyntaxError (line : Nat) (err : ErrMsg)
  | DecoderSyntaxError (line : Nat) (err : ErrMsg)
  | DecoderTypeError (line : Nat) (tp : Kind) (corrects : List Kind)
  /-- An error of the writer under the encoder, known by its identity only. -/
  | io (tag : Nat)
  deriving DecidableEq, Repr

/-- The structure `Lexer`.  The fields `currdata` and `reader` are the list
`input` of runes: its head is `currdata`, and it is empty when `currdata` is
`eof`.  Before the first `Lex` (`isused = false`) no rune has been read and
`input` is the whole text.  The field `svalue` is kept as the runes written to
the buffer; the Go string is `encodeRunes svalue`. -/
structure Lexer where
  currtoken : Token
  currline : Nat
  input : List Nat
  svalue : List Nat
  nvalue : F64
  isused : Bool
  deriving DecidableEq, Repr

/-- The constructor `NewLexer` over a reader that delivers the runes `r` (the
runes `readRunes b` for a reader over the bytes `b`). -/
def NewLexer (r : List Nat) : Lexer :=
  { currtoken := Token.NO_TOKEN, currline := 0, input := r, svalue := [],
    nvalue := F64.zero, isused := false }

/-- The look-ahead rune of a lexer; `none` is the sentinel `eof`. -/
def Lexer.currdata (l : Lexer) : Option Nat :=
  if l.isused then l.input.head? else none

/-- The method `genSyntaxError`. -/
def Lexer.genSyntaxError (l : Lexer) (e : ErrMsg) : Error :=
  Error.LexerSyntaxError l.currline e

/-- The method `next` of a lexer that has read its first rune. -/
def Lexer.next (l : Lexer) : Lexer :=
  { l with input := l.input.tail }

/-- The method `resetValues`. -/
def Lexer.resetValues (l : Lexer) : Lexer :=
  { l with svalue := [], nvalue := F64.zero }

/-- The function `isXDigit`. -/
def isXDigit (P : Platform) (r : Nat) : Bool :=
  isDigit P r ||
    decide (r = 97 ∨ r = 65 ∨ r = 98 ∨ r = 66 ∨ r = 99 ∨ r = 67 ∨ r = 100 ∨ r = 68
      ∨ r = 101 ∨ r = 69 ∨ r = 102 ∨ r = 70)

/-- The function `isExponent`. -/
def isExponent (r : Nat) : Bool :=
  decide (r = 101 ∨ r = 69)

/-- Where the four-digit loop of a `\u` escape stops with an error: the input
from the first rune that is not a hexadecimal digit. -/
def dropXDigits (P : Platform) : List Nat → List Nat
  | [] => []
  | c :: cs => if isXDigit P c then dropXDigits P cs else c :: cs

/-- The loop of `readString` on the input, with the buffer `buf`: the error (if
any), the buffer and the input left, whose head is the closing quote on
success. -/
def readStringLoop (P : Platform) :
    List Nat → List Nat → Option ErrMsg × List Nat × List Nat
  | buf, [] => (some ErrMsg.ErrNotTerminatedString, buf, [])
  | buf, c :: cs =>
    if c = 34 then (none, buf, c :: cs)
    else if c = 10 then (some ErrMsg.ErrNotTerminatedString, buf, c :: cs)
    else if c = 92 then
      match cs with
      | [] => (some ErrMsg.ErrInvalidEscapeCharacter, buf, [])
      | d :: ds =>
        if d = 117 then
          match ds with
          | x1 :: x2 :: x3 :: x4 :: rest =>
            if isXDigit P x1 ∧ isXDigit P x2 ∧ isXDigit P x3 ∧ isXDigit P x4 then
              readStringLoop P (buf ++ [x1, x2, x3, x4]) rest
            else (some ErrMsg.ErrInvalidUnicodeCharacter, buf, dropXDigits P ds)
          | _ => (some ErrMsg.ErrInvalidUnicodeCharacter, buf, dropXDigits P ds)
        else if d = 34 ∨ d = 47 then readStringLoop P (buf ++ [d]) ds
        else if d = 98 then readStringLoop P (buf ++ [8]) ds
        else if d = 102 then readStringLoop P (buf ++ [12]) ds
        else if d = 110 then readStringLoop P (buf ++ [10]) ds
        else if d = 114 then readStringLoop P (buf ++ [13]) ds
        else if d = 116 then readStringLoop P (buf ++ [9]) ds
        else if d = 92 then readStringLoop P (buf ++ [92]) ds
        else (some ErrMsg.ErrInvalidEscapeCharacter, buf, d :: ds)
    else readStringLoop P (buf ++ [c]) cs

/-- The method `readString`: `svalue` is assigned only on success. -/
def Lexer.readString (P : Platform) (l : Lexer) : Option Error × Lexer :=
  match readStringLoop P [] l.input with
  | (some e, _, rest) => (some (l.genSyntaxError e), { l with input := rest })
  | (none, buf, rest) => (none, { l with input := rest, svalue := buf })

/-- The loop of `readNumber` on the input, with the buffer `buf`: the buffer on
success (`none` is "Invalid number literal") and the input left. -/
def readNumberLoop (P : Platform) : List Nat → List Nat → Option (List Nat) × List Nat
  | buf, [] => (some buf, [])
  | buf, c :: cs =>
    if c = 46 ∨ isDigit P c ∨ isExponent c then
      if isExponent c then
        match cs with
        | [] => (none, [])
        | s :: cs1 =>
          if s = 43 ∨ s = 45 then readNumberLoop P (buf ++ [c, s]) cs1
          else (none, s :: cs1)
      else readNumberLoop P (buf ++ [c]) cs
    else (some buf, c :: cs)

/-- The method `readNumber`, called with a digit or `-` as look-ahead.  The
error of `strconv.ParseFloat` is passed to `genSyntaxError` and the result of
that call is dropped, so the value is assigned whatever the text. -/
def Lexer.readNumber (P : Platform) (l : Lexer) : Option Error × Lexer :=
  match l.input with
  | [] => (none, l)
  | c :: cs =>
    match readNumberLoop P [c] cs with
    | (none, rest) =>
      (some (l.genSyntaxError ErrMsg.ErrInvalidNumberLiteral), { l with input := rest })
    | (some buf, rest) => (none, { l with input := rest, nvalue := parseFloat buf })

/-- The loop of `readKeyword`: the letters read onto `buf` and the input left. -/
def readKeywordLoop (P : Platform) : List Nat → List Nat → List Nat × List Nat
  | buf, [] => (buf, [])
  | buf, c :: cs =>
    if isLetter P c then readKeywordLoop P (buf ++ [c]) cs else (buf, c :: cs)

/-- The result of `Lex` and of `readKeyword`: the returned token and error, and
the lexer after the call. -/
structure LexResult where
  tok : Token
  err : Option Error
  lexer : Lexer
  deriving DecidableEq, Repr

/-- The method `readKeyword`, called with a letter as look-ahead.  The spellings
are `true` (116 114 117 101), `false` (102 97 108 115 101) and `null`
(110 117 108 108); the error is the bare `ErrInvalidKeyword`. -/
def Lexer.readKeyword (P : Platform) (l : Lexer) : LexResult :=
  match l.input with
  | [] => ⟨Token.NO_TOKEN, some (Error.plain ErrMsg.ErrInvalidKeyword), l⟩
  | c :: cs =>
    let (buf, rest) := readKeywordLoop P [c] cs
    let l1 := { l with input := rest }
    if buf = [116, 114, 117, 101] then
      ⟨Token.TK_TRUE, none, { l1 with currtoken := Token.TK_TRUE }⟩
    else if buf = [102, 97, 108, 115, 101] then
      ⟨Token.TK_FALSE, none, { l1 with currtoken := Token.TK_FALSE }⟩
    else if buf = [110, 117, 108, 108] then
      ⟨Token.TK_NULL, none, { l1 with currtoken := Token.TK_NULL }⟩
    else ⟨Token.NO_TOKEN, some (Error.plain ErrMsg.ErrInvalidKeyword), l1⟩

/-- The `for l.currdata != eof` loop of `Lex`, run on the input `inp` of `l`:
10 is the newline, 9, 13, 32 the blanks, 123 `{`, 125 `}`, 91 `[`, 93 `]`,
58 `:`, 44 `,`, 34 the double quote and 45 `-`. -/
def lexLoop (P : Platform) : Lexer → List Nat → LexResult
  | l, [] => ⟨Token.NO_TOKEN, none, { l with input := [] }⟩
  | l, c :: cs =>
    if c = 10 then lexLoop P { l with currline := l.currline + 1 } cs
    else if c = 9 ∨ c = 13 ∨ c = 32 then lexLoop P l cs
    else if c = 123 then
      ⟨Token.TK_LBRACE, none, { l with currtoken := Token.TK_LBRACE, input := cs }⟩
    else if c = 125 then
      ⟨Token.TK_RBRACE, none, { l with currtoken := Token.TK_RBRACE, input := cs }⟩
    else if c = 91 then
      ⟨Token.TK_LBRACKET, none, { l with currtoken := Token.TK_LBRACKET, input := cs }⟩
    else if c = 93 then
      ⟨Token.TK_RBRACKET, none, { l with currtoken := Token.TK_RBRACKET, input := cs }⟩
    else if c = 58 then
      ⟨Token.TK_COLON, none, { l with currtoken := Token.TK_COLON, input := cs }⟩
    else if c = 44 then
      ⟨Token.TK_COMMA, none, { l with currtoken := Token.TK_COMMA, input := cs }⟩
    else if c = 34 then
      match Lexer.readString P { l with currtoken := Token.TK_STRING_LITERAL, input := cs } with
      | (some e, l1) => ⟨Token.NO_TOKEN, some e, l1⟩
      | (none, l1) => ⟨Token.TK_STRING_LITERAL, none, l1.next⟩
    else if isDigit P c ∨ c = 45 then
      match Lexer.readNumber P
          { l with currtoken := Token.TK_NUMBER_LITERAL, input := c :: cs } with
      | (some e, l1) => ⟨Token.NO_TOKEN, some e, l1⟩
      | (none, l1) => ⟨Token.TK_NUMBER_LITERAL, none, l1⟩
    else if isLetter P c then Lexer.readKeyword P { l with input := c :: cs }
    else
      ⟨Token.NO_TOKEN,
        some (Lexer.genSyntaxError { l with input := c :: cs } (ErrMsg.unexpectedCharacter c)),
        { l with input := c :: cs }⟩

/-- The method `Lex`: the first call reads the first rune, every call resets
the two payload values and scans one token. -/
def Lexer.Lex (P : Platform) (l : Lexer) : LexResult :=
  let l1 := if l.isused then l else { l with isused := true }
  lexLoop P l1.resetValues l1.input

/-! ## The values `reflect` shows to the codec -/

/-- The signed integer kinds. -/
inductive IntKind
  | Int | Int8 | Int16 | Int32 | Int64
  deriving DecidableEq, Repr

/-- The unsigned integer kinds `numberLiteral` accepts. -/
inductive UintKind
  | Uint | Uint8 | Uint16 | Uint32 | Uint64
  deriving DecidableEq, Repr

/-- The floating-point kinds. -/
inductive FloatKind
  | Float32 | Float64
  deriving DecidableEq, Repr

/-- The kinds neither the decoder nor the encoder has a case for. -/
inductive OtherKind
  | Uintptr | Complex64 | Complex128 | Chan | Func | Interface | UnsafePointer
  deriving DecidableEq, Repr

/-- A Go type, up to what `reflect` lets the codec see of it.  A field of a
record is its name, whether it is exported, and its type.  `other
OtherKind.Interface` is the empty interface. -/
inductive GoType
  | bool
  | int (k : IntKind)
  | uint (k : UintKind)
  | float (k : FloatKind)
  | string
  | other (k : OtherKind)
  | struct (fields : List (List Nat × Bool × GoType))
  | map (key elem : GoType)
  | ptr (elem : GoType)
  | slice (elem : GoType)
  | array (len : Nat) (elem : GoType)

/-- A key of a map: a string (its bytes), or a key of another kind, of which the
codec sees nothing but its identity. -/
inductive Key
  | string (s : List Nat)
  | other (tag : Nat)
  deriving DecidableEq, Repr

/-- A Go value.  A string is the list of its bytes, valid UTF-8 or not.  A
record lists its fields in declaration order, each with its name (its bytes)
and whether it is exported.  A map is `none` when nil and otherwise lists its
entries (keys distinct); a pointer is `none` when nil and otherwise an address;
a slice is `none` when nil.  Of a value of another kind the codec sees nothing
but its identity `tag` (`0` for the zero value). -/
inductive Value
  | bool (b : Bool)
  | int (k : IntKind) (i : Int)
  | uint (k : UintKind) (n : Nat)
  | float (k : FloatKind) (f : F64)
  | string (s : List Nat)
  | other (k : OtherKind) (tag : Nat)
  | struct (fields : List (List Nat × Bool × Value))
  | map (key elem : GoType) (entries : Option (List (Key × Value)))
  | ptr (elem : GoType) (addr : Option Nat)
  | slice (elem : GoType) (elems : Option (List Value))
  | array (elem : GoType) (elems : List Value)

/-- The method `Kind` of a type. -/
def GoType.kind : GoType → Kind
  | GoType.bool => Kind.Bool
  | GoType.int IntKind.Int => Kind.Int
  | GoType.int IntKind.Int8 => Kind.Int8
  | GoType.int IntKind.Int16 => Kind.Int16
  | GoType.int IntKind.Int32 => Kind.Int32
  | GoType.int IntKind.Int64 => Kind.Int64
  | GoType.uint UintKind.Uint => Kind.Uint
  | GoType.uint UintKind.Uint8 => Kind.Uint8
  | GoType.uint UintKind.Uint16 => Kind.Uint16
  | GoType.uint UintKind.Uint32 => Kind.Uint32
  | GoType.uint UintKind.Uint64 => Kind.Uint64
  | GoType.float FloatKind.Float32 => Kind.Float32
  | GoType.float FloatKind.Float64 => Kind.Float64
  | GoType.string => Kind.String
  | GoType.other OtherKind.Uintptr => Kind.Uintptr
  | GoType.other OtherKind.Complex64 => Kind.Complex64
  | GoType.other OtherKind.Complex128 => Kind.Complex128
  | GoType.other OtherKind.Chan => Kind.Chan
  | GoType.other OtherKind.Func => Kind.Func
  | GoType.other OtherKind.Interface => Kind.Interface
  | GoType.other OtherKind.UnsafePointer => Kind.UnsafePointer
  | GoType.struct _ => Kind.Struct
  | GoType.map _ _ => Kind.Map
  | GoType.ptr _ => Kind.Ptr
  | GoType.slice _ => Kind.Slice
  | GoType.array _ _ => Kind.Array

mutual
/-- The zero value of a type (`reflect.Zero`, and what `reflect.New` points to). -/
def GoType.zero : GoType → Value
  | GoType.bool => Value.bool false
  | GoType.int k => Value.int k 0
  | GoType.uint k => Value.uint k 0
  | GoType.float k => Value.float k F64.zero
  | GoType.string => Value.string []
  | GoType.other k => Value.other k 0
  | GoType.struct fields => Value.struct (GoType.zeroFields fields)
  | GoType.map key elem => Value.map key elem none
  | GoType.ptr elem => Value.ptr elem none
  | GoType.slice elem => Value.slice elem none
  | GoType.array len elem => Value.array elem (List.replicate len (GoType.zero elem))
/-- The zero values of the fields of a record type. -/
def GoType.zeroFields : List (List Nat × Bool × GoType) → List (List Nat × Bool × Value)
  | [] => []
  | (name, exported, t) :: fs => (name, exported, GoType.zero t) :: GoType.zeroFields fs
end

mutual
/-- The method `Type` of a value. -/
def Value.typeOf : Value → GoType
  | Value.bool _ => GoType.bool
  | Value.int k _ => GoType.int k
  | Value.uint k _ => GoType.uint k
  | Value.float k _ => GoType.float k
  | Value.string _ => GoType.string
  | Value.other k _ => GoType.other k
  | Value.struct fields => GoType.struct (Value.typeOfFields fields)
  | Value.map key elem _ => GoType.map key elem
  | Value.ptr elem _ => GoType.ptr elem
  | Value.slice elem _ => GoType.slice elem
  | Value.array elem elems => GoType.array elems.length elem
/-- The field declarations of a record value. -/
def Value.typeOfFields : List (List Nat × Bool × Value) → List (List Nat × Bool × GoType)
  | [] => []
  | (name, exported, v) :: fs => (name, exported, Value.typeOf v) :: Value.typeOfFields fs
end

/-- The method `Kind` of a value. -/
def Value.kind (v : Value) : Kind := v.typeOf.kind

/-! ## decoder.go -/

/-- The structure `Decoder`. -/
structure Decoder where
  lexer : Lexer
  deriving DecidableEq, Repr

/-- The constructor `NewDecoder` over a reader that delivers the runes `r` (the
runes `readRunes b` for a reader over the bytes `b`). -/
def NewDecoder (r : List Nat) : Decoder :=
  { lexer := NewLexer r }

/-- The method `genSyntaxError` of the decoder. -/
def Decoder.genSyntaxError (d : Decoder) (e : ErrMsg) : Error :=
  Error.DecoderSyntaxError d.lexer.currline e

/-- The method `genTypeError`. -/
def Decoder.genTypeError (d : Decoder) (tp : Kind) (corrects : List Kind) : Error :=
  Error.DecoderTypeError d.lexer.currline tp corrects

/-- The two flags of a `reflect.Value` the decoder depends on: `addr`
(addressable) and `ro` (reached through an unexported field). -/
structure Flag where
  addr : Bool
  ro : Bool
  deriving DecidableEq, Repr

/-- The method `CanSet`: addressable and not read-only. -/
def Flag.CanSet (fl : Flag) : Bool := fl.addr && !fl.ro

/-- The flags of `rv.Field(i)`: the field of an unexported name is read-only. -/
def Flag.field (fl : Flag) (exported : Bool) : Flag :=
  { addr := fl.addr, ro := fl.ro || !exported }

/-- The run-time panics of `reflect.Value.SetMapIndex`. -/
inductive Panic
  /-- The map was reached through an unexported field. -/
  | unexportedField
  /-- A string key is not assignable to the key type of the map. -/
  | keyNotAssignable
  /-- The message "assignment to entry in nil map". -/
  | nilMap
  deriving DecidableEq, Repr

/-- How a call ends: it returns `nil`, it returns an error, or it does not
return (a run-time panic).  `outOfFuel` is the embedding running out of
recursion budget; no Go behaviour corresponds to it. -/
inductive Outcome
  | ok
  | err (e : Error)
  | panic (p : Panic)
  | outOfFuel
  deriving DecidableEq, Repr

/-- The state after a decoder method that is given a `reflect.Value`: how the
call ended, the decoder, and the value behind the `reflect.Value`. -/
structure DecState where
  out : Outcome
  d : Decoder
  rv : Value

/-- Size in bits of a signed integer kind. -/
def IntKind.bits (P : Platform) : IntKind → Nat
  | IntKind.Int => P.intSize
  | IntKind.Int8 => 8
  | IntKind.Int16 => 16
  | IntKind.Int32 => 32
  | IntKind.Int64 => 64

/-- Size in bits of an unsigned integer kind. -/
def UintKind.bits (P : Platform) : UintKind → Nat
  | UintKind.Uint => P.intSize
  | UintKind.Uint8 => 8
  | UintKind.Uint16 => 16
  | UintKind.Uint32 => 32
  | UintKind.Uint64 => 64

/-- The method `nullLiteral`. -/
def nullLiteral (fl : Flag) (rv : Value) : Option Error × Value :=
  if !fl.CanSet then (some (Error.plain ErrMsg.ErrUnsettableValue), rv)
  else if rv.kind = Kind.Ptr ∨ rv.kind = Kind.Map ∨ rv.kind = Kind.Slice then
    (none, rv.typeOf.zero)
  else (none, rv)

/-- The method `boolLiteral`. -/
def boolLiteral (fl : Flag) (rv : Value) (b : Bool) : Option Error × Value :=
  if !fl.CanSet ∨ rv.kind ≠ Kind.Bool then (some (Error.plain ErrMsg.ErrUnsettableValue), rv)
  else (none, Value.bool b)

/-- The method `stringLiteral`. -/
def stringLiteral (fl : Flag) (rv : Value) (s : List Nat) : Option Error × Value :=
  if !fl.CanSet ∨ rv.kind ≠ Kind.String then (some (Error.plain ErrMsg.ErrUnsettableValue), rv)
  else (none, Value.string s)

/-- The method `numberLiteral`: `SetInt` and `SetUint` keep the low bits of the
size of the kind, `SetFloat` converts to the kind. -/
def numberLiteral (P : Platform) (fl : Flag) (rv : Value) (n : F64) : Option Error × Value :=
  if !fl.CanSet then (some (Error.plain ErrMsg.ErrUnsettableValue), rv)
  else
    match rv with
    | Value.int k _ => (none, Value.int k (wrapInt (k.bits P) (int64OfFloat P n)))
    | Value.uint k _ => (none, Value.uint k (uint64OfFloat P n % 2 ^ k.bits P))
    | Value.float FloatKind.Float32 _ => (none, Value.float FloatKind.Float32 n.toFloat32)
    | Value.float FloatKind.Float64 _ => (none, Value.float FloatKind.Float64 n)
    | v => (some (Error.plain ErrMsg.ErrUnsettableValue), v)

/-- The tail of the literal cases of `value`: after the literal is stored, one
`Lex`, whose error is returned. -/
def afterLiteral (P : Platform) (d : Decoder) (r : Option Error × Value) : DecState :=
  match r with
  | (some e, rv) => ⟨Outcome.err e, d, rv⟩
  | (none, rv) =>
    let lx := d.lexer.Lex P
    match lx.err with
    | some e => ⟨Outcome.err e, ⟨lx.lexer⟩, rv⟩
    | none => ⟨Outcome.ok, ⟨lx.lexer⟩, rv⟩

/-- The method `value`, given the method `object` it calls on a left brace.
After `object` returns, and on a left bracket, no token is read.  The string
handed to `stringLiteral` is the Go string of the payload, its bytes. -/
def valueWith (P : Platform) (object : Decoder → Flag → Value → DecState)
    (d : Decoder) (fl : Flag) (rv : Value) : DecState :=
  match d.lexer.currtoken with
  | Token.TK_LBRACE => object d fl rv
  | Token.TK_LBRACKET => ⟨Outcome.ok, d, rv⟩
  | Token.TK_TRUE => afterLiteral P d (boolLiteral fl rv true)
  | Token.TK_FALSE => afterLiteral P d (boolLiteral fl rv false)
  | Token.TK_NULL => afterLiteral P d (nullLiteral fl rv)
  | Token.TK_STRING_LITERAL =>
    afterLiteral P d (stringLiteral fl rv (encodeRunes d.lexer.svalue))
  | Token.TK_NUMBER_LITERAL => afterLiteral P d (numberLiteral P fl rv d.lexer.nvalue)
  | _ => ⟨Outcome.ok, d, rv⟩

/-- The `for i := 0; i < NumField(); i++` loop of `object`: the first field
named `key` is decoded by `value`; when no field has that name nothing is
done. -/
def fieldLoop (value : Decoder → Flag → Value → DecState) (d : Decoder) (fl : Flag)
    (key : List Nat) :
    List (List Nat × Bool × Value) → Outcome × Decoder × List (List Nat × Bool × Value)
  | [] => (Outcome.ok, d, [])
  | (name, exported, v) :: fs =>
    if name = key then
      let s := value d (fl.field exported) v
      (s.out, s.d, (name, exported, s.rv) :: fs)
    else
      let r := fieldLoop value d fl key fs
      (r.1, r.2.1, (name, exported, v) :: r.2.2)

/-- The assignment `m[k] = v` on the entries of a map. -/
def mapAssign (k : Key) (v : Value) : List (Key × Value) → List (Key × Value)
  | [] => [(k, v)]
  | (k1, v1) :: es => if k1 = k then (k, v) :: es else (k1, v1) :: mapAssign k v es

/-- The call `rv.SetMapIndex(reflect.ValueOf(key), value)` for a string `key`:
it panics when `rv` was reached through an unexported field, when a string is
not assignable to the key type (the key type is neither `string` nor the empty
interface), and when the map is nil. -/
def SetMapIndex (fl : Flag) (keyT elemT : GoType) (entries : Option (List (Key × Value)))
    (key : List Nat) (value : Value) : Outcome × Value :=
  if fl.ro then (Outcome.panic Panic.unexportedField, Value.map keyT elemT entries)
  else if keyT.kind ≠ Kind.String ∧ keyT.kind ≠ Kind.Interface then
    (Outcome.panic Panic.keyNotAssignable, Value.map keyT elemT entries)
  else
    match entries with
    | none => (Outcome.panic Panic.nilMap, Value.map keyT elemT none)
    | some es => (Outcome.ok, Value.map keyT elemT (some (mapAssign (Key.string key) value es)))

/-- The method `object`, given its `for` loop: the kind check in front of it. -/
def objectWith (loop : Decoder → Flag → Value → DecState)
    (d : Decoder) (fl : Flag) (rv : Value) : DecState :=
  if rv.kind ≠ Kind.Struct ∧ rv.kind ≠ Kind.Map then
    ⟨Outcome.err (d.genTypeError rv.kind [Kind.Struct, Kind.Map]), d, rv⟩
  else loop d fl rv

/-- The `for` loop of `object` together with the check that follows it: one
member per iteration; `fuel` bounds the iterations and the nesting. -/
def objectLoop (P : Platform) : Nat → Decoder → Flag → Value → DecState
  | 0, d, _, rv => ⟨Outcome.outOfFuel, d, rv⟩
  | fuel + 1, d, fl, rv =>
    let r1 := d.lexer.Lex P
    match r1.err with
    | some e => ⟨Outcome.err e, ⟨r1.lexer⟩, rv⟩
    | none =>
      if r1.lexer.currtoken ≠ Token.TK_STRING_LITERAL then
        ⟨Outcome.err (Decoder.genSyntaxError ⟨r1.lexer⟩ ErrMsg.mustBeStringLiteral), ⟨r1.lexer⟩, rv⟩
      else
        let key := encodeRunes r1.lexer.svalue
        let r2 := r1.lexer.Lex P
        match r2.err with
        | some e => ⟨Outcome.err e, ⟨r2.lexer⟩, rv⟩
        | none =>
          if r2.lexer.currtoken ≠ Token.TK_COLON then
            ⟨Outcome.err (Decoder.genSyntaxError ⟨r2.lexer⟩ ErrMsg.mustBeColon), ⟨r2.lexer⟩, rv⟩
          else
            let r3 := r2.lexer.Lex P
            match r3.err with
            | some e => ⟨Outcome.err e, ⟨r3.lexer⟩, rv⟩
            | none =>
              let value := valueWith P (objectWith (objectLoop P fuel))
              let s : DecState :=
                match rv with
                | Value.struct fields =>
                  let r := fieldLoop value ⟨r3.lexer⟩ fl key fields
                  ⟨r.1, r.2.1, Value.struct r.2.2⟩
                | Value.map keyT elemT entries =>
                  let s1 := value ⟨r3.lexer⟩ ⟨true, false⟩ elemT.zero
                  match s1.out with
                  | Outcome.ok =>
                    let r := SetMapIndex fl keyT elemT entries key s1.rv
                    ⟨r.1, s1.d, r.2⟩
                  | o => ⟨o, s1.d, rv⟩
                | other => ⟨Outcome.ok, ⟨r3.lexer⟩, other⟩
              match s.out with
              | Outcome.ok =>
                if s.d.lexer.currtoken = Token.TK_COMMA then objectLoop P fuel s.d fl s.rv
                else if s.d.lexer.currtoken ≠ Token.TK_RBRACE then
                  ⟨Outcome.err (s.d.genSyntaxError ErrMsg.mustBeRightBrace), s.d, s.rv⟩
                else ⟨Outcome.ok, s.d, s.rv⟩
              | _ => s

/-- The method `object`. -/
def Decoder.object (P : Platform) (fuel : Nat) (d : Decoder) (fl : Flag) (rv : Value) :
    DecState :=
  objectWith (objectLoop P fuel) d fl rv

/-- The method `value`. -/
def Decoder.value (P : Platform) (fuel : Nat) (d : Decoder) (fl : Flag) (rv : Value) :
    DecState :=
  valueWith P (objectWith (objectLoop P fuel)) d fl rv

/-- The argument `v` of `Decode` when it is a non-nil pointer: the type of the
variable it points to and the value the variable holds. -/
structure Target where
  ty : GoType
  cur : Value

/-- The result of `Decode`: how the call ended, the decoder, and the argument
with what its variable holds afterwards. -/
structure DecodeResult where
  out : Outcome
  d : Decoder
  v : Option Target

/-- The method `Decode`.  The argument is `none` when `v` is not a pointer or is
a nil pointer.  A map is decoded into the value of `reflect.MakeMap` (not
addressable), any other target into the variable of `reflect.New`
(addressable); the caller's variable is assigned after `value` returned `nil`.
The recursion budget is the length of the unread text plus one: every
iteration of `object` reads at least one rune before it goes on. -/
def Decoder.Decode (P : Platform) (d : Decoder) (v : Option Target) : DecodeResult :=
  let fuel := d.lexer.input.length + 1
  let lx := d.lexer.Lex P
  match lx.err with
  | some e => ⟨Outcome.err e, ⟨lx.lexer⟩, v⟩
  | none =>
    let d1 : Decoder := ⟨lx.lexer⟩
    match v with
    | none => ⟨Outcome.err (d1.genSyntaxError ErrMsg.ErrUnsettableValue), d1, none⟩
    | some t =>
      if t.ty.kind = Kind.Map then
        let tmp :=
          match t.ty with
          | GoType.map key elem => Value.map key elem (some [])
          | other => other.zero
        let s := Decoder.value P fuel d1 ⟨false, false⟩ tmp
        match s.out with
        | Outcome.ok => ⟨Outcome.ok, s.d, some ⟨t.ty, s.rv⟩⟩
        | o => ⟨o, s.d, some t⟩
      else
        let s := Decoder.value P fuel d1 ⟨true, false⟩ t.ty.zero
        match s.out with
        | Outcome.ok => ⟨Outcome.ok, s.d, some ⟨t.ty, s.rv⟩⟩
        | o => ⟨o, s.d, some t⟩

/-! ## encoder.go -/

/-- The decimal digits of `n`, most significant first, in front of `acc`;
`fuel` bounds the number of digits. -/
def formatNatAux : Nat → Nat → List Nat → List Nat
  | 0, _, acc => acc
  | fuel + 1, n, acc =>
    if n < 10 then (48 + n) :: acc else formatNatAux fuel (n / 10) ((48 + n % 10) :: acc)

/-- The decimal digits of a natural number. -/
def formatNat (n : Nat) : List Nat := formatNatAux (n + 1) n []

/-- The function `strconv.FormatInt(i, 10)`: a minus sign for a negative
number, then the decimal digits of the magnitude. -/
def FormatInt (i : Int) : List Nat :=
  if i < 0 then 45 :: formatNat i.natAbs else formatNat i.natAbs

/-- The function `strconv.FormatBool`: the text `true` or `false`. -/
def FormatBool (b : Bool) : List Nat :=
  if b then [116, 114, 117, 101] else [102, 97, 108, 115, 101]

/-- The last `w` decimal digits of `n`, zero padded. -/
def fixedDigits : Nat → Nat → List Nat
  | 0, _ => []
  | w + 1, n => fixedDigits w (n / 10) ++ [48 + n % 10]

/-- The function `strconv.FormatFloat(f, 'f', 10, 64)`: the sign, the integer
digits, a point and ten fraction digits of `f` rounded to ten decimals (ties to
even); `NaN`, `+Inf` and `-Inf` for the other data. -/
def FormatFloat : F64 → List Nat
  | F64.nan => [78, 97, 78]
  | F64.inf false => [43, 73, 110, 102]
  | F64.inf true => [45, 73, 110, 102]
  | F64.fin neg m e =>
    let n : Nat := if 0 ≤ e then m * 2 ^ e.toNat * 10 ^ 10
                   else divRoundEven (m * 10 ^ 10) (2 ^ (-e).toNat)
    (if neg then [45] else []) ++ formatNat (n / 10 ^ 10) ++ [46] ++ fixedDigits 10 (n % 10 ^ 10)

/-- The method `encStringLiteral`: a double quote, the string as it is, a double
quote. -/
def encStringLiteral (s : List Nat) : List Nat := [34] ++ s ++ [34]

mutual
/-- The method `encValue`, with the bodies of `encArrayOrSlice`, `encMap` and
`encStruct` in its cases: the text appended to the buffer (a `bytes.Buffer`
write never returns an error).  Unsigned integers, pointers and the other kinds
fall into the `default` case and append nothing. -/
def encValue : Value → List Nat
  | Value.int _ i => FormatInt i
  | Value.float _ f => FormatFloat f
  | Value.bool b => FormatBool b
  | Value.string s => encStringLiteral s
  | Value.slice _ none => [91, 93]
  | Value.slice _ (some elems) => [91] ++ encArrayOrSliceLoop elems ++ [93]
  | Value.array _ elems => [91] ++ encArrayOrSliceLoop elems ++ [93]
  | Value.map _ _ none => [123, 125]
  | Value.map keyT _ (some entries) =>
    if entries.isEmpty then [123, 125]
    else if keyT.kind ≠ Kind.String then [123]
    else [123] ++ encMapLoop entries ++ [125]
  | Value.struct fields => [123] ++ encStructLoop fields ++ [125]
  | _ => []
/-- The loop of `encArrayOrSlice`: the elements, a comma after each but the last. -/
def encArrayOrSliceLoop : List Value → List Nat
  | [] => []
  | v :: [] => encValue v
  | v :: w :: vs => encValue v ++ [44] ++ encArrayOrSliceLoop (w :: vs)
/-- The loop of `encMap` over the keys in the order `MapKeys` lists them, here
the order of the entries: each key between quotes, a colon, the value, and a
comma after each entry but the last.  `reflect` leaves the order of `MapKeys`
unspecified, so the text of a map with two or more entries is determined only
up to the order of its entries. -/
def encMapLoop : List (Key × Value) → List Nat
  | [] => []
  | (k, v) :: [] => encKey k ++ encValue v
  | (k, v) :: e :: es => encKey k ++ encValue v ++ [44] ++ encMapLoop (e :: es)
/-- The loop of `encStruct`: each field name between quotes, a colon, the field
value, and a comma after each field but the last. -/
def encStructLoop : List (List Nat × Bool × Value) → List Nat
  | [] => []
  | (name, _, v) :: [] => [34] ++ name ++ [34, 58] ++ encValue v
  | (name, _, v) :: f :: fs => [34] ++ name ++ [34, 58] ++ encValue v ++ [44] ++ encStructLoop (f :: fs)
/-- The key of an entry as `encMap` writes it: quote, the string, quote, colon. -/
def encKey : Key → List Nat
  | Key.string s => [34] ++ s ++ [34, 58]
  | Key.other _ => [34, 34, 58]
end

/-- The structure `Encoder`: the `Write` method of its writer, as the error it
returns for a text, and the buffer, which no method of the encoder empties. -/
structure Encoder where
  writer : List Nat → Option Error
  buf : List Nat

/-- The constructor `NewEncoder`: the buffer starts empty. -/
def NewEncoder (w : List Nat → Option Error) : Encoder :=
  { writer := w, buf := [] }

/-- The result of `Encode`: the returned error, the texts handed to the `Write`
method of the writer, in order, and the encoder after the call. -/
structure EncodeResult where
  err : Option Error
  written : List (List Nat)
  e : Encoder

/-- The method `Encode`: `encValue` appends the text of `v` to the buffer, the
whole buffer is written once, and what `Write` returns is dropped. -/
def Encoder.Encode (e : Encoder) (v : Value) : EncodeResult :=
  let e1 : Encoder := { e with buf := e.buf ++ encValue v }
  let _dropped := e1.writer e1.buf
  ⟨none, [e1.buf], e1⟩

/-- The call `NewEncoder(w).Encode(v)`: one value encoded by an encoder of its
own, as `encoder_test.go` does. -/
def Encode (w : List Nat → Option Error) (v : Value) : EncodeResult :=
  (NewEncoder w).Encode v

/-! ## Texts and runs, for the statements about the lexer -/

/-- A text of blanks: tab (9), newline (10), carriage return (13), space (32). -/
def IsWs (ws : List Nat) : Prop := ∀ c ∈ ws, c = 9 ∨ c = 10 ∨ c = 13 ∨ c = 32

/-- The number of newlines of a text. -/
def newlines (ws : List Nat) : Nat := ws.count 10

/-- The lexer `l` after a call of `Lex` that skipped the blanks `ws`, scanned a
token `tok` with the payload `sv`, `nv`, and left `rest` unread. -/
def Lexer.scanned (l : Lexer) (tok : Token) (ws rest sv : List Nat) (nv : F64) : Lexer :=
  { currtoken := tok, currline := l.currline + newlines ws, input := rest, svalue := sv,
    nvalue := nv, isused := true }

/-- The content of a string literal without escapes: no double quote (34), no
backslash (92), no newline (10). -/
def Clean (s : List Nat) : Prop := ∀ c ∈ s, c ≠ 34 ∧ c ≠ 92 ∧ c ≠ 10

/-- A text of ASCII decimal digits. -/
def IsDigits (ds : List Nat) : Prop := ∀ c ∈ ds, 48 ≤ c ∧ c ≤ 57

/-- The number a text of decimal digits denotes. -/
def digitsValue (ds : List Nat) : Nat := ds.foldl (fun a c => a * 10 + (c - 48)) 0

/-- The text of a decimal integer literal: an optional minus sign, the digits. -/
def numText (neg : Bool) (ds : List Nat) : List Nat := (if neg then [45] else []) ++ ds

/-- The integer a decimal integer literal denotes. -/
def numValue (neg : Bool) (ds : List Nat) : Int :=
  if neg then -(digitsValue ds : Int) else (digitsValue ds : Int)

/-- A text `readNumber` stops in front of: empty, or starting with a rune that
is no point, no digit and no exponent mark. -/
def NumStop (P : Platform) (rest : List Nat) : Prop :=
  ∀ c, rest.head? = some c → ¬(c = 46 ∨ isDigit P c = true ∨ isExponent c = true)

/-- A text `readKeyword` stops in front of: empty, or starting with a rune that
is no letter. -/
def KwStop (P : Platform) (rest : List Nat) : Prop :=
  ∀ c, rest.head? = some c → isLetter P c = false

/-- The six punctuation marks. -/
inductive Punct
  | lbrace | rbrace | lbracket | rbracket | colon | comma
  deriving DecidableEq, Repr

/-- The rune of a punctuation mark. -/
def Punct.rune : Punct → Nat
  | Punct.lbrace => 123
  | Punct.rbrace => 125
  | Punct.lbracket => 91
  | Punct.rbracket => 93
  | Punct.colon => 58
  | Punct.comma => 44

/-- The token of a punctuation mark. -/
def Punct.token : Punct → Token
  | Punct.lbrace => Token.TK_LBRACE
  | Punct.rbrace => Token.TK_RBRACE
  | Punct.lbracket => Token.TK_LBRACKET
  | Punct.rbracket => Token.TK_RBRACKET
  | Punct.colon => Token.TK_COLON
  | Punct.comma => Token.TK_COMMA

/-- The three keywords. -/
inductive Keyword
  | kwTrue | kwFalse | kwNull
  deriving DecidableEq, Repr

/-- The spelling of a keyword. -/
def Keyword.text : Keyword → List Nat
  | Keyword.kwTrue => [116, 114, 117, 101]
  | Keyword.kwFalse => [102, 97, 108, 115, 101]
  | Keyword.kwNull => [110, 117, 108, 108]

/-- The token of a keyword. -/
def Keyword.token : Keyword → Token
  | Keyword.kwTrue => Token.TK_TRUE
  | Keyword.kwFalse => Token.TK_FALSE
  | Keyword.kwNull => Token.TK_NULL

/-- A lexeme of the texts of the tokenization statement: a punctuation mark, a
keyword, a string literal given by its content, or a decimal integer literal
given by its sign and its digits. -/
inductive Lexeme
  | punct (p : Punct)
  | keyword (k : Keyword)
  | str (content : List Nat)
  | num (neg : Bool) (digits : List Nat)

/-- The text of a lexeme. -/
def Lexeme.text : Lexeme → List Nat
  | Lexeme.punct p => [p.rune]
  | Lexeme.keyword k => k.text
  | Lexeme.str s => [34] ++ s ++ [34]
  | Lexeme.num neg ds => numText neg ds

/-- The token kind of a lexeme. -/
def Lexeme.token : Lexeme → Token
  | Lexeme.punct p => p.token
  | Lexeme.keyword k => k.token
  | Lexeme.str _ => Token.TK_STRING_LITERAL
  | Lexeme.num _ _ => Token.TK_NUMBER_LITERAL

/-- Well-formed lexemes: the content of a string holds no double quote,
backslash or newline; a number has at least one digit, all ASCII digits. -/
def Lexeme.WF : Lexeme → Prop
  | Lexeme.str s => Clean s
  | Lexeme.num _ ds => IsDigits ds ∧ ds ≠ []
  | _ => True

/-- The magnitude of a number lexeme is at most `2^53`. -/
def Lexeme.Small : Lexeme → Prop
  | Lexeme.num _ ds => digitsValue ds ≤ 2 ^ 53
  | _ => True

/-- Numbers and keywords, the lexemes that need a blank between them. -/
def Lexeme.isWord : Lexeme → Bool
  | Lexeme.keyword _ => true
  | Lexeme.num _ _ => true
  | _ => false

/-- The text of a list of lexemes, each with the blanks in front of it. -/
def lexemesText : List (List Nat × Lexeme) → List Nat
  | [] => []
  | (ws, x) :: items => ws ++ (x.text ++ lexemesText items)

/-- Between two adjacent lexemes that are both numbers or keywords there is at
least one blank. -/
def Separated : List (List Nat × Lexeme) → Prop
  | [] => True
  | [_] => True
  | (_, x) :: (ws, y) :: items =>
    (x.isWord = true → y.isWord = true → ws ≠ []) ∧ Separated ((ws, y) :: items)

/-- The results of `n` successive calls of `Lex`. -/
def lexRun (P : Platform) : Nat → Lexer → List LexResult
  | 0, _ => []
  | n + 1, l => l.Lex P :: lexRun P n (l.Lex P).lexer

/-- The call of `Lex` with result `r` returned the token kind of the lexeme `x`
with a nil error, and left the payload of `x`: the content of a string, the
value of a number. -/
def Lexeme.Scanned (x : Lexeme) (r : LexResult) : Prop :=
  r.tok = x.token ∧ r.err = none ∧
    match x with
    | Lexeme.str s => r.lexer.svalue = s
    | Lexeme.num neg ds => r.lexer.nvalue.val = some (numValue neg ds : ℚ)
    | _ => True

/-- A platform to evaluate the definitions on concrete texts: 64-bit `int`, the
out-of-range conversion results of amd64, and range tables with no rune beyond
Latin-1 (the texts evaluated hold none). -/
def Platform.sample : Platform :=
  { letterTable := fun _ => false, digitTable := fun _ => false, is64 := true,
    int64Conv := fun _ => -(2 : Int) ^ 63, uint64Conv := fun _ => 2 ^ 63 }

/-- A text that starts, if it is not empty, with a blank, a punctuation mark or
a double quote. -/
def Delimited (rest : List Nat) : Prop :=
  ∀ c, rest.head? = some c →
    c = 9 ∨ c = 10 ∨ c = 13 ∨ c = 32 ∨ c = 123 ∨ c = 125 ∨ c = 91 ∨ c = 93 ∨ c = 58 ∨ c = 44
      ∨ c = 34

/-- The code points of a string literal, to write the texts of the examples.
For the ASCII texts of the examples they are the bytes of the text as well. -/
def runes (s : String) : List Nat := s.toList.map Char.toNat

/-! ## Sample types, for the examples -/

/-- The record type `S1` of `decoder_test.go`: `struct { X int; Y int }`. -/
def S1 : GoType :=
  GoType.struct [(runes "X", true, GoType.int IntKind.Int), (runes "Y", true, GoType.int IntKind.Int)]

/-- A value of type `S1`. -/
def S1.mk (x y : Int) : Value :=
  Value.struct [(runes "X", true, Value.int IntKind.Int x), (runes "Y", true, Value.int IntKind.Int y)]

/-- The type `map[string]int`. -/
def mapStringInt : GoType := GoType.map GoType.string (GoType.int IntKind.Int)

/-- Whether a type is a scalar: boolean, integer, float or string. -/
def GoType.isScalar : GoType → Bool
  | GoType.bool => true
  | GoType.int _ => true
  | GoType.uint _ => true
  | GoType.float _ => true
  | GoType.string => true
  | _ => false

/-! ## String literals with escapes -/

/-- An ASCII hexadecimal digit: `0` to `9`, `A` to `F`, `a` to `f`. -/
def IsHex (x : Nat) : Prop := (48 ≤ x ∧ x ≤ 57) ∨ (65 ≤ x ∧ x ≤ 70) ∨ (97 ≤ x ∧ x ≤ 102)

/-- One item of the content of a string literal: an ordinary character, a
backslash with one character after it, or `\u` with four characters after it. -/
inductive StrItem
  | plain (c : Nat)
  | escape (c : Nat)
  | unicode (x1 x2 x3 x4 : Nat)
  deriving DecidableEq, Repr

/-- The text of an item (92 is the backslash, 117 is `u`). -/
def StrItem.text : StrItem → List Nat
  | StrItem.plain c => [c]
  | StrItem.escape c => [92, c]
  | StrItem.unicode x1 x2 x3 x4 => [92, 117, x1, x2, x3, x4]

/-- The well-formed items: an ordinary character is no double quote, backslash
or newline; the character of an escape is one of `"`, `/`, `\`, `b`, `f`, `n`,
`r`, `t`; the four characters of a `\u` escape are hexadecimal digits. -/
def StrItem.WF : StrItem → Prop
  | StrItem.plain c => c ≠ 34 ∧ c ≠ 92 ∧ c ≠ 10
  | StrItem.escape c =>
    c = 34 ∨ c = 47 ∨ c = 92 ∨ c = 98 ∨ c = 102 ∨ c = 110 ∨ c = 114 ∨ c = 116
  | StrItem.unicode x1 x2 x3 x4 => IsHex x1 ∧ IsHex x2 ∧ IsHex x3 ∧ IsHex x4

/-- What an item stands for: an ordinary character itself; backspace (8), form
feed (12), line feed (10), carriage return (13) and tab (9) for `\b`, `\f`,
`\n`, `\r`, `\t`; the character after the backslash for the escapes of `"`, `/`
and `\`; the four digit characters themselves for `\u`. -/
def StrItem.payload : StrItem → List Nat
  | StrItem.plain c => [c]
  | StrItem.escape c =>
    if c = 98 then [8] else if c = 102 then [12] else if c = 110 then [10]
    else if c = 114 then [13] else if c = 116 then [9] else [c]
  | StrItem.unicode x1 x2 x3 x4 => [x1, x2, x3, x4]

/-- The text of a list of items, one after the other. -/
def itemsText : List StrItem → List Nat
  | [] => []
  | i :: is => i.text ++ itemsText is

/-- What a list of items stands for. -/
def itemsPayload : List StrItem → List Nat
  | [] => []
  | i :: is => i.payload ++ itemsPayload is

/-- Whether an item is a `\u` escape. -/
def StrItem.isUnicode : StrItem → Bool
  | StrItem.unicode _ _ _ _ => true
  | _ => false

/-- The value of a hexadecimal digit. -/
def hexValue (x : Nat) : Nat :=
  if x ≤ 57 then x - 48 else if x ≤ 70 then x - 55 else x - 87

/-- The character a JSON string item denotes: as `StrItem.payload`, but a `\u`
escape denotes the character whose code its four hexadecimal digits spell. -/
def StrItem.meaning : StrItem → List Nat
  | StrItem.unicode x1 x2 x3 x4 =>
    [hexValue x1 * 4096 + hexValue x2 * 256 + hexValue x3 * 16 + hexValue x4]
  | i => i.payload

/-- The characters a list of items denotes. -/
def itemsMeaning : List StrItem → List Nat
  | [] => []
  | i :: is => i.meaning ++ itemsMeaning is

/-! ## Object texts, for the statements about records -/

/-- The exponent part of a number literal: the marker (`E` when `upper`, else
`e`), the sign (`-` when `neg`, else `+`) and the digits. -/
structure Exponent where
  upper : Bool
  neg : Bool
  digits : List Nat

/-- What stands behind the colon of a member.  A scalar literal: a boolean
keyword; a decimal integer literal (sign and digits); a number literal with a
fraction part or an exponent part (sign, integer digits, fraction digits, none
for no fraction part, and exponent); a string literal (its items).  Or no
literal at all (`nothing`), which is what `encValue` writes for a value of a
kind it has no case for. -/
inductive Lit
  | bool (b : Bool)
  | num (neg : Bool) (digits : List Nat)
  | dec (neg : Bool) (ip fp : List Nat) (ex : Option Exponent)
  | str (items : List StrItem)
  | nothing

/-- The text of a fraction part: a point and the digits, nothing for no digits. -/
def fracText (fp : List Nat) : List Nat := if fp = [] then [] else 46 :: fp

/-- The text of an exponent part: the marker, the sign, the digits. -/
def expText : Option Exponent → List Nat
  | none => []
  | some e => (if e.upper then 69 else 101) :: (if e.neg then 45 else 43) :: e.digits

/-- The integer an exponent part denotes, 0 for none. -/
def expValue : Option Exponent → Int
  | none => 0
  | some e => if e.neg then -(digitsValue e.digits : Int) else (digitsValue e.digits : Int)

/-- The text of a literal. -/
def Lit.text : Lit → List Nat
  | Lit.bool b => FormatBool b
  | Lit.num neg ds => numText neg ds
  | Lit.dec neg ip fp ex => numText neg ip ++ (fracText fp ++ expText ex)
  | Lit.str items => [34] ++ itemsText items ++ [34]
  | Lit.nothing => []

/-- Well-formed literals: the integer part of a number has at least one digit,
all its digits are ASCII digits, and an exponent part has at least one digit;
the items of a string are well formed.  No literal at all is not a well-formed
literal. -/
def Lit.WF : Lit → Prop
  | Lit.bool _ => True
  | Lit.num _ ds => IsDigits ds ∧ ds ≠ []
  | Lit.dec _ ip fp ex =>
    IsDigits ip ∧ ip ≠ [] ∧ IsDigits fp
      ∧ (∀ e, ex = some e → IsDigits e.digits ∧ e.digits ≠ [])
  | Lit.str items => ∀ i ∈ items, i.WF
  | Lit.nothing => False

/-- What `value` reads in front of a comma or a right brace without an error: a
well-formed literal, or no literal at all. -/
def Lit.Readable (lit : Lit) : Prop := lit = Lit.nothing ∨ lit.WF

/-- The binary64 value of a number literal: the decimal number it denotes,
`digits * 10 ^ (exponent - number of fraction digits)`, rounded to the nearest
datum. -/
def Lit.float : Lit → F64
  | Lit.num neg ds => F64.round neg (digitsValue ds) 1
  | Lit.dec neg ip fp ex =>
    let x : Int := expValue ex - (fp.length : Int)
    if 0 ≤ x then F64.round neg (digitsValue (ip ++ fp) * 10 ^ x.toNat) 1
    else F64.round neg (digitsValue (ip ++ fp)) (10 ^ (-x).toNat)
  | _ => F64.zero

/-- The value of a literal as a value of the kind of `old`, when the literal is
of that kind and in its range: a boolean for a boolean; for a signed or
unsigned integer kind an integer literal that binary64 holds exactly (every
integer of magnitude at most `2^53` is one) within the range of the kind; for
a float kind a number literal, as the binary64 datum nearest to it, converted
to the kind; for a string a string literal without `\u` escape, as the bytes
of the characters it denotes.  Where no literal stands, `value` stores nothing
and the value is `old`. -/
def Lit.asValueOf (P : Platform) : Value → Lit → Option Value
  | old, Lit.nothing => some old
  | Value.bool _, Lit.bool b => some (Value.bool b)
  | Value.int k _, Lit.num neg ds =>
    if (F64.round neg (digitsValue ds) 1).trunc = some (numValue neg ds)
        ∧ -(2 : Int) ^ (k.bits P - 1) ≤ numValue neg ds
        ∧ numValue neg ds < (2 : Int) ^ (k.bits P - 1) then
      some (Value.int k (numValue neg ds))
    else none
  | Value.uint k _, Lit.num neg ds =>
    if (F64.round neg (digitsValue ds) 1).trunc = some (numValue neg ds)
        ∧ 0 ≤ numValue neg ds ∧ numValue neg ds < (2 : Int) ^ k.bits P then
      some (Value.uint k (numValue neg ds).toNat)
    else none
  | Value.float FloatKind.Float64 _, Lit.num neg ds =>
    some (Value.float FloatKind.Float64 (Lit.num neg ds).float)
  | Value.float FloatKind.Float64 _, Lit.dec neg ip fp ex =>
    some (Value.float FloatKind.Float64 (Lit.dec neg ip fp ex).float)
  | Value.float FloatKind.Float32 _, Lit.num neg ds =>
    some (Value.float FloatKind.Float32 (Lit.num neg ds).float.toFloat32)
  | Value.float FloatKind.Float32 _, Lit.dec neg ip fp ex =>
    some (Value.float FloatKind.Float32 (Lit.dec neg ip fp ex).float.toFloat32)
  | Value.string _, Lit.str items =>
    if items.all (fun i => !i.isUnicode) then
      some (Value.string (encodeRunes (itemsMeaning items)))
    else none
  | _, _ => none

/-- A member of an object text: the key (the characters between its quotes)
and the literal, with the blanks in front of the key, of the colon and of the
literal, and behind the literal. -/
structure Member where
  ws1 : List Nat
  key : List Nat
  ws2 : List Nat
  ws3 : List Nat
  lit : Lit
  ws4 : List Nat

/-- The field name a member names: the bytes of its key. -/
def Member.name (m : Member) : List Nat := encodeRunes m.key

/-- The text of a member: blanks, the key between quotes, blanks, a colon,
blanks, the literal, blanks. -/
def Member.text (m : Member) : List Nat :=
  m.ws1 ++ (34 :: (m.key ++ 34 :: (m.ws2 ++ 58 :: (m.ws3 ++ (m.lit.text ++ m.ws4)))))

/-- Well-formed members: blanks where blanks are, a key without double quote,
backslash and newline, a well-formed literal. -/
def Member.WF (m : Member) : Prop :=
  IsWs m.ws1 ∧ Clean m.key ∧ IsWs m.ws2 ∧ IsWs m.ws3 ∧ m.lit.WF ∧ IsWs m.ws4

/-- The members the loop of `object` reads without an error: as the well-formed
ones, but the literal may be missing. -/
def Member.Readable (m : Member) : Prop :=
  IsWs m.ws1 ∧ Clean m.key ∧ IsWs m.ws2 ∧ IsWs m.ws3 ∧ m.lit.Readable ∧ IsWs m.ws4

/-- The text of the members of an object up to its right brace, followed by
`rest`: the members separated by commas. -/
def membersText (rest : List Nat) : List Member → List Nat
  | [] => 125 :: rest
  | m :: [] => m.text ++ 125 :: rest
  | m :: m1 :: ms => m.text ++ 44 :: membersText rest (m1 :: ms)

/-- The text of an object with the members `ms`, blanks `ws0` in front of its
left brace and the text `rest` behind its right brace. -/
def objectText (ws0 : List Nat) (ms : List Member) (rest : List Nat) : List Nat :=
  ws0 ++ 123 :: membersText rest ms

/-- The record `vs` after the literal `lit` is stored in its first field named
`key`. -/
def storeField (P : Platform) (key : List Nat) (lit : Lit) :
    List (List Nat × Bool × Value) → List (List Nat × Bool × Value)
  | [] => []
  | (name, exported, v) :: vs =>
    if name = key then (name, exported, (lit.asValueOf P v).getD v) :: vs
    else (name, exported, v) :: storeField P key lit vs

/-- The first field of a record named `key`: whether it is exported, and its
value. -/
def lookupField (key : List Nat) : List (List Nat × Bool × Value) → Option (Bool × Value)
  | [] => none
  | (name, exported, v) :: vs => if name = key then some (exported, v) else lookupField key vs

/-- What the record decoded from the members `ms` holds in the field declared
as `f`, as the field `g`: the name and the export mark of `f`; the value of the
literal of the member that names the field, if one does; the zero value of the
field type if none does. -/
def FieldHolds (P : Platform) (ms : List Member) (f : List Nat × Bool × GoType)
    (g : List Nat × Bool × Value) : Prop :=
  g.1 = f.1 ∧ g.2.1 = f.2.1
    ∧ (∀ m ∈ ms, m.name = f.1 → m.lit.asValueOf P f.2.2.zero = some g.2.2)
    ∧ ((∀ m ∈ ms, m.name ≠ f.1) → g.2.2 = f.2.2.zero)

/-- The token kind of a literal (`NO_TOKEN` where no literal stands). -/
def Lit.token : Lit → Token
  | Lit.bool true => Token.TK_TRUE
  | Lit.bool false => Token.TK_FALSE
  | Lit.num _ _ => Token.TK_NUMBER_LITERAL
  | Lit.dec _ _ _ _ => Token.TK_NUMBER_LITERAL
  | Lit.str _ => Token.TK_STRING_LITERAL
  | Lit.nothing => Token.NO_TOKEN

/-- The string payload `Lex` leaves for a literal. -/
def Lit.svalue : Lit → List Nat
  | Lit.str items => itemsPayload items
  | _ => []

/-- The numeric payload `Lex` leaves for a literal. -/
def Lit.nvalue : Lit → F64
  | Lit.num neg ds => parseFloat (numText neg ds)
  | Lit.dec neg ip fp ex => parseFloat (Lit.dec neg ip fp ex).text
  | _ => F64.zero

/-- The record `vs` after the literals of the members `ms` are stored in it, in
order. -/
def storeMembers (P : Platform) (ms : List Member) (vs : List (List Nat × Bool × Value)) :
    List (List Nat × Bool × Value) :=
  ms.foldl (fun acc m => storeField P m.name m.lit acc) vs

/-- Every member of `ms`, at its turn, names an exported field of the record
that holds a value its literal can be stored in. -/
def Storable (P : Platform) : List Member → List (List Nat × Bool × Value) → Prop
  | [], _ => True
  | m :: ms, vs =>
    (∃ v v1, lookupField m.name vs = some (true, v) ∧ m.lit.asValueOf P v = some v1)
      ∧ Storable P ms (storeField P m.name m.lit vs)

/-! ## Records whose fields survive the round trip -/

/-- A Unicode scalar value: a code point up to `0x10FFFF` that is no surrogate. -/
def IsScalar (r : Nat) : Prop := r < 0xD800 ∨ (0xDFFF < r ∧ r ≤ 0x10FFFF)

/-- A string that is valid UTF-8: the encoding of a sequence of Unicode scalar
values. -/
def ValidUTF8 (s : List Nat) : Prop := ∃ rs, (∀ r ∈ rs, IsScalar r) ∧ encodeRunes rs = s

/-- The magnitude of the finite datum `m * 2^e` times `10^10`, rounded to the
nearest integer (ties to even): the digits `FormatFloat` writes, without the
point. -/
def tenDecimals (m : Nat) (e : Int) : Nat :=
  if 0 ≤ e then m * 2 ^ e.toNat * 10 ^ 10 else divRoundEven (m * 10 ^ 10) (2 ^ (-e).toNat)

/-- The literal `encValue` writes for a boolean, a signed integer, a finite
float or a string, and no literal for an unsigned integer, which falls into
the `default` case (for another value: the empty string literal, which is
never used). -/
def Value.lit : Value → Lit
  | Value.bool b => Lit.bool b
  | Value.int _ i => Lit.num (decide (i < 0)) (formatNat i.natAbs)
  | Value.uint _ _ => Lit.nothing
  | Value.float _ (F64.fin neg m e) =>
    Lit.dec neg (formatNat (tenDecimals m e / 10 ^ 10))
      (fixedDigits 10 (tenDecimals m e % 10 ^ 10)) none
  | Value.string s => Lit.str ((readRunes s).map StrItem.plain)
  | _ => Lit.str []

/-- The strings of the round trip: valid UTF-8 without double quote, backslash
and newline. -/
def PlainString (s : List Nat) : Prop := Clean s ∧ ValidUTF8 s

/-- The values of the restricted round trip: a boolean, a signed integer of
magnitude at most `2^53` (and within the range of its kind, as every Go value
is), or a valid UTF-8 string without double quote, backslash and newline. -/
def Value.Plain (P : Platform) : Value → Prop
  | Value.bool _ => True
  | Value.int k i =>
    i.natAbs ≤ 2 ^ 53 ∧ -(2 : Int) ^ (k.bits P - 1) ≤ i ∧ i < (2 : Int) ^ (k.bits P - 1)
  | Value.string s => PlainString s
  | _ => False

/-- The values that survive the round trip: a boolean; a signed integer that
binary64 holds exactly (and within the range of its kind, as every Go value
is); the unsigned integer 0; a finite float that is the float of its kind
nearest to its own value rounded to ten decimals; a valid UTF-8 string without
double quote, backslash and newline. -/
def Value.Survives (P : Platform) : Value → Prop
  | Value.bool _ => True
  | Value.int k i =>
    (F64.round (decide (i < 0)) i.natAbs 1).trunc = some i
      ∧ -(2 : Int) ^ (k.bits P - 1) ≤ i ∧ i < (2 : Int) ^ (k.bits P - 1)
  | Value.uint _ n => n = 0
  | Value.float FloatKind.Float64 (F64.fin neg m e) =>
    F64.round neg (tenDecimals m e) (10 ^ 10) = F64.fin neg m e
  | Value.float FloatKind.Float32 (F64.fin neg m e) =>
    (F64.round neg (tenDecimals m e) (10 ^ 10)).toFloat32 = F64.fin neg m e
  | Value.string s => PlainString s
  | _ => False

/-- The records of the round trip under a condition `ok` on the field values:
at least one field, distinct field names that are valid UTF-8 without double
quote, backslash and newline (as every Go identifier is), every field exported
and its value `ok`. -/
def RecordOf (ok : Value → Prop) (vs : List (List Nat × Bool × Value)) : Prop :=
  vs ≠ [] ∧ (vs.map (·.1)).Nodup ∧ ∀ f ∈ vs, PlainString f.1 ∧ f.2.1 = true ∧ ok f.2.2

/-- The records of the restricted round trip: at least one field, every field
exported and plain. -/
def PlainRecord (P : Platform) (vs : List (List Nat × Bool × Value)) : Prop :=
  RecordOf (Value.Plain P) vs

/-- The member `encStruct` writes for a field: no blanks, the characters of the
field name as key, the literal of the value. -/
def memberOf (f : List Nat × Bool × Value) : Member :=
  ⟨[], readRunes f.1, [], [], f.2.2.lit, []⟩

/-! ## The recursion budget -/

/-- A decoder method `f` that, on a decoder with fewer than `n` unread runes,
does not run out of recursion budget and leaves no more unread runes than it
found. -/
def FuelSafe (n : Nat) (f : Decoder → Flag → Value → DecState) : Prop :=
  ∀ d fl rv, d.lexer.input.length < n →
    (f d fl rv).out ≠ Outcome.outOfFuel
      ∧ (f d fl rv).d.lexer.input.length ≤ d.lexer.input.length

/-! ## The member loop of `object`, one iteration at a time -/

/-- The body of the `for` loop of `object` from its first `Lex` to the label
`end_field`: the key, the colon, the `Lex` in front of the value, and the value
stored in the record or the map.  An outcome other than `ok` is what `object`
returns from inside the body. -/
def objectMember (P : Platform) (fuel : Nat) (d : Decoder) (fl : Flag) (rv : Value) : DecState :=
  let r1 := d.lexer.Lex P
  match r1.err with
  | some e => ⟨Outcome.err e, ⟨r1.lexer⟩, rv⟩
  | none =>
    if r1.lexer.currtoken ≠ Token.TK_STRING_LITERAL then
      ⟨Outcome.err (Decoder.genSyntaxError ⟨r1.lexer⟩ ErrMsg.mustBeStringLiteral), ⟨r1.lexer⟩, rv⟩
    else
      let key := encodeRunes r1.lexer.svalue
      let r2 := r1.lexer.Lex P
      match r2.err with
      | some e => ⟨Outcome.err e, ⟨r2.lexer⟩, rv⟩
      | none =>
        if r2.lexer.currtoken ≠ Token.TK_COLON then
          ⟨Outcome.err (Decoder.genSyntaxError ⟨r2.lexer⟩ ErrMsg.mustBeColon), ⟨r2.lexer⟩, rv⟩
        else
          let r3 := r2.lexer.Lex P
          match r3.err with
          | some e => ⟨Outcome.err e, ⟨r3.lexer⟩, rv⟩
          | none =>
            match rv with
            | Value.struct fields =>
              let r := fieldLoop (Decoder.value P fuel) ⟨r3.lexer⟩ fl key fields
              ⟨r.1, r.2.1, Value.struct r.2.2⟩
            | Value.map keyT elemT entries =>
              let s1 := Decoder.value P fuel ⟨r3.lexer⟩ ⟨true, false⟩ elemT.zero
              match s1.out with
              | Outcome.ok =>
                let r := SetMapIndex fl keyT elemT entries key s1.rv
                ⟨r.1, s1.d, r.2⟩
              | o => ⟨o, s1.d, rv⟩
            | other => ⟨Outcome.ok, ⟨r3.lexer⟩, other⟩

/-- The decoder and the target at the head of the iteration that follows `k`
members, each of them stored and followed by a comma, when the loop of `object`
starts from `d` and `rv` with the recursion budget `fuel`; `none` when the loop
has left before. -/
def loopHead (P : Platform) (fl : Flag) : Nat → Nat → Decoder → Value → Option (Decoder × Value)
  | _, 0, d, rv => some (d, rv)
  | 0, _ + 1, _, _ => none
  | fuel + 1, k + 1, d, rv =>
    let s := objectMember P fuel d fl rv
    match s.out with
    | Outcome.ok =>
      if s.d.lexer.currtoken = Token.TK_COMMA then loopHead P fl fuel k s.d s.rv else none
    | _ => none

/-! ## The reference serialization -/

/-- The base-10 digits of an integer, a minus sign in front of a negative one,
as the core library prints integers. -/
def decimal (i : Int) : List Nat := runes (toString i)

mutual
/-- The reference serialization of a value built from signed integers,
booleans, strings, sequences and records: digits, `true` or `false`, the
content between double quotes, the elements joined by commas between brackets,
the fields as `"name":value` joined by commas between braces. -/
def ref : Value → List Nat
  | Value.int _ i => decimal i
  | Value.bool b => if b then runes "true" else runes "false"
  | Value.string s => [34] ++ s ++ [34]
  | Value.slice _ none => [91] ++ [93]
  | Value.slice _ (some elems) => [91] ++ List.intercalate [44] (refElems elems) ++ [93]
  | Value.array _ elems => [91] ++ List.intercalate [44] (refElems elems) ++ [93]
  | Value.struct fields => [123] ++ List.intercalate [44] (refFields fields) ++ [125]
  | _ => []
/-- The reference serializations of the elements of a sequence, in order. -/
def refElems : List Value → List (List Nat)
  | [] => []
  | v :: vs => ref v :: refElems vs
/-- The reference serializations of the fields of a record, in declaration
order, each after its name between double quotes and a colon. -/
def refFields : List (List Nat × Bool × Value) → List (List Nat)
  | [] => []
  | (name, _, v) :: fs => ([34] ++ name ++ [34, 58] ++ ref v) :: refFields fs
end

mutual
/-- The values built from signed integers, booleans, strings, sequences (slices
and arrays) and records. -/
def Value.Encodable : Value → Prop
  | Value.int _ _ => True
  | Value.bool _ => True
  | Value.string _ => True
  | Value.slice _ none => True
  | Value.slice _ (some elems) => Value.EncodableElems elems
  | Value.array _ elems => Value.EncodableElems elems
  | Value.struct fields => Value.EncodableFields fields
  | _ => False
/-- Every element of a sequence is such a value. -/
def Value.EncodableElems : List Value → Prop
  | [] => True
  | v :: vs => Value.Encodable v ∧ Value.EncodableElems vs
/-- Every field of a record is such a value. -/
def Value.EncodableFields : List (List Nat × Bool × Value) → Prop
  | [] => True
  | (_, _, v) :: fs => Value.Encodable v ∧ Value.EncodableFields fs
end

/-! ## The lexer on blanks, punctuation, strings, numbers and keywords -/

theorem isWs_nil : IsWs [] := by
  intro c hc; simp at hc

theorem isWs_cons {c : Nat} {ws : List Nat} (h : IsWs (c :: ws)) :
    (c = 9 ∨ c = 10 ∨ c = 13 ∨ c = 32) ∧ IsWs ws :=
  ⟨h c (List.mem_cons_self _ _), fun x hx => h x (List.mem_cons_of_mem _ hx)⟩

theorem lexLoop_ws (P : Platform) (rest : List Nat) (tok : Token) (inp sv : List Nat) (nv : F64)
    (used : Bool) :
    ∀ (ws : List Nat) (line : Nat), IsWs ws →
      lexLoop P ⟨tok, line, inp, sv, nv, used⟩ (ws ++ rest)
        = lexLoop P ⟨tok, line + newlines ws, inp, sv, nv, used⟩ rest
  | [], line, _ => by simp [newlines]
  | c :: ws, line, h => by
    obtain ⟨hc, hws⟩ := isWs_cons h
    by_cases h10 : c = 10
    · subst h10
      simp only [List.cons_append, lexLoop, if_true, List.append_eq]
      rw [lexLoop_ws P rest tok inp sv nv used ws _ hws]
      simp [newlines, List.count_cons, Nat.add_assoc, Nat.add_comm]
    · have hc2 : c = 9 ∨ c = 13 ∨ c = 32 := by omega
      simp only [List.cons_append, lexLoop, h10, if_false, hc2, if_true, List.append_eq]
      rw [lexLoop_ws P rest tok inp sv nv used ws _ hws]
      simp [newlines, List.count_cons, h10]

theorem Lex_eq_lexLoop (P : Platform) (l : Lexer) :
    l.Lex P = lexLoop P ⟨l.currtoken, l.currline, l.input, [], F64.zero, true⟩ l.input := by
  unfold Lexer.Lex Lexer.resetValues
  cases hu : l.isused <;> simp [hu]

theorem Lex_eof (P : Platform) (l : Lexer) (ws : List Nat) (hws : IsWs ws)
    (hin : l.input = ws) :
    l.Lex P = ⟨Token.NO_TOKEN, none, l.scanned l.currtoken ws [] [] F64.zero⟩ := by
  rw [Lex_eq_lexLoop, hin]
  have := lexLoop_ws P [] l.currtoken ws [] F64.zero true ws l.currline hws
  rw [List.append_nil] at this
  rw [this]
  simp [lexLoop, Lexer.scanned]

theorem Lex_punct (P : Platform) (l : Lexer) (ws rest : List Nat) (p : Punct) (hws : IsWs ws)
    (hin : l.input = ws ++ p.rune :: rest) :
    l.Lex P = ⟨p.token, none, l.scanned p.token ws rest [] F64.zero⟩ := by
  rw [Lex_eq_lexLoop, hin, lexLoop_ws P _ _ _ _ _ _ ws _ hws]
  cases p <;> simp [lexLoop, Lexer.scanned, Punct.rune, Punct.token]

theorem clean_cons {c : Nat} {s : List Nat} (h : Clean (c :: s)) :
    (c ≠ 34 ∧ c ≠ 92 ∧ c ≠ 10) ∧ Clean s :=
  ⟨h c (List.mem_cons_self _ _), fun x hx => h x (List.mem_cons_of_mem _ hx)⟩

theorem readStringLoop_clean (P : Platform) (rest : List Nat) :
    ∀ (s buf : List Nat), Clean s →
      readStringLoop P buf (s ++ 34 :: rest) = (none, buf ++ s, 34 :: rest)
  | [], buf, _ => by rw [readStringLoop.eq_def]; simp
  | c :: s, buf, h => by
    obtain ⟨⟨h1, h2, h3⟩, hs⟩ := clean_cons h
    rw [readStringLoop.eq_def]
    simp only [List.cons_append, h1, h2, h3, if_false]
    rw [readStringLoop_clean P rest s _ hs]
    simp

theorem Lex_string (P : Platform) (l : Lexer) (ws s rest : List Nat) (hws : IsWs ws)
    (hs : Clean s) (hin : l.input = ws ++ 34 :: (s ++ 34 :: rest)) :
    l.Lex P = ⟨Token.TK_STRING_LITERAL, none,
      l.scanned Token.TK_STRING_LITERAL ws rest s F64.zero⟩ := by
  rw [Lex_eq_lexLoop, hin, lexLoop_ws P _ _ _ _ _ _ ws _ hws]
  simp [lexLoop, Lexer.readString, readStringLoop_clean P rest s [] hs, Lexer.next,
    Lexer.scanned]

theorem isDigits_cons {c : Nat} {ds : List Nat} (h : IsDigits (c :: ds)) :
    (48 ≤ c ∧ c ≤ 57) ∧ IsDigits ds :=
  ⟨h c (List.mem_cons_self _ _), fun x hx => h x (List.mem_cons_of_mem _ hx)⟩

theorem isDigit_of_ascii (P : Platform) {c : Nat} (h : 48 ≤ c ∧ c ≤ 57) : isDigit P c = true := by
  have : c ≤ 255 := by omega
  simp [isDigit, this, h.1, h.2]

theorem isExponent_of_ascii {c : Nat} (h : 48 ≤ c ∧ c ≤ 57) : isExponent c = false := by
  have h1 : c ≠ 101 := by omega
  have h2 : c ≠ 69 := by omega
  simp [isExponent, h1, h2]

theorem readNumberLoop_stop (P : Platform) (rest buf : List Nat) (hstop : NumStop P rest) :
    readNumberLoop P buf rest = (some buf, rest) := by
  cases rest with
  | nil => rw [readNumberLoop.eq_def]
  | cons c cs =>
    have := hstop c rfl
    simp only [not_or] at this
    obtain ⟨h1, h2, h3⟩ := this
    rw [readNumberLoop.eq_def]
    simp [h1, h2, h3]

theorem readNumberLoop_digits (P : Platform) (rest : List Nat) (hstop : NumStop P rest) :
    ∀ (ds buf : List Nat), IsDigits ds →
      readNumberLoop P buf (ds ++ rest) = (some (buf ++ ds), rest)
  | [], buf, _ => by simpa using readNumberLoop_stop P rest buf hstop
  | c :: ds, buf, h => by
    obtain ⟨hc, hds⟩ := isDigits_cons h
    rw [readNumberLoop.eq_def]
    simp only [List.cons_append, isDigit_of_ascii P hc, isExponent_of_ascii hc,
      or_true, true_or, if_true, Bool.false_eq_true, if_false]
    rw [readNumberLoop_digits P rest hstop ds _ hds]
    simp

theorem Lex_number (P : Platform) (l : Lexer) (ws ds rest : List Nat) (neg : Bool)
    (hws : IsWs ws) (hds : IsDigits ds) (hne : ds ≠ []) (hstop : NumStop P rest)
    (hin : l.input = ws ++ (numText neg ds ++ rest)) :
    l.Lex P = ⟨Token.TK_NUMBER_LITERAL, none,
      l.scanned Token.TK_NUMBER_LITERAL ws rest [] (parseFloat (numText neg ds))⟩ := by
  rw [Lex_eq_lexLoop, hin, lexLoop_ws P _ _ _ _ _ _ ws _ hws]
  cases neg with
  | true =>
    simp [numText, lexLoop, isDigit, Lexer.readNumber, readNumberLoop_digits P rest hstop ds [45] hds,
      Lexer.scanned]
  | false =>
    cases ds with
    | nil => exact absurd rfl hne
    | cons c ds =>
      obtain ⟨hc, hds1⟩ := isDigits_cons hds
      have e1 : c ≠ 10 := by omega
      have e2 : ¬(c = 9 ∨ c = 13 ∨ c = 32) := by omega
      have e3 : c ≠ 123 := by omega
      have e4 : c ≠ 125 := by omega
      have e5 : c ≠ 91 := by omega
      have e6 : c ≠ 93 := by omega
      have e7 : c ≠ 58 := by omega
      have e8 : c ≠ 44 := by omega
      have e9 : c ≠ 34 := by omega
      simp [numText, lexLoop, e1, e2, e3, e4, e5, e6, e7, e8, e9, isDigit_of_ascii P hc,
        Lexer.readNumber, readNumberLoop_digits P rest hstop ds [c] hds1, Lexer.scanned]

theorem readKeywordLoop_stop (P : Platform) (rest buf : List Nat) (hstop : KwStop P rest) :
    readKeywordLoop P buf rest = (buf, rest) := by
  cases rest with
  | nil => simp [readKeywordLoop]
  | cons c cs =>
    have := hstop c rfl
    simp [readKeywordLoop, this]

theorem Lex_keyword (P : Platform) (l : Lexer) (ws rest : List Nat) (k : Keyword)
    (hws : IsWs ws) (hstop : KwStop P rest) (hin : l.input = ws ++ (k.text ++ rest)) :
    l.Lex P = ⟨k.token, none, l.scanned k.token ws rest [] F64.zero⟩ := by
  rw [Lex_eq_lexLoop, hin, lexLoop_ws P _ _ _ _ _ _ ws _ hws]
  cases k <;>
    simp [Keyword.text, Keyword.token, lexLoop, isDigit, isLetter, Lexer.readKeyword,
      readKeywordLoop, readKeywordLoop_stop P rest _ hstop, Lexer.scanned]

/-! ## Decimal integer literals and their binary64 value -/

theorem readDigits_digits :
    ∀ (ds : List Nat) (acc n : Nat), IsDigits ds →
      readDigits acc n ds = (ds.foldl (fun a c => a * 10 + (c - 48)) acc, n + ds.length, [])
  | [], acc, n, _ => by simp [readDigits]
  | c :: ds, acc, n, h => by
    obtain ⟨hc, hds⟩ := isDigits_cons h
    rw [readDigits.eq_def]
    simp only [hc.1, hc.2, and_self, if_true, List.foldl_cons, List.length_cons]
    rw [readDigits_digits ds _ _ hds]
    simp only [Prod.mk.injEq, true_and, and_true]
    omega

theorem parseFloat_numText (neg : Bool) (ds : List Nat) (hds : IsDigits ds) (hne : ds ≠ []) :
    parseFloat (numText neg ds) = F64.round neg (digitsValue ds) 1 := by
  have hlen : ds.length ≠ 0 := by
    intro h; exact hne (List.length_eq_zero.mp h)
  cases neg with
  | true =>
    simp [parseFloat, numText, readDigits_digits ds 0 0 hds, hlen, digitsValue]
  | false =>
    cases ds with
    | nil => exact absurd rfl hne
    | cons c ds =>
      obtain ⟨hc, _⟩ := isDigits_cons hds
      have e1 : c ≠ 45 := by omega
      have e2 : c ≠ 43 := by omega
      simp [parseFloat, numText, e1, e2, readDigits_digits (c :: ds) 0 0 hds, digitsValue]

theorem log2Aux_spec : ∀ (fuel n : Nat), 0 < n → n ≤ fuel →
    2 ^ log2Aux fuel n ≤ n ∧ n < 2 ^ (log2Aux fuel n + 1)
  | 0, n, h0, h => by omega
  | fuel + 1, n, h0, h => by
    rw [log2Aux.eq_def]
    simp only
    by_cases h2 : 2 ≤ n
    · simp only [h2, if_true]
      have ih := log2Aux_spec fuel (n / 2) (by omega) (by omega)
      obtain ⟨a, b⟩ := ih
      constructor
      · rw [pow_succ]; omega
      · rw [pow_succ]; omega
    · simp only [h2, if_false]
      constructor <;> simp <;> omega

theorem floorLog2_spec (n : Nat) (h : 0 < n) :
    2 ^ floorLog2 n ≤ n ∧ n < 2 ^ (floorLog2 n + 1) :=
  log2Aux_spec n n h (Nat.le_refl n)

theorem floorLog2_lt {n k : Nat} (h : 0 < n) (hk : n < 2 ^ k) : floorLog2 n < k := by
  by_contra hc
  have h1 := (floorLog2_spec n h).1
  have : 2 ^ k ≤ 2 ^ floorLog2 n := Nat.pow_le_pow_right (by decide) (by omega)
  omega

theorem floorLog2Ratio_one (n : Nat) (h : 0 < n) : floorLog2Ratio n 1 = (floorLog2 n : Int) := by
  have h1 : floorLog2 1 = 0 := by decide
  have h2 := (floorLog2_spec n h).1
  simp [floorLog2Ratio, h1, h2]

theorem divRoundEven_one (n : Nat) : divRoundEven n 1 = n := by
  simp [divRoundEven, Nat.mod_one]

/-- A natural number up to `2^53` rounds to a datum that denotes it exactly. -/
theorem round_exact (neg : Bool) (n : Nat) (h : n ≤ 2 ^ 53) :
    ∃ m e, F64.round neg n 1 = F64.fin neg m e ∧
      ((0 ≤ e ∧ m * 2 ^ e.toNat = n) ∨ (e < 0 ∧ m = n * 2 ^ (-e).toNat)) := by
  by_cases h0 : n = 0
  · subst h0
    exact ⟨0, -1074, by simp [F64.round, roundBinary], Or.inr ⟨by decide, (Nat.zero_mul _).symm⟩⟩
  · have hpos : 0 < n := Nat.pos_of_ne_zero h0
    by_cases htop : n = 2 ^ 53
    · subst htop
      exact ⟨2 ^ 52, 1, by cases neg <;> decide, Or.inl ⟨by decide, by decide⟩⟩
    · have hlt : n < 2 ^ 53 := lt_of_le_of_ne h htop
      have hk : floorLog2 n < 53 := floorLog2_lt hpos hlt
      obtain ⟨hlo, hhi⟩ := floorLog2_spec n hpos
      generalize hkk : floorLog2 n = k at hk hlo hhi
      have hmax : max ((k : Int) - ((53 : Nat) - 1 : Int)) (-1074) = (k : Int) - 52 := by
        have : ((53 : Nat) : Int) - 1 = 52 := by norm_num
        rw [this]; omega
      by_cases hk52 : k = 52
      · subst hk52
        refine ⟨n, 0, ?_, Or.inl ⟨le_refl _, by simp⟩⟩
        have hn : ¬ n = 9007199254740992 := by omega
        simp [F64.round, roundBinary, h0, floorLog2Ratio_one n hpos, hkk, divRoundEven_one, hn]
      · have hklt : k < 52 := by omega
        have he : ((k : Int) - 52) < 0 := by omega
        have hnot : ¬ (0 ≤ (k : Int) - 52) := by omega
        have htn : (-((k : Int) - 52)).toNat = 52 - k := by omega
        have hm : n * 2 ^ (52 - k) < 2 ^ 53 := by
          have : n * 2 ^ (52 - k) < 2 ^ (k + 1) * 2 ^ (52 - k) :=
            Nat.mul_lt_mul_of_pos_right hhi (Nat.two_pow_pos _)
          rw [← pow_add] at this
          have e : k + 1 + (52 - k) = 53 := by omega
          rwa [e] at this
        have hmne : n * 2 ^ (52 - k) ≠ 2 ^ 53 := Nat.ne_of_lt hm
        refine ⟨n * 2 ^ (52 - k), (k : Int) - 52, ?_, Or.inr ⟨he, by rw [htn]⟩⟩
        have hprec : ((53 : Nat) : Int) - 1 = 52 := by norm_num
        have hmax2 : max ((k : Int) - 52) (-1074) = (k : Int) - 52 := by omega
        have hemax : ¬ ((971 : Int) < (k : Int) - 52) := by omega
        simp only [F64.round, roundBinary, h0, if_false, floorLog2Ratio_one n hpos, hkk, hprec,
          hmax2, hnot, htn, divRoundEven_one, hmne, hemax]

theorem trunc_round (neg : Bool) (n : Nat) (h : n ≤ 2 ^ 53) :
    (F64.round neg n 1).trunc = some (if neg then -(n : Int) else (n : Int)) := by
  obtain ⟨m, e, hr, hme⟩ := round_exact neg n h
  rw [hr]
  rcases hme with ⟨he, hm⟩ | ⟨he, hm⟩
  · simp [F64.trunc, he, hm]
  · have : ¬ (0 ≤ e) := by omega
    simp [F64.trunc, this, hm, Nat.mul_div_cancel _ (Nat.two_pow_pos _)]

theorem val_round (neg : Bool) (n : Nat) (h : n ≤ 2 ^ 53) :
    (F64.round neg n 1).val = some (if neg then -(n : ℚ) else (n : ℚ)) := by
  obtain ⟨m, e, hr, hme⟩ := round_exact neg n h
  rw [hr]
  rcases hme with ⟨he, hm⟩ | ⟨he, hm⟩
  · have : (2 : ℚ) ^ e = ((2 ^ e.toNat : Nat) : ℚ) := by
      conv_lhs => rw [← Int.toNat_of_nonneg he]
      rw [zpow_natCast]; push_cast; rfl
    simp only [F64.val, this]
    rw [← hm]
    cases neg <;> simp
  · have he2 : e = -((-e).toNat : Int) := by omega
    have : (2 : ℚ) ^ e = (((2 : ℚ) ^ (-e).toNat))⁻¹ := by
      conv_lhs => rw [he2]
      rw [zpow_neg, zpow_natCast]
    simp only [F64.val, this, hm]
    have hp : ((2 : ℚ) ^ (-e).toNat) ≠ 0 := by positivity
    cases neg <;> simp

/-! ## Tokenization of a text of lexemes -/

theorem numStop_of_delimited (P : Platform) {rest : List Nat} (h : Delimited rest) :
    NumStop P rest := by
  intro c hc
  have := h c hc
  have hle : c ≤ 255 := by omega
  have h1 : ¬ c = 46 := by omega
  have h2 : ¬ (48 ≤ c ∧ c ≤ 57) := by omega
  have h3 : ¬ (c = 101 ∨ c = 69) := by omega
  simp [isDigit, isExponent, hle, h1, h2, h3]

theorem kwStop_of_delimited (P : Platform) {rest : List Nat} (h : Delimited rest) :
    KwStop P rest := by
  intro c hc
  have := h c hc
  have hle : c ≤ 255 := by omega
  have h2 : ¬ ((65 ≤ c ∧ c ≤ 90) ∨ (97 ≤ c ∧ c ≤ 122) ∨ c = 170 ∨ c = 181 ∨ c = 186
      ∨ (192 ≤ c ∧ c ≤ 214) ∨ (216 ≤ c ∧ c ≤ 246) ∨ (248 ≤ c ∧ c ≤ 255)) := by omega
  rw [isLetter, if_pos hle]
  exact decide_eq_false h2

theorem delimited_nil : Delimited [] := by
  intro c hc; simp at hc

theorem delimited_ws {ws : List Nat} (rest : List Nat) (hws : IsWs ws) (hne : ws ≠ []) :
    Delimited (ws ++ rest) := by
  intro c hc
  cases ws with
  | nil => exact absurd rfl hne
  | cons a ws =>
    simp at hc; subst hc
    have := hws a (List.mem_cons_self _ _)
    omega

theorem delimited_of_isWs {ws : List Nat} (hws : IsWs ws) : Delimited ws := by
  cases ws with
  | nil => exact delimited_nil
  | cons a ws => simpa using delimited_ws [] hws (by simp)

theorem delimited_punct (p : Punct) (rest : List Nat) : Delimited (p.rune :: rest) := by
  intro c hc
  simp at hc; subst hc
  cases p <;> simp [Punct.rune]

theorem delimited_quote (rest : List Nat) : Delimited (34 :: rest) := by
  intro c hc
  simp at hc; subst hc; simp

theorem delimited_ws_append {ws rest : List Nat} (hws : IsWs ws) (h : Delimited rest) :
    Delimited (ws ++ rest) := by
  cases ws with
  | nil => simpa using h
  | cons a ws => exact delimited_ws rest hws (by simp)

theorem delimited_lexemes (trail : List Nat) (htrail : IsWs trail) (x : Lexeme) (w : List Nat)
    (hx : x.isWord = true) :
    ∀ (items : List (List Nat × Lexeme)),
      (∀ it ∈ items, IsWs it.1) → Separated ((w, x) :: items) →
      Delimited (lexemesText items ++ trail)
  | [], _, _ => by simpa [lexemesText] using delimited_of_isWs htrail
  | (ws, y) :: items, hws, hsep => by
    have hw := hws (ws, y) (List.mem_cons_self _ _)
    simp only [lexemesText, List.append_assoc]
    by_cases hne : ws = []
    · subst hne
      have hy : y.isWord ≠ true := fun hy => (hsep.1 hx hy) rfl
      cases y with
      | punct p => exact delimited_punct p _
      | keyword k => exact absurd rfl hy
      | str s => exact delimited_quote _
      | num neg ds => exact absurd rfl hy
    · exact delimited_ws _ hw hne

theorem separated_tail {it : List Nat × Lexeme} {items : List (List Nat × Lexeme)}
    (h : Separated (it :: items)) : Separated items := by
  cases items with
  | nil => trivial
  | cons a items => exact h.2

theorem lex_step (P : Platform) (l : Lexer) (ws rest : List Nat) (x : Lexeme) (hws : IsWs ws)
    (hwf : x.WF) (hsmall : x.Small) (hdel : x.isWord = true → Delimited rest)
    (hin : l.input = ws ++ (x.text ++ rest)) :
    x.Scanned (l.Lex P) ∧ (l.Lex P).lexer.input = rest := by
  cases x with
  | punct p =>
    rw [Lex_punct P l ws rest p hws (by simpa [Lexeme.text] using hin)]
    simp [Lexeme.Scanned, Lexeme.token, Lexer.scanned]
  | keyword k =>
    rw [Lex_keyword P l ws rest k hws (kwStop_of_delimited P (hdel rfl))
      (by simpa [Lexeme.text] using hin)]
    simp [Lexeme.Scanned, Lexeme.token, Lexer.scanned]
  | str s =>
    rw [Lex_string P l ws s rest hws hwf (by simpa [Lexeme.text] using hin)]
    simp [Lexeme.Scanned, Lexeme.token, Lexer.scanned]
  | num neg ds =>
    rw [Lex_number P l ws ds rest neg hws hwf.1 hwf.2 (numStop_of_delimited P (hdel rfl))
      (by simpa [Lexeme.text] using hin)]
    simp only [Lexeme.Scanned, Lexeme.token, Lexer.scanned, true_and]
    rw [parseFloat_numText neg ds hwf.1 hwf.2, val_round neg _ hsmall]
    cases neg <;> simp [numValue]

theorem lexRun_lexemes (P : Platform) (trail : List Nat) (htrail : IsWs trail) :
    ∀ (items : List (List Nat × Lexeme)) (l : Lexer),
      (∀ it ∈ items, IsWs it.1) → (∀ it ∈ items, it.2.WF) → (∀ it ∈ items, it.2.Small) →
      Separated items → l.input = lexemesText items ++ trail →
      ∃ rs last, lexRun P (items.length + 1) l = rs ++ [last]
        ∧ List.Forall₂ (fun it r => it.2.Scanned r) items rs
        ∧ last.tok = Token.NO_TOKEN ∧ last.err = none
  | [], l, _, _, _, _, hin => by
    refine ⟨[], l.Lex P, by simp [lexRun], List.Forall₂.nil, ?_⟩
    rw [Lex_eof P l trail htrail (by simpa [lexemesText] using hin)]
    simp
  | (ws, x) :: items, l, hws, hwf, hsmall, hsep, hin => by
    have hstep := lex_step P l ws (lexemesText items ++ trail) x
      (hws (ws, x) (List.mem_cons_self _ _)) (hwf (ws, x) (List.mem_cons_self _ _))
      (hsmall (ws, x) (List.mem_cons_self _ _))
      (fun hx => delimited_lexemes trail htrail x ws hx items
        (fun it hit => hws it (List.mem_cons_of_mem _ hit)) hsep)
      (by simpa [lexemesText] using hin)
    obtain ⟨rs, last, hrun, hall, hlast⟩ := lexRun_lexemes P trail htrail items (l.Lex P).lexer
      (fun it hit => hws it (List.mem_cons_of_mem _ hit))
      (fun it hit => hwf it (List.mem_cons_of_mem _ hit))
      (fun it hit => hsmall it (List.mem_cons_of_mem _ hit))
      (separated_tail hsep) hstep.2
    refine ⟨l.Lex P :: rs, last, ?_, List.Forall₂.cons hstep.1 hall, hlast⟩
    show Lexer.Lex P l :: lexRun P (items.length + 1) (Lexer.Lex P l).lexer = _
    rw [hrun]; rfl

/-- C5 (as amended): for every list of lexemes (punctuation marks, keywords,
string literals without double quote, backslash and newline, decimal integer
literals of magnitude at most `2^53`), written in order with blanks in front
of each and after the last, and at least one blank between two adjacent
lexemes that are both numbers or keywords, the successive calls of `Lex` on a
new lexer return the token kinds in order with nil error, the string payload
being the content and the numeric payload denoting the value of the literal,
and the next call returns `NO_TOKEN` with nil error. -/
theorem lex_tokenizes (P : Platform) (items : List (List Nat × Lexeme)) (trail : List Nat)
    (hws : ∀ it ∈ items, IsWs it.1) (htrail : IsWs trail) (hwf : ∀ it ∈ items, it.2.WF)
    (hsmall : ∀ it ∈ items, it.2.Small) (hsep : Separated items) :
    ∃ rs last,
      lexRun P (items.length + 1) (NewLexer (lexemesText items ++ trail)) = rs ++ [last]
        ∧ List.Forall₂ (fun it r => it.2.Scanned r) items rs
        ∧ last.tok = Token.NO_TOKEN ∧ last.err = none :=
  lexRun_lexemes P trail htrail items _ hws hwf hsmall hsep rfl

/-- Witness of `lex_tokenizes`: the text `{"x":20}`. -/
theorem lex_tokenizes_witness :
    ∃ rs last,
      lexRun Platform.sample 6 (NewLexer (runes "\x7b\"x\":20\x7d")) = rs ++ [last]
        ∧ List.Forall₂ (fun (it : List Nat × Lexeme) r => it.2.Scanned r)
            [([], Lexeme.punct Punct.lbrace), ([], Lexeme.str (runes "x")),
              ([], Lexeme.punct Punct.colon), ([], Lexeme.num false (runes "20")),
              ([], Lexeme.punct Punct.rbrace)] rs
        ∧ last.tok = Token.NO_TOKEN ∧ last.err = none :=
  lex_tokenizes Platform.sample
    [([], Lexeme.punct Punct.lbrace), ([], Lexeme.str (runes "x")),
      ([], Lexeme.punct Punct.colon), ([], Lexeme.num false (runes "20")),
      ([], Lexeme.punct Punct.rbrace)] []
    (by intro it hit; simp at hit; rcases hit with h | h | h | h | h <;> subst h <;> exact isWs_nil)
    isWs_nil
    (by
      intro it hit; simp at hit
      rcases hit with h | h | h | h | h <;> subst h <;>
        simp [Lexeme.WF, Clean, IsDigits, runes])
    (by
      intro it hit; simp at hit
      rcases hit with h | h | h | h | h <;> subst h <;>
        simp [Lexeme.Small, digitsValue, runes])
    (by simp [Separated, Lexeme.isWord])

/-- C5 as stated fails: the integer literal `9007199254740993` (`2^53 + 1`) is
scanned as a number token whose payload denotes `9007199254740992`, not the
value of the literal. -/
theorem lex_payload_inexact :
    ¬ (Lexeme.num false (runes "9007199254740993")).Scanned
        ((NewLexer (runes "9007199254740993")).Lex Platform.sample) := by
  have h : ((NewLexer (runes "9007199254740993")).Lex Platform.sample).lexer.nvalue
      = F64.fin false 4503599627370496 1 := by decide
  have hv : numValue false (runes "9007199254740993") = 9007199254740993 := by decide
  intro hs
  have h2 : ((NewLexer (runes "9007199254740993")).Lex Platform.sample).lexer.nvalue.val
      = some ((numValue false (runes "9007199254740993") : Int) : ℚ) := hs.2.2
  rw [h, hv] at h2
  simp only [F64.val] at h2
  norm_num at h2

/-! ## Decode on the literals `true`, `false` and `null` -/

theorem zero_kind (t : GoType) : t.zero.kind = t.kind := by
  cases t <;> simp [GoType.zero, Value.kind, Value.typeOf, GoType.kind]

theorem Lex_new_keyword (P : Platform) (k : Keyword) :
    (NewLexer k.text).Lex P
      = ⟨k.token, none, ⟨k.token, 0, [], [], F64.zero, true⟩⟩ := by
  have := Lex_keyword P (NewLexer k.text) [] [] k isWs_nil (kwStop_of_delimited P delimited_nil)
    (by simp [NewLexer])
  simpa [Lexer.scanned, NewLexer, newlines] using this

theorem Lex_at_end (P : Platform) (tok : Token) (line : Nat) (sv : List Nat) (nv : F64)
    (used : Bool) :
    Lexer.Lex P ⟨tok, line, [], sv, nv, used⟩
      = ⟨Token.NO_TOKEN, none, ⟨tok, line, [], [], F64.zero, true⟩⟩ := by
  have := Lex_eof P ⟨tok, line, [], sv, nv, used⟩ [] isWs_nil rfl
  simpa [Lexer.scanned, newlines] using this

/-- C6: `Decode` of the text `true` (`false`) into a boolean target returns no
error and sets the target to `true` (`false`); into a target of any other kind
it returns the error `ErrUnsettableValue`, whatever the target held. -/
theorem decode_bool (P : Platform) (b : Bool) (t : GoType) (cur : Value) :
    (t = GoType.bool →
      ((NewDecoder (runes (if b then "true" else "false"))).Decode P (some ⟨t, cur⟩)).out = Outcome.ok
      ∧ (((NewDecoder (runes (if b then "true" else "false"))).Decode P (some ⟨t, cur⟩)).v.map Target.cur)
          = some (Value.bool b))
    ∧ (t.kind ≠ Kind.Bool →
      ((NewDecoder (runes (if b then "true" else "false"))).Decode P (some ⟨t, cur⟩)).out
        = Outcome.err (Error.plain ErrMsg.ErrUnsettableValue)) := by
  have hF : (NewLexer (runes "false")).Lex P
      = ⟨Token.TK_FALSE, none, ⟨Token.TK_FALSE, 0, [], [], F64.zero, true⟩⟩ := by
    have e : runes "false" = Keyword.kwFalse.text := by decide
    simpa [e, Keyword.token] using Lex_new_keyword P Keyword.kwFalse
  have hT : (NewLexer (runes "true")).Lex P
      = ⟨Token.TK_TRUE, none, ⟨Token.TK_TRUE, 0, [], [], F64.zero, true⟩⟩ := by
    have e : runes "true" = Keyword.kwTrue.text := by decide
    simpa [e, Keyword.token] using Lex_new_keyword P Keyword.kwTrue
  constructor
  · intro ht
    subst ht
    cases b <;>
      simp [Decoder.Decode, NewDecoder, hF, hT, Decoder.value, valueWith, afterLiteral,
        boolLiteral, Flag.CanSet, GoType.kind, GoType.zero, Value.kind, Value.typeOf, Lex_at_end]
  · intro hk
    have hz : t.zero.kind ≠ Kind.Bool := by rw [zero_kind]; exact hk
    by_cases hm : t.kind = Kind.Map
    · cases b <;>
        simp [Decoder.Decode, NewDecoder, hF, hT, Decoder.value, valueWith, afterLiteral,
          boolLiteral, Flag.CanSet, hm]
    · cases b <;>
        simp [Decoder.Decode, NewDecoder, hF, hT, Decoder.value, valueWith, afterLiteral,
          boolLiteral, Flag.CanSet, hm, hz]

/-- Witness of `decode_bool`: `true` into a boolean holding `false`, and into an
`int` holding 5. -/
theorem decode_bool_witness :
    (((NewDecoder (runes "true")).Decode Platform.sample
        (some ⟨GoType.bool, Value.bool false⟩)).out = Outcome.ok
      ∧ (((NewDecoder (runes "true")).Decode Platform.sample
          (some ⟨GoType.bool, Value.bool false⟩)).v.map Target.cur) = some (Value.bool true))
    ∧ ((NewDecoder (runes "true")).Decode Platform.sample
        (some ⟨GoType.int IntKind.Int, Value.int IntKind.Int 5⟩)).out
          = Outcome.err (Error.plain ErrMsg.ErrUnsettableValue) :=
  ⟨(decode_bool Platform.sample true GoType.bool (Value.bool false)).1 rfl,
    (decode_bool Platform.sample true (GoType.int IntKind.Int) (Value.int IntKind.Int 5)).2
      (by decide)⟩

theorem Lex_new_null (P : Platform) :
    (NewLexer (runes "null")).Lex P
      = ⟨Token.TK_NULL, none, ⟨Token.TK_NULL, 0, [], [], F64.zero, true⟩⟩ := by
  have e : runes "null" = Keyword.kwNull.text := by decide
  simpa [e, Keyword.token] using Lex_new_keyword P Keyword.kwNull

/-- C7, the failing input: `Decode` of `null` into a target of type
`map[string]int` that holds a map returns `ErrUnsettableValue` and leaves the
map in place (the value of `reflect.MakeMap` is not settable). -/
theorem decode_null_map_fails :
    ((NewDecoder (runes "null")).Decode Platform.sample
        (some ⟨mapStringInt, Value.map GoType.string (GoType.int IntKind.Int) (some [])⟩)).out
      = Outcome.err (Error.plain ErrMsg.ErrUnsettableValue)
    ∧ ((NewDecoder (runes "null")).Decode Platform.sample
        (some ⟨mapStringInt, Value.map GoType.string (GoType.int IntKind.Int)
          (some [])⟩)).v.map Target.cur
      = some (Value.map GoType.string (GoType.int IntKind.Int) (some [])) := by
  constructor
  · decide
  · rfl

/-- C8 as stated fails: `Decode` of `null` into an `int` target that holds 5
returns no error and leaves 0 in the target, not 5. -/
theorem decode_null_int_resets :
    ((NewDecoder (runes "null")).Decode Platform.sample
        (some ⟨GoType.int IntKind.Int, Value.int IntKind.Int 5⟩)).out = Outcome.ok
    ∧ ((NewDecoder (runes "null")).Decode Platform.sample
        (some ⟨GoType.int IntKind.Int, Value.int IntKind.Int 5⟩)).v.map Target.cur
      = some (Value.int IntKind.Int 0) := by
  constructor
  · decide
  · rfl

/-- C8 (as amended): for every scalar target (boolean, integer, float or
string) holding any prior value, `Decode` of `null` returns no error, and
afterwards the target holds the zero value of its type: `nullLiteral` leaves
the new variable of `reflect.New` as it is, and `Decode` assigns that variable
to the target. -/
theorem decode_null_scalar (P : Platform) (t : GoType) (cur : Value)
    (ht : t.isScalar = true) :
    ((NewDecoder (runes "null")).Decode P (some ⟨t, cur⟩)).out = Outcome.ok
    ∧ ((NewDecoder (runes "null")).Decode P (some ⟨t, cur⟩)).v.map Target.cur
        = some t.zero := by
  cases t <;> simp [GoType.isScalar] at ht <;>
    simp [Decoder.Decode, NewDecoder, Lex_new_null, Decoder.value, valueWith, afterLiteral,
      nullLiteral, Flag.CanSet, GoType.kind, GoType.zero, Value.kind, Value.typeOf, Lex_at_end]
  all_goals rename_i k; cases k <;> simp [GoType.kind]

/-- Witness of `decode_null_scalar`: a string target holding `x`. -/
theorem decode_null_scalar_witness :
    ((NewDecoder (runes "null")).Decode Platform.sample
        (some ⟨GoType.string, Value.string (runes "x")⟩)).out = Outcome.ok
    ∧ ((NewDecoder (runes "null")).Decode Platform.sample
        (some ⟨GoType.string, Value.string (runes "x")⟩)).v.map Target.cur
        = some GoType.string.zero :=
  decode_null_scalar Platform.sample GoType.string (Value.string (runes "x")) rfl

/-- C9: whenever `Decode` does not return `nil`, the variable behind the
argument holds what it held before the call, for every decoder state and every
argument; so the variable is written only by a call that returns `nil`. -/
theorem decode_commit (P : Platform) (d : Decoder) (v : Option Target)
    (h : (d.Decode P v).out ≠ Outcome.ok) : (d.Decode P v).v = v := by
  unfold Decoder.Decode at h ⊢
  simp only at h ⊢
  split
  · rfl
  · split
    · rfl
    · split
      · split
        · rename_i heq hv; simp_all
        · rfl
      · split
        · rename_i heq hv; simp_all
        · rfl

/-- Witness of `decode_commit`: the text `{"Z":1}` into an `S1` holding 5 and 6. -/
theorem decode_commit_witness :
    ((NewDecoder (runes "\x7b\"Z\":1\x7d")).Decode Platform.sample
        (some ⟨S1, S1.mk 5 6⟩)).v = some ⟨S1, S1.mk 5 6⟩ :=
  decode_commit Platform.sample (NewDecoder (runes "\x7b\"Z\":1\x7d")) (some ⟨S1, S1.mk 5 6⟩)
    (by decide)

/-- C4, the failing input: `Decode` of `{"Z":1}` into an `S1` (no field `Z`)
returns the syntax error "This must be a right brace token": the value of the
unknown key is not skipped. -/
theorem decode_unknown_key_fails :
    ((NewDecoder (runes "\x7b\"Z\":1\x7d")).Decode Platform.sample
        (some ⟨S1, S1.mk 0 0⟩)).out
      = Outcome.err (Error.DecoderSyntaxError 0 ErrMsg.mustBeRightBrace) := by
  decide

/-- C10, the failing input: `Decode` of `{"M":{"a":1}}` into a record with a
field `M` of type `map[string]int` does not return: `SetMapIndex` panics on the
nil map held by the field. -/
theorem decode_nested_map_panics :
    ((NewDecoder (runes "\x7b\"M\":\x7b\"a\":1\x7d\x7d")).Decode Platform.sample
        (some ⟨GoType.struct [(runes "M", true, mapStringInt)],
          Value.struct [(runes "M", true,
            Value.map GoType.string (GoType.int IntKind.Int) none)]⟩)).out
      = Outcome.panic Panic.nilMap := by
  decide

/-- C3, the failing input: `Decode` of `{"a":{"X":1},"b":{"X":2}}` into a
`map[string]S1` returns no error and a map with the one key `a`: after the
nested object the current token is its right brace, which ends the outer loop. -/
theorem decode_map_of_records_drops :
    ((NewDecoder (runes "\x7b\"a\":\x7b\"X\":1\x7d,\"b\":\x7b\"X\":2\x7d\x7d")).Decode
        Platform.sample (some ⟨GoType.map GoType.string S1,
          Value.map GoType.string S1 none⟩)).out = Outcome.ok
    ∧ ((NewDecoder (runes "\x7b\"a\":\x7b\"X\":1\x7d,\"b\":\x7b\"X\":2\x7d\x7d")).Decode
        Platform.sample (some ⟨GoType.map GoType.string S1,
          Value.map GoType.string S1 none⟩)).v.map Target.cur
      = some (Value.map GoType.string S1 (some [(Key.string (runes "a"), S1.mk 1 0)])) := by
  constructor
  · decide
  · rfl

/-! ## The payload of a string literal -/


theorem isXDigit_of_hex (P : Platform) {x : Nat} (h : IsHex x) : isXDigit P x = true := by
  unfold isXDigit
  rcases h with h | h | h
  · rw [isDigit_of_ascii P h]; rfl
  · have : x = 65 ∨ x = 66 ∨ x = 67 ∨ x = 68 ∨ x = 69 ∨ x = 70 := by omega
    rcases this with h | h | h | h | h | h <;> subst h <;> simp
  · have : x = 97 ∨ x = 98 ∨ x = 99 ∨ x = 100 ∨ x = 101 ∨ x = 102 := by omega
    rcases this with h | h | h | h | h | h <;> subst h <;> simp

theorem readStringLoop_items (P : Platform) (rest : List Nat) :
    ∀ (items : List StrItem) (buf : List Nat), (∀ i ∈ items, i.WF) →
      readStringLoop P buf (itemsText items ++ 34 :: rest)
        = (none, buf ++ itemsPayload items, 34 :: rest)
  | [], buf, _ => by
    rw [readStringLoop.eq_def]
    simp [itemsText, itemsPayload]
  | StrItem.plain c :: items, buf, h => by
    have hc : c ≠ 34 ∧ c ≠ 92 ∧ c ≠ 10 := h _ (List.mem_cons_self _ _)
    have ih := readStringLoop_items P rest items (buf ++ [c])
      (fun i hi => h i (List.mem_cons_of_mem _ hi))
    rw [readStringLoop.eq_def]
    simp only [itemsText, StrItem.text, List.cons_append, List.nil_append, hc.1, hc.2.1, hc.2.2,
      if_false]
    rw [ih]
    simp [itemsPayload, StrItem.payload]
  | StrItem.escape c :: items, buf, h => by
    have hc : c = 34 ∨ c = 47 ∨ c = 92 ∨ c = 98 ∨ c = 102 ∨ c = 110 ∨ c = 114 ∨ c = 116 :=
      h _ (List.mem_cons_self _ _)
    have ih := fun b => readStringLoop_items P rest items b
      (fun i hi => h i (List.mem_cons_of_mem _ hi))
    rw [readStringLoop.eq_def]
    simp only [itemsText, StrItem.text, List.cons_append, List.nil_append]
    rcases hc with hc | hc | hc | hc | hc | hc | hc | hc <;> subst hc <;>
      simp [ih, itemsPayload, StrItem.payload]
  | StrItem.unicode x1 x2 x3 x4 :: items, buf, h => by
    have hx : IsHex x1 ∧ IsHex x2 ∧ IsHex x3 ∧ IsHex x4 := h _ (List.mem_cons_self _ _)
    have ih := readStringLoop_items P rest items (buf ++ [x1, x2, x3, x4])
      (fun i hi => h i (List.mem_cons_of_mem _ hi))
    rw [readStringLoop.eq_def]
    simp only [itemsText, StrItem.text, List.cons_append, List.nil_append]
    simp [ih, itemsPayload, StrItem.payload, isXDigit_of_hex P hx.1, isXDigit_of_hex P hx.2.1,
      isXDigit_of_hex P hx.2.2.1, isXDigit_of_hex P hx.2.2.2]

/-- C13: for every string literal made of ordinary characters, the escapes of
`"`, `/`, `\`, `b`, `f`, `n`, `r`, `t` and `\u` escapes of four hexadecimal
digits, closed by a double quote, `Lex` returns the string token without error,
and the payload is the content with each ordinary character as it is, each
one-character escape replaced by what it stands for, and each `\u` escape
replaced by its four digit characters. -/
theorem lex_string_payload (P : Platform) (l : Lexer) (ws rest : List Nat)
    (items : List StrItem) (hws : IsWs ws) (hwf : ∀ i ∈ items, i.WF)
    (hin : l.input = ws ++ 34 :: (itemsText items ++ 34 :: rest)) :
    l.Lex P = ⟨Token.TK_STRING_LITERAL, none,
      l.scanned Token.TK_STRING_LITERAL ws rest (itemsPayload items) F64.zero⟩ := by
  rw [Lex_eq_lexLoop, hin, lexLoop_ws P _ _ _ _ _ _ ws _ hws]
  simp [lexLoop, Lexer.readString, readStringLoop_items P rest items [] hwf, Lexer.next,
    Lexer.scanned]

/-- Witness of `lex_string_payload`: the literal `"a\n\u00e9\/"` has the payload
`a`, line feed, `0`, `0`, `e`, `9`, `/`. -/
theorem lex_string_payload_witness :
    (NewLexer (runes "\"a\\n\\u00e9\\/\"")).Lex Platform.sample
      = ⟨Token.TK_STRING_LITERAL, none,
          (NewLexer (runes "\"a\\n\\u00e9\\/\"")).scanned Token.TK_STRING_LITERAL [] []
            [97, 10, 48, 48, 101, 57, 47] F64.zero⟩ :=
  lex_string_payload Platform.sample (NewLexer (runes "\"a\\n\\u00e9\\/\"")) [] []
    [StrItem.plain 97, StrItem.escape 110, StrItem.unicode 48 48 101 57, StrItem.escape 47]
    isWs_nil
    (by
      intro i hi
      simp only [List.mem_cons, List.mem_singleton, List.not_mem_nil, or_false] at hi
      rcases hi with h | h | h | h <;> subst h <;> simp [StrItem.WF, IsHex])
    (by decide)



/-! ## Bytes and runes -/

theorem decodeRune_encodeRune (r : Nat) (h : IsScalar r) (rest : List Nat) :
    ∃ b0 bs, encodeRune r = b0 :: bs ∧ decodeRune b0 (bs ++ rest) = (r, bs.length + 1) := by
  unfold IsScalar at h
  unfold encodeRune
  by_cases h1 : r < 0x80
  · rw [if_pos h1]
    refine ⟨r, [], rfl, ?_⟩
    unfold decodeRune
    simp only [if_pos h1]
    rfl
  · rw [if_neg h1]
    by_cases h2 : r < 0x800
    · rw [if_pos h2]
      refine ⟨_, _, rfl, ?_⟩
      unfold decodeRune
      simp only [List.cons_append, List.nil_append, byteAt, List.length_cons, List.length_nil]
      split_ifs <;> first | omega | (simp only [Prod.mk.injEq]; constructor <;> first | omega | trivial)
    · rw [if_neg h2]
      have h3 : ¬ ((0xD800 ≤ r ∧ r ≤ 0xDFFF) ∨ 0x10FFFF < r) := by omega
      rw [if_neg h3]
      by_cases h4 : r < 0x10000
      · rw [if_pos h4]
        have d1 : r / 4096 = r / 64 / 64 := by rw [Nat.div_div_eq_div_mul]
        refine ⟨_, _, rfl, ?_⟩
        unfold decodeRune
        simp only [List.cons_append, List.nil_append, byteAt, List.length_cons, List.length_nil]
        split_ifs <;> first | omega | (simp only [Prod.mk.injEq]; constructor <;> first | omega | trivial)
      · rw [if_neg h4]
        have d1 : r / 4096 = r / 64 / 64 := by rw [Nat.div_div_eq_div_mul]
        have d2 : r / 262144 = r / 4096 / 64 := by rw [Nat.div_div_eq_div_mul]
        refine ⟨_, _, rfl, ?_⟩
        unfold decodeRune
        simp only [List.cons_append, List.nil_append, byteAt, List.length_cons, List.length_nil]
        split_ifs <;> first | omega | (simp only [Prod.mk.injEq]; constructor <;> first | omega | trivial)

theorem readRunesFrom_skip (rest : List Nat) :
    ∀ bs : List Nat, readRunesFrom bs.length (bs ++ rest) = readRunesFrom 0 rest
  | [] => rfl
  | b :: bs => by
    simp only [List.length_cons, List.cons_append, readRunesFrom]
    exact readRunesFrom_skip rest bs

theorem readRunes_encodeRune (r : Nat) (h : IsScalar r) (rest : List Nat) :
    readRunes (encodeRune r ++ rest) = r :: readRunes rest := by
  obtain ⟨b0, bs, he, hd⟩ := decodeRune_encodeRune r h rest
  unfold readRunes
  rw [he, List.cons_append, readRunesFrom, hd]
  simp only [Nat.add_sub_cancel]
  rw [readRunesFrom_skip]

/-- Reading the encoding of scalar values gives the scalar values back. -/
theorem readRunes_encodeRunes (rest : List Nat) :
    ∀ rs : List Nat, (∀ r ∈ rs, IsScalar r) →
      readRunes (encodeRunes rs ++ rest) = rs ++ readRunes rest
  | [], _ => rfl
  | r :: rs, h => by
    rw [encodeRunes, List.append_assoc,
      readRunes_encodeRune r (h r (List.mem_cons_self _ _)),
      readRunes_encodeRunes rest rs (fun x hx => h x (List.mem_cons_of_mem _ hx))]
    rfl

theorem encodeRune_ascii {r : Nat} (h : r < 128) : encodeRune r = [r] := by
  unfold encodeRune
  rw [if_pos h]

theorem encodeRunes_ascii : ∀ a : List Nat, (∀ c ∈ a, c < 128) → encodeRunes a = a
  | [], _ => rfl
  | c :: a, h => by
    rw [encodeRunes, encodeRune_ascii (h c (List.mem_cons_self _ _)),
      encodeRunes_ascii a (fun x hx => h x (List.mem_cons_of_mem _ hx))]
    rfl

/-- Bytes below 128 are read as they are. -/
theorem readRunes_ascii (a rest : List Nat) (h : ∀ c ∈ a, c < 128) :
    readRunes (a ++ rest) = a ++ readRunes rest := by
  have := readRunes_encodeRunes rest a (fun r hr => Or.inl (by have := h r hr; omega))
  rwa [encodeRunes_ascii a h] at this

theorem readRunes_nil : readRunes [] = [] := rfl

theorem readRunes_valid {s : List Nat} (h : ValidUTF8 s) (rest : List Nat) :
    readRunes (s ++ rest) = readRunes s ++ readRunes rest
      ∧ encodeRunes (readRunes s) = s := by
  obtain ⟨rs, hrs, rfl⟩ := h
  have h1 := readRunes_encodeRunes [] rs hrs
  rw [List.append_nil, readRunes_nil, List.append_nil] at h1
  rw [h1, readRunes_encodeRunes rest rs hrs]
  exact ⟨rfl, rfl⟩

theorem mem_encodeRunes_of_ascii {r : Nat} (hr : r < 128) :
    ∀ rs : List Nat, r ∈ rs → r ∈ encodeRunes rs
  | [], h => by simp at h
  | x :: rs, h => by
    rw [encodeRunes]
    rcases List.mem_cons.mp h with h1 | h1
    · subst h1
      rw [encodeRune_ascii hr]
      simp
    · exact List.mem_append_right _ (mem_encodeRunes_of_ascii hr rs h1)

/-- The runes of a plain string are no double quote, backslash or newline. -/
theorem clean_readRunes {s : List Nat} (h : PlainString s) : Clean (readRunes s) := by
  obtain ⟨hc, rs, hrs, rfl⟩ := h
  have h1 := readRunes_encodeRunes [] rs hrs
  rw [List.append_nil, readRunes_nil, List.append_nil] at h1
  rw [h1]
  intro c hcm
  refine ⟨?_, ?_, ?_⟩ <;> intro hcc <;> subst hcc
  · exact (hc 34 (mem_encodeRunes_of_ascii (by decide) rs hcm)).1 rfl
  · exact (hc 92 (mem_encodeRunes_of_ascii (by decide) rs hcm)).2.1 rfl
  · exact (hc 10 (mem_encodeRunes_of_ascii (by decide) rs hcm)).2.2 rfl

/-! ## Number literals with a fraction part or an exponent part -/

theorem readDigits_append (rest : List Nat)
    (hstop : ∀ c, rest.head? = some c → ¬(48 ≤ c ∧ c ≤ 57)) :
    ∀ (ds : List Nat) (acc n : Nat), IsDigits ds →
      readDigits acc n (ds ++ rest)
        = (ds.foldl (fun a c => a * 10 + (c - 48)) acc, n + ds.length, rest)
  | [], acc, n, _ => by
    cases rest with
    | nil => simp [readDigits]
    | cons c cs =>
      have := hstop c rfl
      rw [List.nil_append, readDigits.eq_def]
      simp [this]
  | c :: ds, acc, n, h => by
    obtain ⟨hc, hds⟩ := isDigits_cons h
    rw [List.cons_append, readDigits.eq_def]
    simp only [hc.1, hc.2, and_self, if_true, List.foldl_cons, List.length_cons]
    rw [readDigits_append rest hstop ds _ _ hds]
    simp only [Prod.mk.injEq, true_and, and_true]
    omega

theorem digitsValue_append (a b : List Nat) :
    digitsValue (a ++ b) = b.foldl (fun x c => x * 10 + (c - 48)) (digitsValue a) := by
  simp [digitsValue, List.foldl_append]

theorem expText_head (ex : Option Exponent) :
    ∀ c, (expText ex).head? = some c → ¬(48 ≤ c ∧ c ≤ 57) := by
  intro c hc
  cases ex with
  | none => simp [expText] at hc
  | some e =>
    simp only [expText, List.head?_cons, Option.some.injEq] at hc
    cases hu : e.upper <;> simp [hu] at hc <;> omega

theorem tail_head (fp : List Nat) (ex : Option Exponent) :
    ∀ c, (fracText fp ++ expText ex).head? = some c → ¬(48 ≤ c ∧ c ≤ 57) := by
  intro c hc
  by_cases hfp : fp = []
  · simp only [fracText, hfp, if_true, List.nil_append] at hc
    exact expText_head ex c hc
  · simp only [fracText, hfp, if_false, List.cons_append, List.head?_cons,
      Option.some.injEq] at hc
    omega

/-- The value `ParseFloat` gives the text of a number literal is the binary64
value of the literal. -/
theorem parseFloat_dec (neg : Bool) (ip fp : List Nat) (ex : Option Exponent)
    (hwf : (Lit.dec neg ip fp ex).WF) :
    parseFloat (Lit.dec neg ip fp ex).text = (Lit.dec neg ip fp ex).float := by
  obtain ⟨hip, hne, hfp, hex⟩ := hwf
  have hlen : ip.length ≠ 0 := fun h => hne (List.length_eq_zero.mp h)
  -- the text behind the sign
  have hs1 : (if (numText neg ip ++ (fracText fp ++ expText ex)).head? = some 43
        ∨ (numText neg ip ++ (fracText fp ++ expText ex)).head? = some 45
      then (numText neg ip ++ (fracText fp ++ expText ex)).tail
      else numText neg ip ++ (fracText fp ++ expText ex))
      = ip ++ (fracText fp ++ expText ex) := by
    cases neg with
    | true => simp [numText]
    | false =>
      cases ip with
      | nil => exact absurd rfl hne
      | cons c ip1 =>
        have hc := (isDigits_cons hip).1
        have e1 : c ≠ 45 := by omega
        have e2 : c ≠ 43 := by omega
        simp [numText, e1, e2]
  have hneg : (decide ((numText neg ip ++ (fracText fp ++ expText ex)).head? = some 45)) = neg := by
    cases neg with
    | true => simp [numText]
    | false =>
      cases ip with
      | nil => exact absurd rfl hne
      | cons c ip1 =>
        have hc := (isDigits_cons hip).1
        have e1 : c ≠ 45 := by omega
        simp [numText, e1]
  have h1 := readDigits_append (fracText fp ++ expText ex) (tail_head fp ex) ip 0 0 hip
  -- the fraction part
  have h2 : (if (fracText fp ++ expText ex).head? = some 46
        then readDigits (digitsValue ip) 0 (fracText fp ++ expText ex).tail
        else (digitsValue ip, 0, fracText fp ++ expText ex))
      = (digitsValue (ip ++ fp), fp.length, expText ex) := by
    by_cases hfe : fp = []
    · subst hfe
      have : (expText ex).head? ≠ some 46 := by
        cases ex with
        | none => simp [expText]
        | some e => cases hu : e.upper <;> simp [expText, hu]
      simp [fracText, this]
    · simp only [fracText, hfe, if_false, List.cons_append, List.head?_cons, if_true,
        List.tail_cons]
      rw [readDigits_append (expText ex) (expText_head ex) fp _ _ hfp, digitsValue_append]
      simp
  have hn : ¬ (ip.length + fp.length = 0) := by omega
  unfold parseFloat
  simp only [Lit.text, hs1, hneg, h1, digitsValue, Nat.zero_add] at h2 ⊢
  simp only [h2, hn, if_false]
  cases ex with
  | none =>
    simp [expText, Lit.float, expValue, digitsValue]
  | some e =>
    obtain ⟨hed, hene⟩ := hex e rfl
    have helen : e.digits.length ≠ 0 := fun h => hene (List.length_eq_zero.mp h)
    have h3 := readDigits_digits e.digits 0 0 hed
    cases hu : e.upper <;> cases hng : e.neg <;>
      simp [expText, hu, hng, h3, helen, Lit.float, expValue, digitsValue]

theorem readNumberLoop_digits_then (P : Platform) (tail : List Nat) :
    ∀ (ds buf : List Nat), IsDigits ds →
      readNumberLoop P buf (ds ++ tail) = readNumberLoop P (buf ++ ds) tail
  | [], buf, _ => by simp
  | c :: ds, buf, h => by
    obtain ⟨hc, hds⟩ := isDigits_cons h
    rw [List.cons_append, readNumberLoop.eq_def]
    simp only [isDigit_of_ascii P hc, isExponent_of_ascii hc,
      or_true, true_or, if_true, Bool.false_eq_true, if_false]
    rw [readNumberLoop_digits_then P tail ds _ hds]
    simp

theorem readNumberLoop_point (P : Platform) (buf tail : List Nat) :
    readNumberLoop P buf (46 :: tail) = readNumberLoop P (buf ++ [46]) tail := by
  rw [readNumberLoop.eq_def]
  simp [isExponent]

theorem readNumberLoop_exponent (P : Platform) (buf tail : List Nat) (e : Exponent) :
    readNumberLoop P buf
        ((if e.upper then 69 else 101) :: (if e.neg then 45 else 43) :: tail)
      = readNumberLoop P
          (buf ++ [if e.upper then 69 else 101, if e.neg then 45 else 43]) tail := by
  rw [readNumberLoop.eq_def]
  cases e.upper <;> cases e.neg <;> simp [isExponent]

/-- The loop of `readNumber` reads the fraction part and the exponent part of a
number literal to their end. -/
theorem readNumberLoop_tail (P : Platform) (fp : List Nat) (ex : Option Exponent)
    (rest buf : List Nat) (hfp : IsDigits fp)
    (hex : ∀ e, ex = some e → IsDigits e.digits ∧ e.digits ≠ [])
    (hstop : NumStop P rest) :
    readNumberLoop P buf (fracText fp ++ expText ex ++ rest)
      = (some (buf ++ (fracText fp ++ expText ex)), rest) := by
  have hexp : ∀ b : List Nat,
      readNumberLoop P b (expText ex ++ rest) = (some (b ++ expText ex), rest) := by
    intro b
    cases ex with
    | none => simpa [expText] using readNumberLoop_stop P rest b hstop
    | some e =>
      obtain ⟨hed, _⟩ := hex e rfl
      simp only [expText, List.cons_append]
      rw [readNumberLoop_exponent, readNumberLoop_digits P rest hstop e.digits _ hed]
      simp
  by_cases hfe : fp = []
  · simp only [fracText, hfe, if_true, List.nil_append]
    exact hexp buf
  · simp only [fracText, hfe, if_false, List.cons_append]
    rw [readNumberLoop_point, List.append_assoc, readNumberLoop_digits_then P _ fp _ hfp, hexp]
    simp

theorem Lex_dec (P : Platform) (l : Lexer) (ws rest : List Nat) (neg : Bool)
    (ip fp : List Nat) (ex : Option Exponent) (hws : IsWs ws)
    (hwf : (Lit.dec neg ip fp ex).WF) (hstop : NumStop P rest)
    (hin : l.input = ws ++ ((Lit.dec neg ip fp ex).text ++ rest)) :
    l.Lex P = ⟨Token.TK_NUMBER_LITERAL, none,
      l.scanned Token.TK_NUMBER_LITERAL ws rest [] (parseFloat (Lit.dec neg ip fp ex).text)⟩ := by
  obtain ⟨hip, hne, hfp, hex⟩ := hwf
  have htail := fun b => readNumberLoop_tail P fp ex rest b hfp hex hstop
  rw [Lex_eq_lexLoop, hin, lexLoop_ws P _ _ _ _ _ _ ws _ hws]
  cases neg with
  | true =>
    have hl : readNumberLoop P [45] (ip ++ (fracText fp ++ expText ex ++ rest))
        = (some ([45] ++ ip ++ (fracText fp ++ expText ex)), rest) := by
      rw [readNumberLoop_digits_then P _ ip _ hip, htail]
    simp only [List.append_assoc] at hl
    simp [Lit.text, numText, lexLoop, isDigit, Lexer.readNumber, hl, Lexer.scanned]
  | false =>
    cases ip with
    | nil => exact absurd rfl hne
    | cons c ds =>
      obtain ⟨hc, hds1⟩ := isDigits_cons hip
      have hl : readNumberLoop P [c] (ds ++ (fracText fp ++ expText ex ++ rest))
          = (some ([c] ++ ds ++ (fracText fp ++ expText ex)), rest) := by
        rw [readNumberLoop_digits_then P _ ds _ hds1, htail]
      simp only [List.append_assoc] at hl
      have e1 : c ≠ 10 := by omega
      have e2 : ¬(c = 9 ∨ c = 13 ∨ c = 32) := by omega
      have e3 : c ≠ 123 := by omega
      have e4 : c ≠ 125 := by omega
      have e5 : c ≠ 91 := by omega
      have e6 : c ≠ 93 := by omega
      have e7 : c ≠ 58 := by omega
      have e8 : c ≠ 44 := by omega
      have e9 : c ≠ 34 := by omega
      simp [Lit.text, numText, lexLoop, e1, e2, e3, e4, e5, e6, e7, e8, e9,
        isDigit_of_ascii P hc, Lexer.readNumber, hl, Lexer.scanned]

/-! ## String items without `\u` escapes -/

theorem itemsMeaning_payload :
    ∀ items : List StrItem, items.all (fun i => !i.isUnicode) = true →
      itemsMeaning items = itemsPayload items
  | [], _ => rfl
  | i :: is, h => by
    simp only [List.all_cons, Bool.and_eq_true, Bool.not_eq_true'] at h
    rw [itemsMeaning, itemsPayload, itemsMeaning_payload is h.2]
    cases i <;> simp [StrItem.isUnicode] at h <;> simp [StrItem.meaning]

theorem itemsText_plain : ∀ rs : List Nat, itemsText (rs.map StrItem.plain) = rs
  | [] => rfl
  | r :: rs => by simp [itemsText, StrItem.text, itemsText_plain rs]

theorem itemsPayload_plain : ∀ rs : List Nat, itemsPayload (rs.map StrItem.plain) = rs
  | [] => rfl
  | r :: rs => by simp [itemsPayload, StrItem.payload, itemsPayload_plain rs]

theorem items_plain_all (rs : List Nat) :
    (rs.map StrItem.plain).all (fun i => !i.isUnicode) = true := by
  simp [StrItem.isUnicode]

theorem items_plain_wf {rs : List Nat} (h : Clean rs) : ∀ i ∈ rs.map StrItem.plain, i.WF := by
  intro i hi
  obtain ⟨r, hr, rfl⟩ := List.mem_map.mp hi
  exact h r hr

/-! ## Storing a literal in a field -/

theorem wrapInt_of_range (bits : Nat) (hb : 0 < bits) (v : Int)
    (hlo : -(2 : Int) ^ (bits - 1) ≤ v) (hhi : v < (2 : Int) ^ (bits - 1)) :
    wrapInt bits v = v := by
  unfold wrapInt
  have hp : (2 : Int) ^ bits = 2 * (2 : Int) ^ (bits - 1) := by
    conv_lhs => rw [show bits = (bits - 1) + 1 by omega]
    rw [pow_succ]; ring
  rw [Int.emod_eq_of_lt (by omega) (by omega)]
  omega

theorem intKind_bits_pos (P : Platform) (k : IntKind) : 0 < k.bits P := by
  cases k <;> simp [IntKind.bits, Platform.intSize]
  split <;> decide

theorem int64OfFloat_round (P : Platform) (neg : Bool) (n : Nat) (h : n ≤ 2 ^ 53) :
    int64OfFloat P (F64.round neg n 1) = (if neg then -(n : Int) else (n : Int)) := by
  unfold int64OfFloat
  rw [trunc_round neg n h]
  have h1 : (n : Int) ≤ 2 ^ 53 := by exact_mod_cast h
  cases neg
  · simp only [Bool.false_eq_true, if_false]
    rw [if_pos]
    constructor <;> omega
  · simp only [if_true]
    rw [if_pos]
    constructor <;> omega

theorem uint64OfFloat_round (P : Platform) (neg : Bool) (n : Nat) (h : n ≤ 2 ^ 53)
    (hnn : 0 ≤ (if neg then -(n : Int) else (n : Int))) :
    uint64OfFloat P (F64.round neg n 1) = (if neg then -(n : Int) else (n : Int)).toNat := by
  unfold uint64OfFloat
  rw [trunc_round neg n h]
  have h1 : (n : Int) ≤ 2 ^ 53 := by exact_mod_cast h
  simp only
  rw [if_pos]
  constructor
  · exact hnn
  · cases neg <;> simp <;> omega

theorem intKind_bits_le (P : Platform) (k : IntKind) : k.bits P ≤ 64 := by
  cases k <;> simp [IntKind.bits, Platform.intSize]
  split <;> decide

theorem uintKind_bits_le (P : Platform) (k : UintKind) : k.bits P ≤ 64 := by
  cases k <;> simp [UintKind.bits, Platform.intSize]
  split <;> decide

theorem int64OfFloat_trunc (P : Platform) (f : F64) (v : Int) (h : f.trunc = some v)
    (hlo : -(2 : Int) ^ 63 ≤ v) (hhi : v < (2 : Int) ^ 63) : int64OfFloat P f = v := by
  unfold int64OfFloat
  rw [h]
  simp only
  rw [if_pos ⟨hlo, hhi⟩]

theorem uint64OfFloat_trunc (P : Platform) (f : F64) (v : Int) (h : f.trunc = some v)
    (hlo : 0 ≤ v) (hhi : v < (2 : Int) ^ 64) : uint64OfFloat P f = v.toNat := by
  unfold uint64OfFloat
  rw [h]
  simp only
  rw [if_pos ⟨hlo, hhi⟩]

theorem pow_bits_le {b : Nat} (h : b ≤ 64) : (2 : Int) ^ (b - 1) ≤ (2 : Int) ^ 63 :=
  pow_le_pow_right₀ (by norm_num) (by omega)

theorem valueWith_lit (P : Platform) (obj : Decoder → Flag → Value → DecState)
    (lit : Lit) (hwf : lit.WF) (l3 : Lexer) (tok : Token) (l4 : Lexer) (v v1 : Value)
    (htok : l3.currtoken = lit.token) (hsv : l3.svalue = lit.svalue)
    (hnv : l3.nvalue = lit.nvalue)
    (hstore : lit.asValueOf P v = some v1)
    (hlex : l3.Lex P = ⟨tok, none, l4⟩) :
    valueWith P obj ⟨l3⟩ ⟨true, false⟩ v = ⟨Outcome.ok, ⟨l4⟩, v1⟩ := by
  cases lit with
  | bool b =>
    cases v <;> simp [Lit.asValueOf] at hstore
    subst hstore
    cases b <;>
      simp [valueWith, htok, Lit.token, afterLiteral, boolLiteral, Flag.CanSet, Value.kind,
        Value.typeOf, GoType.kind, hlex]
  | str items =>
    cases v <;> simp [Lit.asValueOf] at hstore
    obtain ⟨hall, hv⟩ := hstore
    subst hv
    have hm := itemsMeaning_payload items (by simpa using hall)
    simp [valueWith, htok, hsv, Lit.token, Lit.svalue, afterLiteral, stringLiteral, Flag.CanSet,
      Value.kind, Value.typeOf, GoType.kind, hlex, hm]
  | num neg ds =>
    have hpf := parseFloat_numText neg ds hwf.1 hwf.2
    simp only [Lit.nvalue, hpf] at hnv
    cases v with
    | int k i =>
      simp only [Lit.asValueOf] at hstore
      split at hstore
      · rename_i hc
        obtain ⟨hsm, hlo, hhi⟩ := hc
        simp only [Option.some.injEq] at hstore
        subst hstore
        have hw : wrapInt (k.bits P) (numValue neg ds) = numValue neg ds :=
          wrapInt_of_range _ (intKind_bits_pos P k) _ hlo hhi
        have hb := pow_bits_le (intKind_bits_le P k)
        have h64 := int64OfFloat_trunc P _ _ hsm (by omega) (by omega)
        simp [valueWith, htok, hnv, Lit.token, afterLiteral, numberLiteral, Flag.CanSet,
          h64, hlex, hw]
      · simp at hstore
    | uint k i =>
      simp only [Lit.asValueOf] at hstore
      split at hstore
      · rename_i hc
        obtain ⟨hsm, hlo, hhi⟩ := hc
        simp only [Option.some.injEq] at hstore
        subst hstore
        have hw : (numValue neg ds).toNat % 2 ^ k.bits P = (numValue neg ds).toNat := by
          apply Nat.mod_eq_of_lt
          have : ((numValue neg ds).toNat : Int) < ((2 ^ k.bits P : Nat) : Int) := by
            rw [Int.toNat_of_nonneg hlo]; exact_mod_cast hhi
          exact_mod_cast this
        have hb : (2 : Int) ^ k.bits P ≤ (2 : Int) ^ 64 :=
          pow_le_pow_right₀ (by norm_num) (uintKind_bits_le P k)
        have h64 := uint64OfFloat_trunc P _ _ hsm hlo (by omega)
        simp [valueWith, htok, hnv, Lit.token, afterLiteral, numberLiteral, Flag.CanSet,
          h64, hlex, hw]
      · simp at hstore
    | float k f =>
      cases k <;> simp only [Lit.asValueOf, Option.some.injEq] at hstore <;> subst hstore <;>
        simp [valueWith, htok, hnv, Lit.token, afterLiteral, numberLiteral, Flag.CanSet, hlex,
          Lit.float]
    | _ => simp [Lit.asValueOf] at hstore
  | dec neg ip fp ex =>
    have hpf := parseFloat_dec neg ip fp ex hwf
    simp only [Lit.nvalue, hpf] at hnv
    cases v with
    | float k f =>
      cases k <;> simp only [Lit.asValueOf, Option.some.injEq] at hstore <;> subst hstore <;>
        simp [valueWith, htok, hnv, Lit.token, afterLiteral, numberLiteral, Flag.CanSet, hlex]
    | _ => simp [Lit.asValueOf] at hstore
  | nothing => exact absurd hwf (by simp [Lit.WF])

theorem fieldLoop_lit (P : Platform) (obj : Decoder → Flag → Value → DecState)
    (lit : Lit) (hwf : lit.WF) (l3 : Lexer) (tok : Token) (l4 : Lexer)
    (htok : l3.currtoken = lit.token) (hsv : l3.svalue = lit.svalue)
    (hnv : l3.nvalue = lit.nvalue) (hlex : l3.Lex P = ⟨tok, none, l4⟩) (key : List Nat) :
    ∀ (vs : List (List Nat × Bool × Value)) (v v1 : Value),
      lookupField key vs = some (true, v) → lit.asValueOf P v = some v1 →
      fieldLoop (valueWith P obj) ⟨l3⟩ ⟨true, false⟩ key vs
        = (Outcome.ok, ⟨l4⟩, storeField P key lit vs)
  | [], v, v1, h, _ => by simp [lookupField] at h
  | (name, exported, v0) :: vs, v, v1, h, hstore => by
    by_cases hn : name = key
    · simp only [lookupField, hn, if_true, Option.some.injEq, Prod.mk.injEq] at h
      obtain ⟨hex, hv⟩ := h
      subst hex hv
      have := valueWith_lit P obj lit hwf l3 tok l4 v0 v1 htok hsv hnv hstore hlex
      simp [fieldLoop, storeField, hn, Flag.field, this, hstore]
    · simp only [lookupField, hn, if_false] at h
      have ih := fieldLoop_lit P obj lit hwf l3 tok l4 htok hsv hnv hlex key vs v v1 h hstore
      simp [fieldLoop, storeField, hn, ih]

theorem Lex_lit (P : Platform) (l : Lexer) (ws rest : List Nat) (lit : Lit) (hws : IsWs ws)
    (hwf : lit.WF) (hdel : Delimited rest) (hin : l.input = ws ++ (lit.text ++ rest)) :
    l.Lex P = ⟨lit.token, none, l.scanned lit.token ws rest lit.svalue lit.nvalue⟩ := by
  cases lit with
  | bool b =>
    cases b
    · simpa [Lit.token, Lit.svalue, Lit.nvalue, Keyword.token] using
        Lex_keyword P l ws rest Keyword.kwFalse hws (kwStop_of_delimited P hdel)
          (by simpa [Lit.text, FormatBool, Keyword.text] using hin)
    · simpa [Lit.token, Lit.svalue, Lit.nvalue, Keyword.token] using
        Lex_keyword P l ws rest Keyword.kwTrue hws (kwStop_of_delimited P hdel)
          (by simpa [Lit.text, FormatBool, Keyword.text] using hin)
  | num neg ds =>
    simpa [Lit.token, Lit.svalue, Lit.nvalue] using
      Lex_number P l ws ds rest neg hws hwf.1 hwf.2 (numStop_of_delimited P hdel)
        (by simpa [Lit.text] using hin)
  | dec neg ip fp ex =>
    simpa [Lit.token, Lit.svalue, Lit.nvalue] using
      Lex_dec P l ws rest neg ip fp ex hws hwf (numStop_of_delimited P hdel) hin
  | str items =>
    have hin1 : l.input = ws ++ 34 :: (itemsText items ++ 34 :: rest) := by
      simpa [Lit.text] using hin
    rw [Lex_eq_lexLoop, hin1, lexLoop_ws P _ _ _ _ _ _ ws _ hws]
    simp [lexLoop, Lexer.readString, readStringLoop_items P rest items [] hwf, Lexer.next,
      Lexer.scanned, Lit.token, Lit.svalue, Lit.nvalue]
  | nothing => exact absurd hwf (by simp [Lit.WF])

theorem isWs_append {a b : List Nat} (ha : IsWs a) (hb : IsWs b) : IsWs (a ++ b) := by
  intro c hc
  rcases List.mem_append.mp hc with h | h
  · exact ha c h
  · exact hb c h

theorem asValueOf_nothing (P : Platform) (v : Value) : Lit.nothing.asValueOf P v = some v := by
  cases v with
  | float k f => cases k <;> rfl
  | _ => rfl

/-- The field loop in front of a comma or a right brace, where `value` reads
nothing and stores nothing. -/
theorem fieldLoop_nothing (P : Platform) (obj : Decoder → Flag → Value → DecState)
    (l3 : Lexer) (htok : l3.currtoken = Token.TK_COMMA ∨ l3.currtoken = Token.TK_RBRACE)
    (key : List Nat) :
    ∀ (vs : List (List Nat × Bool × Value)),
      fieldLoop (valueWith P obj) ⟨l3⟩ ⟨true, false⟩ key vs
        = (Outcome.ok, ⟨l3⟩, storeField P key Lit.nothing vs)
  | [] => by simp [fieldLoop, storeField]
  | (name, exported, v0) :: vs => by
    by_cases hn : name = key
    · rcases htok with h | h <;>
        simp [fieldLoop, storeField, hn, valueWith, h, asValueOf_nothing]
    · have ih := fieldLoop_nothing P obj l3 htok key vs
      simp [fieldLoop, storeField, hn, ih]

/-- One iteration of the loop of `object` on a record, over a member followed by
a comma or a right brace. -/
theorem members_step (P : Platform) (fuel : Nat) (l : Lexer) (m : Member) (hwf : m.Readable)
    (p : Punct) (hp : p = Punct.comma ∨ p = Punct.rbrace) (tail : List Nat)
    (vs : List (List Nat × Bool × Value)) (v v1 : Value)
    (hlook : lookupField m.name vs = some (true, v)) (hstore : m.lit.asValueOf P v = some v1)
    (hin : l.input = m.text ++ p.rune :: tail) :
    ∃ l4 : Lexer, l4.input = tail ∧ l4.currtoken = p.token ∧
      objectLoop P (fuel + 1) ⟨l⟩ ⟨true, false⟩ (Value.struct vs)
        = (if p.token = Token.TK_COMMA then
            objectLoop P fuel ⟨l4⟩ ⟨true, false⟩ (Value.struct (storeField P m.name m.lit vs))
          else if p.token ≠ Token.TK_RBRACE then
            ⟨Outcome.err (Decoder.genSyntaxError ⟨l4⟩ ErrMsg.mustBeRightBrace), ⟨l4⟩,
              Value.struct (storeField P m.name m.lit vs)⟩
          else ⟨Outcome.ok, ⟨l4⟩, Value.struct (storeField P m.name m.lit vs)⟩) := by
  obtain ⟨h1, hk, h2, h3, hl, h4⟩ := hwf
  rcases hl with hno | hl
  · rw [hno] at hstore ⊢
    have hin1 : l.input = m.ws1 ++ (34 :: (m.key ++ 34 :: (m.ws2 ++ 58 ::
        ((m.ws3 ++ m.ws4) ++ p.rune :: tail)))) := by
      simpa [Member.text, hno, Lit.text] using hin
    have e1 := Lex_string P l m.ws1 m.key
      (m.ws2 ++ 58 :: ((m.ws3 ++ m.ws4) ++ p.rune :: tail)) h1 hk hin1
    generalize hl1 : l.scanned Token.TK_STRING_LITERAL m.ws1
      (m.ws2 ++ 58 :: ((m.ws3 ++ m.ws4) ++ p.rune :: tail)) m.key F64.zero = l1 at e1
    have i1 : l1.input = m.ws2 ++ Punct.colon.rune :: ((m.ws3 ++ m.ws4) ++ p.rune :: tail) := by
      rw [← hl1]; rfl
    have t1 : l1.currtoken = Token.TK_STRING_LITERAL := by rw [← hl1]; rfl
    have s1 : l1.svalue = m.key := by rw [← hl1]; rfl
    have e2 := Lex_punct P l1 m.ws2 _ Punct.colon h2 i1
    generalize hl2 : l1.scanned Punct.colon.token m.ws2
      ((m.ws3 ++ m.ws4) ++ p.rune :: tail) [] F64.zero = l2 at e2
    have i2 : l2.input = (m.ws3 ++ m.ws4) ++ p.rune :: tail := by rw [← hl2]; rfl
    have t2 : l2.currtoken = Token.TK_COLON := by rw [← hl2]; rfl
    have e3 := Lex_punct P l2 (m.ws3 ++ m.ws4) tail p (isWs_append h3 h4) i2
    generalize hl3 : l2.scanned p.token (m.ws3 ++ m.ws4) tail [] F64.zero = l3 at e3
    have i3 : l3.input = tail := by rw [← hl3]; rfl
    have t3 : l3.currtoken = p.token := by rw [← hl3]; rfl
    refine ⟨l3, i3, t3, ?_⟩
    have hsf := fieldLoop_nothing P (objectWith (objectLoop P fuel)) l3
      (by rcases hp with h | h <;> simp [t3, h, Punct.token]) m.name vs
    rw [objectLoop.eq_def]
    simp only [e1, e2, e3, t1, t2, s1, ← Member.name.eq_1, hsf, t3, ne_eq, not_true_eq_false,
      if_false]
  have e1 := Lex_string P l m.ws1 m.key
    (m.ws2 ++ 58 :: (m.ws3 ++ (m.lit.text ++ (m.ws4 ++ p.rune :: tail)))) h1 hk
    (by simpa [Member.text] using hin)
  generalize hl1 : l.scanned Token.TK_STRING_LITERAL m.ws1
    (m.ws2 ++ 58 :: (m.ws3 ++ (m.lit.text ++ (m.ws4 ++ p.rune :: tail)))) m.key F64.zero = l1 at e1
  have i1 : l1.input = m.ws2 ++ Punct.colon.rune :: (m.ws3 ++ (m.lit.text ++ (m.ws4 ++ p.rune :: tail))) := by
    rw [← hl1]; rfl
  have t1 : l1.currtoken = Token.TK_STRING_LITERAL := by rw [← hl1]; rfl
  have s1 : l1.svalue = m.key := by rw [← hl1]; rfl
  have e2 := Lex_punct P l1 m.ws2 _ Punct.colon h2 i1
  generalize hl2 : l1.scanned Punct.colon.token m.ws2
    (m.ws3 ++ (m.lit.text ++ (m.ws4 ++ p.rune :: tail))) [] F64.zero = l2 at e2
  have i2 : l2.input = m.ws3 ++ (m.lit.text ++ (m.ws4 ++ p.rune :: tail)) := by
    rw [← hl2]; rfl
  have t2 : l2.currtoken = Token.TK_COLON := by rw [← hl2]; rfl
  have e3 := Lex_lit P l2 m.ws3 (m.ws4 ++ p.rune :: tail) m.lit h3 hl
    (delimited_ws_append h4 (delimited_punct p tail)) i2
  generalize hl3 : l2.scanned m.lit.token m.ws3 (m.ws4 ++ p.rune :: tail) m.lit.svalue
    m.lit.nvalue = l3 at e3
  have i3 : l3.input = m.ws4 ++ p.rune :: tail := by rw [← hl3]; rfl
  have t3 : l3.currtoken = m.lit.token := by rw [← hl3]; rfl
  have s3 : l3.svalue = m.lit.svalue := by rw [← hl3]; rfl
  have n3 : l3.nvalue = m.lit.nvalue := by rw [← hl3]; rfl
  have e4 := Lex_punct P l3 m.ws4 tail p h4 i3
  generalize hl4 : l3.scanned p.token m.ws4 tail [] F64.zero = l4 at e4
  have i4 : l4.input = tail := by rw [← hl4]; rfl
  have t4 : l4.currtoken = p.token := by rw [← hl4]; rfl
  refine ⟨l4, i4, t4, ?_⟩
  have hsf := fieldLoop_lit P (objectWith (objectLoop P fuel)) m.lit hl l3 p.token l4 t3 s3 n3 e4
    m.name vs v v1 hlook hstore
  rw [objectLoop.eq_def]
  simp only [e1, e2, e3, t1, t2, s1, ← Member.name.eq_1, hsf, t4, ne_eq, not_true_eq_false,
    if_false]

theorem membersText_cons_cons (rest : List Nat) (m m1 : Member) (ms : List Member) :
    membersText rest (m :: m1 :: ms) = m.text ++ Punct.comma.rune :: membersText rest (m1 :: ms) :=
  rfl

theorem membersText_single (rest : List Nat) (m : Member) :
    membersText rest [m] = m.text ++ Punct.rbrace.rune :: rest :=
  rfl

/-- The loop of `object` on a record, over the members of an object text. -/
theorem members_record (P : Platform) (rest : List Nat) :
    ∀ (ms : List Member) (fuel : Nat) (l : Lexer) (vs : List (List Nat × Bool × Value)),
      ms ≠ [] → ms.length ≤ fuel → (∀ m ∈ ms, m.Readable) → Storable P ms vs →
      l.input = membersText rest ms →
      ∃ l1 : Lexer, l1.input = rest ∧
        objectLoop P fuel ⟨l⟩ ⟨true, false⟩ (Value.struct vs)
          = ⟨Outcome.ok, ⟨l1⟩, Value.struct (storeMembers P ms vs)⟩
  | [], _, _, _, h, _, _, _, _ => absurd rfl h
  | [m], fuel, l, vs, _, hfuel, hwf, hst, hin => by
    obtain ⟨fuel, rfl⟩ : ∃ f, fuel = f + 1 := ⟨fuel - 1, by simp at hfuel; omega⟩
    obtain ⟨⟨v, v1, hlook, hstore⟩, _⟩ := hst
    obtain ⟨l4, i4, _, h⟩ := members_step P fuel l m (hwf m (List.mem_singleton_self m))
      Punct.rbrace (Or.inr rfl) rest vs v v1 hlook hstore (by rw [hin, membersText_single])
    refine ⟨l4, i4, ?_⟩
    rw [h]
    simp [Punct.token, storeMembers]
  | m :: m1 :: ms, fuel, l, vs, _, hfuel, hwf, hst, hin => by
    obtain ⟨fuel, rfl⟩ : ∃ f, fuel = f + 1 := ⟨fuel - 1, by simp at hfuel; omega⟩
    obtain ⟨⟨v, v1, hlook, hstore⟩, hst1⟩ := hst
    obtain ⟨l4, i4, _, h⟩ := members_step P fuel l m (hwf m (List.mem_cons_self _ _))
      Punct.comma (Or.inl rfl) (membersText rest (m1 :: ms)) vs v v1 hlook hstore
      (by rw [hin, membersText_cons_cons])
    obtain ⟨l5, i5, h5⟩ := members_record P rest (m1 :: ms) fuel l4 (storeField P m.name m.lit vs)
      (by simp) (by simp at hfuel ⊢; omega) (fun x hx => hwf x (List.mem_cons_of_mem _ hx))
      hst1 i4
    refine ⟨l5, i5, ?_⟩
    rw [h]
    simp only [Punct.token, if_true]
    rw [h5]
    simp [storeMembers]

theorem fieldHolds_append_other (P : Platform) (done : List Member) (m : Member)
    (f : List Nat × Bool × GoType) (g : List Nat × Bool × Value)
    (h : FieldHolds P done f g) (hne : m.name ≠ f.1) : FieldHolds P (done ++ [m]) f g := by
  obtain ⟨a, b, c, d⟩ := h
  refine ⟨a, b, ?_, ?_⟩
  · intro m' hm' hk
    rcases List.mem_append.mp hm' with h1 | h1
    · exact c m' h1 hk
    · simp at h1; subst h1; exact absurd hk hne
  · intro hall
    exact d (fun m' hm' => hall m' (List.mem_append_left _ hm'))

theorem holds_zero (P : Platform) :
    ∀ fields : List (List Nat × Bool × GoType),
      List.Forall₂ (FieldHolds P []) fields (GoType.zeroFields fields)
  | [] => by simp [GoType.zeroFields]
  | (name, exported, t) :: fs => by
    simp only [GoType.zeroFields]
    exact List.Forall₂.cons ⟨rfl, rfl, by simp, fun _ => rfl⟩ (holds_zero P fs)

theorem holds_step (P : Platform) (done : List Member) (m : Member) (t : GoType) (v1 : Value)
    (hfresh : ∀ m' ∈ done, m'.name ≠ m.name) (hstore : m.lit.asValueOf P t.zero = some v1) :
    ∀ (fields : List (List Nat × Bool × GoType)) (vs : List (List Nat × Bool × Value)),
      List.Forall₂ (FieldHolds P done) fields vs → (fields.map (·.1)).Nodup →
      (m.name, true, t) ∈ fields →
      lookupField m.name vs = some (true, t.zero)
        ∧ List.Forall₂ (FieldHolds P (done ++ [m])) fields (storeField P m.name m.lit vs)
  | [], _, _, _, hmem => by simp at hmem
  | f :: fs, [], h, _, _ => by cases h
  | (n, ex, t1) :: fs, (n1, ex1, v) :: vs, h, hnd, hmem => by
    cases h with
    | cons hhead htail =>
      obtain ⟨hn, hex, hc1, hc2⟩ := hhead
      simp only at hn hex hc1 hc2
      subst hn hex
      simp only [List.map_cons, List.nodup_cons] at hnd
      obtain ⟨hnotin, hnd1⟩ := hnd
      by_cases hk : n1 = m.name
      · have hhead_eq : (m.name, true, t) = (n1, ex1, t1) := by
          rcases List.mem_cons.mp hmem with h1 | h1
          · exact h1
          · exfalso
            apply hnotin
            rw [hk]
            exact List.mem_map.mpr ⟨(m.name, true, t), h1, rfl⟩
        simp only [Prod.mk.injEq] at hhead_eq
        obtain ⟨_, hex1, ht1⟩ := hhead_eq
        subst hex1 ht1
        have hv : v = t.zero := hc2 (fun m' hm' => by rw [hk]; exact hfresh m' hm')
        subst hv
        refine ⟨by simp [lookupField, hk], ?_⟩
        simp only [storeField, hk, if_true, hstore, Option.getD_some]
        refine List.Forall₂.cons ⟨rfl, rfl, ?_, ?_⟩ ?_
        · intro m' hm' _
          rcases List.mem_append.mp hm' with h1 | h1
          · exact absurd ‹m'.name = _› (by rw [← hk]; simpa [hk] using hfresh m' h1)
          · simp at h1; subst h1; exact hstore
        · intro hall
          exact absurd rfl (hall m (List.mem_append_right _ (List.mem_singleton_self m)))
        · have : ∀ (fs : List (List Nat × Bool × GoType)) (vs : List (List Nat × Bool × Value)),
              List.Forall₂ (FieldHolds P done) fs vs → m.name ∉ fs.map (·.1) →
              List.Forall₂ (FieldHolds P (done ++ [m])) fs vs := by
            intro fs vs hh
            induction hh with
            | nil => intro _; exact List.Forall₂.nil
            | cons hd _ ih =>
              intro hni
              simp only [List.map_cons, List.mem_cons, not_or] at hni
              exact List.Forall₂.cons (fieldHolds_append_other P done m _ _ hd hni.1) (ih hni.2)
          exact this fs vs htail (by rw [← hk]; exact hnotin)
      · have hmem1 : (m.name, true, t) ∈ fs := by
          rcases List.mem_cons.mp hmem with h1 | h1
          · simp only [Prod.mk.injEq] at h1
            exact absurd h1.1.symm hk
          · exact h1
        obtain ⟨hl, hf⟩ := holds_step P done m t v1 hfresh hstore fs vs htail hnd1 hmem1
        refine ⟨by simp [lookupField, hk, hl], ?_⟩
        simp only [storeField, hk, if_false]
        exact List.Forall₂.cons
          (fieldHolds_append_other P done m _ _ ⟨rfl, rfl, hc1, hc2⟩ (fun h => hk h.symm)) hf

theorem storable_holds (P : Platform) (fields : List (List Nat × Bool × GoType))
    (hnames : (fields.map (·.1)).Nodup) :
    ∀ (ms done : List Member) (vs : List (List Nat × Bool × Value)),
      List.Forall₂ (FieldHolds P done) fields vs →
      ((done ++ ms).map Member.name).Nodup →
      (∀ m ∈ ms, ∃ t, (m.name, true, t) ∈ fields ∧ (m.lit.asValueOf P t.zero).isSome = true) →
      Storable P ms vs ∧ List.Forall₂ (FieldHolds P (done ++ ms)) fields (storeMembers P ms vs)
  | [], done, vs, h, _, _ => by
    simpa [Storable, storeMembers] using h
  | m :: ms, done, vs, h, hnd, hcompat => by
    obtain ⟨t, hmem, hsome⟩ := hcompat m (List.mem_cons_self _ _)
    obtain ⟨v1, hv1⟩ := Option.isSome_iff_exists.mp hsome
    have hfresh : ∀ m' ∈ done, m'.name ≠ m.name := by
      intro m' hm' heq
      rw [List.map_append, List.nodup_append] at hnd
      exact hnd.2.2 (List.mem_map.mpr ⟨m', hm', rfl⟩)
        (List.mem_map.mpr ⟨m, List.mem_cons_self _ _, heq.symm⟩)
    obtain ⟨hl, hf⟩ := holds_step P done m t v1 hfresh hv1 fields vs h hnames hmem
    have hnd1 : (((done ++ [m]) ++ ms).map Member.name).Nodup := by
      simpa using hnd
    obtain ⟨hs, hh⟩ := storable_holds P fields hnames ms (done ++ [m])
      (storeField P m.name m.lit vs) hf hnd1
      (fun x hx => hcompat x (List.mem_cons_of_mem _ hx))
    refine ⟨⟨⟨t.zero, v1, hl, hv1⟩, hs⟩, ?_⟩
    have e : done ++ m :: ms = (done ++ [m]) ++ ms := by simp
    rw [e]
    simpa [storeMembers] using hh

theorem length_le_membersText (rest : List Nat) :
    ∀ ms : List Member, ms.length ≤ (membersText rest ms).length
  | [] => by simp
  | [m] => by simp [membersText]; omega
  | m :: m1 :: ms => by
    have := length_le_membersText rest (m1 :: ms)
    simp only [membersText, List.length_append, List.length_cons] at this ⊢
    omega

theorem Lex_new_lbrace (P : Platform) (ws0 tail : List Nat) (hws0 : IsWs ws0) :
    (NewLexer (ws0 ++ 123 :: tail)).Lex P
      = ⟨Token.TK_LBRACE, none,
          (NewLexer (ws0 ++ 123 :: tail)).scanned Token.TK_LBRACE ws0 tail [] F64.zero⟩ :=
  Lex_punct P (NewLexer (ws0 ++ 123 :: tail)) ws0 tail Punct.lbrace hws0 rfl

theorem Decode_struct (P : Platform) (d : Decoder) (fields : List (List Nat × Bool × GoType))
    (cur : Value) (l1 : Lexer) (s : DecState)
    (hlex : d.lexer.Lex P = ⟨Token.TK_LBRACE, none, l1⟩) (ht : l1.currtoken = Token.TK_LBRACE)
    (hs : objectLoop P (d.lexer.input.length + 1) ⟨l1⟩ ⟨true, false⟩
        (Value.struct (GoType.zeroFields fields)) = s) (hok : s.out = Outcome.ok) :
    d.Decode P (some ⟨GoType.struct fields, cur⟩)
      = ⟨Outcome.ok, s.d, some ⟨GoType.struct fields, s.rv⟩⟩ := by
  simp only [Decoder.Decode, hlex, GoType.kind, Decoder.value, valueWith, ht, objectWith,
    GoType.zero, Value.kind, Value.typeOf, hs]
  simp
  rw [hok]

theorem readable_of_wf {m : Member} (h : m.WF) : m.Readable :=
  ⟨h.1, h.2.1, h.2.2.1, h.2.2.2.1, Or.inr h.2.2.2.2.1, h.2.2.2.2.2⟩

/-- The decoding of an object text into a record, by the stores of its members. -/
theorem decode_record_stores (P : Platform) (fields : List (List Nat × Bool × GoType))
    (ms : List Member) (ws0 rest : List Nat) (cur : Value) (hne : ms ≠ [])
    (hws0 : IsWs ws0) (hwf : ∀ m ∈ ms, m.Readable)
    (hst : Storable P ms (GoType.zeroFields fields)) :
    ((NewDecoder (objectText ws0 ms rest)).Decode P (some ⟨GoType.struct fields, cur⟩)).out
        = Outcome.ok
      ∧ ((NewDecoder (objectText ws0 ms rest)).Decode P
          (some ⟨GoType.struct fields, cur⟩)).v.map Target.cur
        = some (Value.struct (storeMembers P ms (GoType.zeroFields fields))) := by
  have hlex := Lex_new_lbrace P ws0 (membersText rest ms) hws0
  generalize hl1 : (NewLexer (ws0 ++ 123 :: membersText rest ms)).scanned Token.TK_LBRACE ws0
    (membersText rest ms) [] F64.zero = l1 at hlex
  have i1 : l1.input = membersText rest ms := by rw [← hl1]; rfl
  have t1 : l1.currtoken = Token.TK_LBRACE := by rw [← hl1]; rfl
  have hfuel : ms.length ≤ (NewDecoder (objectText ws0 ms rest)).lexer.input.length + 1 := by
    have := length_le_membersText rest ms
    show ms.length ≤ (ws0 ++ 123 :: membersText rest ms).length + 1
    simp only [List.length_append, List.length_cons]
    omega
  obtain ⟨l2, _, h2⟩ := members_record P rest ms _ l1 (GoType.zeroFields fields) hne hfuel hwf
    hst i1
  have := Decode_struct P (NewDecoder (objectText ws0 ms rest)) fields cur l1 _ hlex t1 h2 rfl
  rw [this]
  exact ⟨rfl, rfl⟩

/-- The decoding of an object text into a record, field by field. -/
theorem decode_record_holds (P : Platform) (fields : List (List Nat × Bool × GoType))
    (ms : List Member) (ws0 rest : List Nat) (cur : Value) (hne : ms ≠ [])
    (hws0 : IsWs ws0) (hwf : ∀ m ∈ ms, m.Readable) (hkeys : (ms.map Member.name).Nodup)
    (hnames : (fields.map (·.1)).Nodup)
    (hcompat : ∀ m ∈ ms, ∃ t, (m.name, true, t) ∈ fields
      ∧ (m.lit.asValueOf P t.zero).isSome = true) :
    ((NewDecoder (objectText ws0 ms rest)).Decode P (some ⟨GoType.struct fields, cur⟩)).out
        = Outcome.ok
      ∧ ∃ vs, ((NewDecoder (objectText ws0 ms rest)).Decode P
            (some ⟨GoType.struct fields, cur⟩)).v.map Target.cur = some (Value.struct vs)
          ∧ List.Forall₂ (FieldHolds P ms) fields vs := by
  obtain ⟨hst, hh⟩ := storable_holds P fields hnames ms [] (GoType.zeroFields fields)
    (holds_zero P fields) (by simpa using hkeys) hcompat
  obtain ⟨h1, h2⟩ := decode_record_stores P fields ms ws0 rest cur hne hws0 hwf hst
  exact ⟨h1, _, h2, by simpa using hh⟩

/-- An integer literal of magnitude at most `2^53` within the range of a signed
integer kind is a literal of that kind: binary64 holds it exactly. -/
theorem asValueOf_int_small (P : Platform) (k : IntKind) (old : Int) (neg : Bool) (ds : List Nat)
    (h : digitsValue ds ≤ 2 ^ 53) (hlo : -(2 : Int) ^ (k.bits P - 1) ≤ numValue neg ds)
    (hhi : numValue neg ds < (2 : Int) ^ (k.bits P - 1)) :
    (Lit.num neg ds).asValueOf P (Value.int k old) = some (Value.int k (numValue neg ds)) := by
  have ht : (F64.round neg (digitsValue ds) 1).trunc = some (numValue neg ds) :=
    trunc_round neg (digitsValue ds) h
  simp only [Lit.asValueOf]
  rw [if_pos ⟨ht, hlo, hhi⟩]

/-- An integer literal of magnitude at most `2^53` within the range of an
unsigned integer kind is a literal of that kind. -/
theorem asValueOf_uint_small (P : Platform) (k : UintKind) (old : Nat) (neg : Bool)
    (ds : List Nat) (h : digitsValue ds ≤ 2 ^ 53) (hlo : 0 ≤ numValue neg ds)
    (hhi : numValue neg ds < (2 : Int) ^ k.bits P) :
    (Lit.num neg ds).asValueOf P (Value.uint k old)
      = some (Value.uint k (numValue neg ds).toNat) := by
  have ht : (F64.round neg (digitsValue ds) 1).trunc = some (numValue neg ds) :=
    trunc_round neg (digitsValue ds) h
  simp only [Lit.asValueOf]
  rw [if_pos ⟨ht, hlo, hhi⟩]

/-- C2 (as amended): for every record type with distinct field names and every
object text with at least one member, whose members name distinct exported
fields of the record by keys written without escapes, each with a well-formed
literal of the kind and range of its field (a boolean for a boolean field; for
an integer field an integer literal that binary64 holds exactly, as every
integer of magnitude at most `2^53` is, within the range of the kind; for a
float field a number literal, with or without a fraction part and an exponent
part with its sign; for a string field a string literal whose escapes are not
`\u` escapes), with any blanks between the tokens and any text behind the right
brace, `Decode` returns no error and the target holds a record in which each
named field holds the value of its literal (for a float field the nearest
binary64 datum, converted to the kind of the field; for a string field the
bytes of the characters the literal denotes) and every other field the zero
value of its type. -/
theorem decode_record (P : Platform) (fields : List (List Nat × Bool × GoType))
    (ms : List Member) (ws0 rest : List Nat) (cur : Value) (hne : ms ≠ [])
    (hws0 : IsWs ws0) (hwf : ∀ m ∈ ms, m.WF) (hkeys : (ms.map Member.name).Nodup)
    (hnames : (fields.map (·.1)).Nodup)
    (hcompat : ∀ m ∈ ms, ∃ t, (m.name, true, t) ∈ fields
      ∧ (m.lit.asValueOf P t.zero).isSome = true) :
    ((NewDecoder (objectText ws0 ms rest)).Decode P (some ⟨GoType.struct fields, cur⟩)).out
        = Outcome.ok
      ∧ ∃ vs, ((NewDecoder (objectText ws0 ms rest)).Decode P
            (some ⟨GoType.struct fields, cur⟩)).v.map Target.cur = some (Value.struct vs)
          ∧ List.Forall₂ (FieldHolds P ms) fields vs :=
  decode_record_holds P fields ms ws0 rest cur hne hws0 (fun m hm => readable_of_wf (hwf m hm))
    hkeys hnames hcompat

/-- Witness of `decode_record`: the text `{"X": 4, "Y": 7}` of `decoder_test.go`
into an `S1`, and the text `{"S":"a\nb", "F":-1.5e+1}` into a record with a
string field `S` and a `float64` field `F`. -/
theorem decode_record_witness :
    (((NewDecoder (runes "\x7b\"X\": 4, \"Y\": 7\x7d")).Decode Platform.sample
        (some ⟨S1, S1.mk 0 0⟩)).out = Outcome.ok
      ∧ ∃ vs, ((NewDecoder (runes "\x7b\"X\": 4, \"Y\": 7\x7d")).Decode Platform.sample
            (some ⟨S1, S1.mk 0 0⟩)).v.map Target.cur = some (Value.struct vs)
          ∧ List.Forall₂
              (FieldHolds Platform.sample
                [⟨[], runes "X", [], runes " ", Lit.num false (runes "4"), []⟩,
                  ⟨runes " ", runes "Y", [], runes " ", Lit.num false (runes "7"), []⟩])
              [(runes "X", true, GoType.int IntKind.Int), (runes "Y", true, GoType.int IntKind.Int)]
              vs)
    ∧ (((NewDecoder (runes "\x7b\"S\":\"a\\nb\", \"F\":-1.5e+1\x7d")).Decode Platform.sample
        (some ⟨GoType.struct [(runes "S", true, GoType.string),
            (runes "F", true, GoType.float FloatKind.Float64)], Value.struct []⟩)).out
          = Outcome.ok
      ∧ ∃ vs, ((NewDecoder (runes "\x7b\"S\":\"a\\nb\", \"F\":-1.5e+1\x7d")).Decode
            Platform.sample
            (some ⟨GoType.struct [(runes "S", true, GoType.string),
              (runes "F", true, GoType.float FloatKind.Float64)], Value.struct []⟩)).v.map
              Target.cur = some (Value.struct vs)
          ∧ List.Forall₂
              (FieldHolds Platform.sample
                [⟨[], runes "S", [], [],
                    Lit.str [StrItem.plain 97, StrItem.escape 110, StrItem.plain 98], []⟩,
                  ⟨runes " ", runes "F", [], [],
                    Lit.dec true (runes "1") (runes "5") (some ⟨false, false, runes "1"⟩), []⟩])
              [(runes "S", true, GoType.string),
                (runes "F", true, GoType.float FloatKind.Float64)]
              vs) :=
  ⟨decode_record Platform.sample
      [(runes "X", true, GoType.int IntKind.Int), (runes "Y", true, GoType.int IntKind.Int)]
      [⟨[], runes "X", [], runes " ", Lit.num false (runes "4"), []⟩,
        ⟨runes " ", runes "Y", [], runes " ", Lit.num false (runes "7"), []⟩] [] []
      (S1.mk 0 0) (by simp) isWs_nil
      (by
        intro m hm; simp at hm
        rcases hm with h | h <;> subst h <;>
          simp [Member.WF, IsWs, Clean, Lit.WF, IsDigits, runes])
      (by decide)
      (by decide)
      (by
        intro m hm; simp at hm
        rcases hm with h | h <;> subst h
        · exact ⟨GoType.int IntKind.Int, List.Mem.head _, by decide⟩
        · exact ⟨GoType.int IntKind.Int, List.Mem.tail _ (List.Mem.head _), by decide⟩),
    decode_record Platform.sample
      [(runes "S", true, GoType.string), (runes "F", true, GoType.float FloatKind.Float64)]
      [⟨[], runes "S", [], [],
          Lit.str [StrItem.plain 97, StrItem.escape 110, StrItem.plain 98], []⟩,
        ⟨runes " ", runes "F", [], [],
          Lit.dec true (runes "1") (runes "5") (some ⟨false, false, runes "1"⟩), []⟩] [] []
      (Value.struct []) (by simp) isWs_nil
      (by
        intro m hm; simp at hm
        rcases hm with h | h <;> subst h <;>
          simp [Member.WF, IsWs, Clean, Lit.WF, IsDigits, runes, StrItem.WF])
      (by decide)
      (by decide)
      (by
        intro m hm; simp at hm
        rcases hm with h | h <;> subst h
        · exact ⟨GoType.string, List.Mem.head _, by rfl⟩
        · exact ⟨GoType.float FloatKind.Float64, List.Mem.tail _ (List.Mem.head _), by rfl⟩)⟩

/-- C2 as stated fails: the object text `{}`, which has no member, is rejected
with the syntax error "This must be a string literal but"; the integer literal
300 leaves 44 in a field of kind `int8`; the string literal `"\u0041"`, which
denotes the one character `A` (code 65), leaves the four characters `0041` in a
string field; the number literal `1e5`, whose exponent has no sign, is rejected
with the lexer error "Invalid number literal"; and the key `"\u0058"`, which
denotes the name `X`, names no field for the decoder, which returns the syntax
error "This must be a right brace token". -/
theorem decode_record_fails :
    ((NewDecoder (runes "\x7b\x7d")).Decode Platform.sample (some ⟨S1, S1.mk 0 0⟩)).out
        = Outcome.err (Error.DecoderSyntaxError 0 ErrMsg.mustBeStringLiteral)
      ∧ ((NewDecoder (runes "\x7b\"X\":300\x7d")).Decode Platform.sample
          (some ⟨GoType.struct [(runes "X", true, GoType.int IntKind.Int8)],
            Value.struct [(runes "X", true, Value.int IntKind.Int8 0)]⟩)).v.map Target.cur
        = some (Value.struct [(runes "X", true, Value.int IntKind.Int8 44)])
      ∧ (((NewDecoder (runes "\x7b\"S\":\"\\u0041\"\x7d")).Decode Platform.sample
          (some ⟨GoType.struct [(runes "S", true, GoType.string)],
            Value.struct [(runes "S", true, Value.string [])]⟩)).v.map Target.cur
          = some (Value.struct [(runes "S", true, Value.string (runes "0041"))])
        ∧ itemsMeaning [StrItem.unicode 48 48 52 49] = runes "A")
      ∧ ((NewDecoder (runes "\x7b\"F\":1e5\x7d")).Decode Platform.sample
          (some ⟨GoType.struct [(runes "F", true, GoType.float FloatKind.Float64)],
            Value.struct [(runes "F", true, Value.float FloatKind.Float64 F64.zero)]⟩)).out
        = Outcome.err (Error.LexerSyntaxError 0 ErrMsg.ErrInvalidNumberLiteral)
      ∧ ((NewDecoder (runes "\x7b\"\\u0058\":4\x7d")).Decode Platform.sample
          (some ⟨S1, S1.mk 0 0⟩)).out
        = Outcome.err (Error.DecoderSyntaxError 0 ErrMsg.mustBeRightBrace) := by
  refine ⟨by decide, rfl, ⟨rfl, by decide⟩, by decide, by decide⟩

/-! ## The round trip of a record of plain fields -/

theorem formatNatAux_spec :
    ∀ (fuel n : Nat) (acc : List Nat), n < fuel →
      ∃ ds, formatNatAux fuel n acc = ds ++ acc ∧ IsDigits ds ∧ ds ≠ []
        ∧ ∀ a, ds.foldl (fun a c => a * 10 + (c - 48)) a = a * 10 ^ ds.length + n
  | 0, n, acc, h => by omega
  | fuel + 1, n, acc, h => by
    rw [formatNatAux.eq_def]
    simp only
    by_cases h10 : n < 10
    · simp only [h10, if_true]
      refine ⟨[48 + n], by simp, ?_, by simp, ?_⟩
      · intro c hc; simp at hc; omega
      · intro a; simp
    · simp only [h10, if_false]
      obtain ⟨ds, hds, hdig, _, hfold⟩ :=
        formatNatAux_spec fuel (n / 10) ((48 + n % 10) :: acc) (by omega)
      refine ⟨ds ++ [48 + n % 10], by simp [hds], ?_, by simp, ?_⟩
      · intro c hc
        rcases List.mem_append.mp hc with h1 | h1
        · exact hdig c h1
        · simp at h1; omega
      · intro a
        simp only [List.foldl_append, List.foldl_cons, List.foldl_nil, hfold, List.length_append,
          List.length_singleton, pow_succ]
        have : 48 + n % 10 - 48 = n % 10 := by omega
        rw [this]
        have hn : n = n / 10 * 10 + n % 10 := by omega
        conv_rhs => rw [hn]
        ring

theorem formatNat_spec (n : Nat) :
    IsDigits (formatNat n) ∧ formatNat n ≠ [] ∧ digitsValue (formatNat n) = n := by
  obtain ⟨ds, hds, hdig, hne, hfold⟩ := formatNatAux_spec (n + 1) n [] (by omega)
  simp only [List.append_nil] at hds
  unfold formatNat digitsValue
  rw [hds]
  exact ⟨hdig, hne, by simpa using hfold 0⟩

theorem numValue_formatNat (i : Int) :
    numValue (decide (i < 0)) (formatNat i.natAbs) = i := by
  simp only [numValue, (formatNat_spec i.natAbs).2.2]
  by_cases h : i < 0
  · simp only [h, decide_True, if_true]; omega
  · simp only [h, decide_False, Bool.false_eq_true, if_false]; omega

theorem fixedDigits_spec :
    ∀ (w n : Nat), IsDigits (fixedDigits w n) ∧ (fixedDigits w n).length = w
      ∧ ∀ a, (fixedDigits w n).foldl (fun x c => x * 10 + (c - 48)) a = a * 10 ^ w + n % 10 ^ w
  | 0, n => by simp [fixedDigits, IsDigits, Nat.mod_one]
  | w + 1, n => by
    obtain ⟨h1, h2, h3⟩ := fixedDigits_spec w (n / 10)
    rw [fixedDigits]
    refine ⟨?_, by simp [h2], ?_⟩
    · intro c hc
      rcases List.mem_append.mp hc with h | h
      · exact h1 c h
      · simp at h; omega
    · intro a
      simp only [List.foldl_append, List.foldl_cons, List.foldl_nil, h3]
      have e1 : 48 + n % 10 - 48 = n % 10 := by omega
      have e2 : n % 10 ^ (w + 1) = n / 10 % 10 ^ w * 10 + n % 10 := by
        rw [pow_succ, Nat.mul_comm, Nat.mod_mul]
        omega
      rw [e1, e2, pow_succ]
      ring

theorem digitsValue_tenDecimals (n : Nat) :
    digitsValue (formatNat (n / 10 ^ 10) ++ fixedDigits 10 (n % 10 ^ 10)) = n := by
  rw [digitsValue_append, (formatNat_spec _).2.2, (fixedDigits_spec 10 _).2.2]
  rw [Nat.mod_mod]
  exact Nat.div_add_mod' n (10 ^ 10)

theorem fixedDigits_ne_nil (n : Nat) : fixedDigits 10 n ≠ [] := by
  intro h
  have := (fixedDigits_spec 10 n).2.1
  rw [h] at this
  simp at this

theorem isDigits_ascii {ds : List Nat} (h : IsDigits ds) : ∀ c ∈ ds, c < 128 := by
  intro c hc
  have := h c hc
  omega

/-- The text `encValue` writes for a value that survives the round trip is read
by `ReadRune` as the text of the literal of the value. -/
theorem readRunes_encValue (P : Platform) (v : Value) (h : v.Survives P) (rest : List Nat) :
    readRunes (encValue v ++ rest) = v.lit.text ++ readRunes rest := by
  cases v with
  | bool b =>
    rw [encValue.eq_def]
    simp only [Value.lit, Lit.text]
    apply readRunes_ascii
    cases b <;> simp [FormatBool]
  | int k i =>
    rw [encValue.eq_def]
    have e : FormatInt i = numText (decide (i < 0)) (formatNat i.natAbs) := by
      simp only [FormatInt, numText]
      by_cases hi : i < 0 <;> simp [hi]
    simp only [Value.lit, Lit.text, e]
    apply readRunes_ascii
    intro c hc
    simp only [numText, List.mem_append] at hc
    rcases hc with hc | hc
    · split at hc <;> simp at hc
      omega
    · exact isDigits_ascii (formatNat_spec _).1 c hc
  | string s =>
    obtain ⟨_, hval⟩ : PlainString s := by simpa [Value.Survives] using h
    rw [encValue.eq_def]
    simp only [Value.lit, Lit.text, encStringLiteral, itemsText_plain, List.append_assoc]
    rw [readRunes_ascii [34] _ (by simp), (readRunes_valid hval _).1,
      readRunes_ascii [34] _ (by simp)]
  | float k f =>
    cases f with
    | fin neg m e =>
      rw [encValue.eq_def]
      have e1 : FormatFloat (F64.fin neg m e)
          = numText neg (formatNat (tenDecimals m e / 10 ^ 10))
            ++ (fracText (fixedDigits 10 (tenDecimals m e % 10 ^ 10)) ++ expText none) := by
        simp [FormatFloat, tenDecimals, numText, fracText, expText, fixedDigits_ne_nil]
      simp only [Value.lit, Lit.text, e1]
      apply readRunes_ascii
      intro c hc
      simp only [numText, fracText, fixedDigits_ne_nil, if_false, expText, List.append_nil,
        List.mem_append, List.mem_cons] at hc
      rcases hc with (hc | hc) | hc | hc
      · split at hc <;> simp at hc
        omega
      · exact isDigits_ascii (formatNat_spec _).1 c hc
      · omega
      · exact isDigits_ascii (fixedDigits_spec 10 _).1 c hc
    | inf n => cases k <;> simp [Value.Survives] at h
    | nan => cases k <;> simp [Value.Survives] at h
  | uint k n =>
    rw [encValue.eq_def]
    simp [Value.lit, Lit.text]
  | _ => simp [Value.Survives] at h

theorem lit_readable_of_survives (P : Platform) (v : Value) (h : v.Survives P) :
    v.lit.Readable := by
  cases v with
  | bool b => exact Or.inr (by simp [Value.lit, Lit.WF])
  | int k i => exact Or.inr ⟨(formatNat_spec i.natAbs).1, (formatNat_spec i.natAbs).2.1⟩
  | string s =>
    have hp : PlainString s := by simpa [Value.Survives] using h
    refine Or.inr ?_
    simp only [Value.lit, Lit.WF]
    exact items_plain_wf (clean_readRunes hp)
  | float k f =>
    cases f with
    | fin neg m e =>
      refine Or.inr ?_
      simp only [Value.lit, Lit.WF]
      exact ⟨(formatNat_spec _).1, (formatNat_spec _).2.1, (fixedDigits_spec 10 _).1,
        fun e he => by cases he⟩
    | inf n => cases k <;> simp [Value.Survives] at h
    | nan => cases k <;> simp [Value.Survives] at h
  | uint k n => exact Or.inl rfl
  | _ => simp [Value.Survives] at h

theorem asValueOf_lit (P : Platform) (v : Value) (h : v.Survives P) :
    v.lit.asValueOf P v.typeOf.zero = some v := by
  cases v with
  | bool b => simp [Value.lit, Value.typeOf, GoType.zero, Lit.asValueOf]
  | int k i =>
    obtain ⟨h1, h2, h3⟩ : (F64.round (decide (i < 0)) i.natAbs 1).trunc = some i
        ∧ -(2 : Int) ^ (k.bits P - 1) ≤ i ∧ i < (2 : Int) ^ (k.bits P - 1) := by
      simpa [Value.Survives] using h
    simp only [Value.lit, Value.typeOf, GoType.zero, Lit.asValueOf, numValue_formatNat,
      (formatNat_spec i.natAbs).2.2]
    rw [if_pos ⟨h1, h2, h3⟩]
  | string s =>
    obtain ⟨_, hval⟩ : PlainString s := by simpa [Value.Survives] using h
    simp only [Value.lit, Value.typeOf, GoType.zero, Lit.asValueOf, items_plain_all, if_true,
      itemsMeaning_payload _ (items_plain_all _), itemsPayload_plain, (readRunes_valid hval []).2]
  | float k f =>
    cases f with
    | fin neg m e =>
      have hl : (Lit.dec neg (formatNat (tenDecimals m e / 10 ^ 10))
          (fixedDigits 10 (tenDecimals m e % 10 ^ 10)) none).float
          = F64.round neg (tenDecimals m e) (10 ^ 10) := by
        simp only [Lit.float, expValue, (fixedDigits_spec 10 _).2.1, digitsValue_tenDecimals]
        rfl
      cases k
      · have h1 : (F64.round neg (tenDecimals m e) (10 ^ 10)).toFloat32 = F64.fin neg m e := by
          simpa [Value.Survives] using h
        simp only [Value.lit, Value.typeOf, GoType.zero, Lit.asValueOf, hl, h1]
      · have h1 : F64.round neg (tenDecimals m e) (10 ^ 10) = F64.fin neg m e := by
          simpa [Value.Survives] using h
        simp only [Value.lit, Value.typeOf, GoType.zero, Lit.asValueOf, hl, h1]
    | inf n => cases k <;> simp [Value.Survives] at h
    | nan => cases k <;> simp [Value.Survives] at h
  | uint k n =>
    have h0 : n = 0 := h
    subst h0
    rfl
  | _ => simp [Value.Survives] at h

theorem typeOfFields_cons (name : List Nat) (ex : Bool) (v : Value)
    (vs : List (List Nat × Bool × Value)) :
    Value.typeOfFields ((name, ex, v) :: vs) = (name, ex, v.typeOf) :: Value.typeOfFields vs := by
  rw [Value.typeOfFields.eq_def]

theorem memberOf_text (name : List Nat) (ex : Bool) (v : Value) :
    (memberOf (name, ex, v)).text = 34 :: (readRunes name ++ 34 :: 58 :: v.lit.text) := by
  simp [memberOf, Member.text]

theorem memberOf_name (f : List Nat × Bool × Value) (h : PlainString f.1) :
    (memberOf f).name = f.1 :=
  (readRunes_valid h.2 []).2

theorem readRunes_cons_ascii {c : Nat} (h : c < 128) (rest : List Nat) :
    readRunes (c :: rest) = c :: readRunes rest :=
  readRunes_ascii [c] rest (by simpa using h)

/-- The text `encStruct` writes for one field, read by `ReadRune`. -/
theorem readRunes_field (P : Platform) (name : List Nat) (v : Value) (tail : List Nat)
    (hn : PlainString name) (hv : v.Survives P) :
    readRunes ([34] ++ name ++ [34, 58] ++ encValue v ++ tail)
      = 34 :: (readRunes name ++ 34 :: 58 :: v.lit.text) ++ readRunes tail := by
  simp only [List.append_assoc, List.cons_append, List.nil_append]
  rw [readRunes_cons_ascii (by decide), (readRunes_valid hn.2 _).1,
    readRunes_cons_ascii (by decide), readRunes_cons_ascii (by decide),
    readRunes_encValue P v hv]

/-- The text `encStruct` writes for the fields of a record is read by `ReadRune`
as the text of the members of the fields. -/
theorem readRunes_encStructLoop (P : Platform) (rest : List Nat) :
    ∀ vs : List (List Nat × Bool × Value),
      (∀ f ∈ vs, PlainString f.1 ∧ f.2.2.Survives P) →
      readRunes (encStructLoop vs ++ 125 :: rest)
        = membersText (readRunes rest) (vs.map memberOf)
  | [], _ => by
    rw [encStructLoop.eq_def]
    simpa [membersText] using readRunes_cons_ascii (c := 125) (by decide) rest
  | [(name, ex, v)], h => by
    obtain ⟨hn, hv⟩ := h (name, ex, v) (List.mem_singleton_self _)
    rw [encStructLoop.eq_def]
    simp only [List.map_cons, List.map_nil, membersText, memberOf_text]
    rw [readRunes_field P name v _ hn hv, readRunes_cons_ascii (by decide)]
  | (name, ex, v) :: f :: vs, h => by
    obtain ⟨hn, hv⟩ := h (name, ex, v) (List.mem_cons_self _ _)
    have ih := readRunes_encStructLoop P rest (f :: vs)
      (fun x hx => h x (List.mem_cons_of_mem _ hx))
    rw [encStructLoop.eq_def]
    simp only [List.map_cons] at ih ⊢
    rw [membersText_cons_cons, memberOf_text]
    have e : [34] ++ name ++ [34, 58] ++ encValue v ++ [44] ++ encStructLoop (f :: vs)
          ++ 125 :: rest
        = [34] ++ name ++ [34, 58] ++ encValue v ++ (44 :: (encStructLoop (f :: vs)
          ++ 125 :: rest)) := by simp
    rw [e, readRunes_field P name v _ hn hv, readRunes_cons_ascii (by decide), ih]
    rfl

theorem mem_typeOfFields :
    ∀ (vs : List (List Nat × Bool × Value)) (f : List Nat × Bool × Value), f ∈ vs →
      (f.1, f.2.1, f.2.2.typeOf) ∈ Value.typeOfFields vs
  | [], f, h => by simp at h
  | (n, e, v) :: vs, f, h => by
    rw [typeOfFields_cons]
    rcases List.mem_cons.mp h with h1 | h1
    · subst h1; exact List.mem_cons_self _ _
    · exact List.mem_cons_of_mem _ (mem_typeOfFields vs f h1)

theorem typeOfFields_names :
    ∀ vs : List (List Nat × Bool × Value),
      (Value.typeOfFields vs).map (·.1) = vs.map (·.1)
  | [] => by rw [Value.typeOfFields.eq_def]; rfl
  | (n, e, v) :: vs => by
    rw [typeOfFields_cons]; simp [typeOfFields_names vs]

theorem readRunes_encValue_struct (P : Platform) (vs : List (List Nat × Bool × Value))
    (h : ∀ f ∈ vs, PlainString f.1 ∧ f.2.2.Survives P) :
    readRunes (encValue (Value.struct vs)) = objectText [] (vs.map memberOf) [] := by
  rw [encValue.eq_def]
  simp only [objectText, List.nil_append, List.append_assoc]
  have := readRunes_encStructLoop P [] vs h
  simp only [readRunes_nil] at this
  have e : [123] ++ (encStructLoop vs ++ [125]) = 123 :: (encStructLoop vs ++ 125 :: []) := rfl
  rw [e, readRunes_cons_ascii (by decide), this]

theorem holds_eq (P : Platform) (ms : List Member) :
    ∀ (vs res : List (List Nat × Bool × Value)),
      (∀ f ∈ vs, memberOf f ∈ ms ∧ PlainString f.1 ∧ f.2.2.Survives P) →
      List.Forall₂ (FieldHolds P ms) (Value.typeOfFields vs) res → res = vs
  | [], res, _, h => by
    rw [Value.typeOfFields.eq_def] at h
    cases h; rfl
  | (name, ex, v) :: vs, res, hvs, h => by
    rw [typeOfFields_cons] at h
    cases h with
    | cons hhead htail =>
      rename_i g gs
      obtain ⟨hn, hex, hc1, _⟩ := hhead
      obtain ⟨hmem, hname, hplain⟩ := hvs (name, ex, v) (List.mem_cons_self _ _)
      have hv := hc1 (memberOf (name, ex, v)) hmem (memberOf_name (name, ex, v) hname)
      simp only [memberOf] at hv
      rw [asValueOf_lit P v hplain] at hv
      simp only [Option.some.injEq] at hv
      have ih := holds_eq P ms vs gs (fun f hf => hvs f (List.mem_cons_of_mem _ hf)) htail
      obtain ⟨g1, g2, g3⟩ := g
      simp only at hn hex hv
      subst hn hex hv ih
      rfl

/-- The text `encValue` writes for a record whose fields survive the round
trip, read by `ReadRune`, decodes, into any target of the type of the record,
to the record. -/
theorem decode_encValue_record (P : Platform) (vs : List (List Nat × Bool × Value))
    (cur : Value) (h : RecordOf (Value.Survives P) vs) :
    ((NewDecoder (readRunes (encValue (Value.struct vs)))).Decode P
        (some ⟨(Value.struct vs).typeOf, cur⟩)).out = Outcome.ok
      ∧ ((NewDecoder (readRunes (encValue (Value.struct vs)))).Decode P
          (some ⟨(Value.struct vs).typeOf, cur⟩)).v.map Target.cur
        = some (Value.struct vs) := by
  obtain ⟨hne, hnd, hall⟩ := h
  have hplain : ∀ f ∈ vs, f.2.2.Survives P := fun f hf => (hall f hf).2.2
  have hboth : ∀ f ∈ vs, PlainString f.1 ∧ f.2.2.Survives P :=
    fun f hf => ⟨(hall f hf).1, (hall f hf).2.2⟩
  have htype : (Value.struct vs).typeOf = GoType.struct (Value.typeOfFields vs) := by
    rw [Value.typeOf.eq_def]
  have hmapname : (vs.map memberOf).map Member.name = vs.map (·.1) := by
    rw [List.map_map]
    apply List.map_congr_left
    intro f hf
    exact memberOf_name f (hall f hf).1
  have hkeys : ((vs.map memberOf).map Member.name).Nodup := by
    rw [hmapname]; exact hnd
  have hnames : ((Value.typeOfFields vs).map (·.1)).Nodup := by
    rw [typeOfFields_names]; exact hnd
  have hmemtype := mem_typeOfFields vs
  have hcompat : ∀ m ∈ vs.map memberOf, ∃ t, (m.name, true, t) ∈ Value.typeOfFields vs
      ∧ (m.lit.asValueOf P t.zero).isSome = true := by
    intro m hm
    obtain ⟨f, hf, rfl⟩ := List.mem_map.mp hm
    refine ⟨f.2.2.typeOf, ?_, ?_⟩
    · have := hmemtype f hf
      rw [(hall f hf).2.1, ← memberOf_name f (hall f hf).1] at this
      exact this
    · simp [memberOf, asValueOf_lit P f.2.2 (hplain f hf)]
  have hwf : ∀ m ∈ vs.map memberOf, m.Readable := by
    intro m hm
    obtain ⟨f, hf, rfl⟩ := List.mem_map.mp hm
    exact ⟨isWs_nil, clean_readRunes (hall f hf).1, isWs_nil, isWs_nil,
      lit_readable_of_survives P f.2.2 (hplain f hf), isWs_nil⟩
  rw [readRunes_encValue_struct P vs hboth, htype]
  obtain ⟨hout, res, hres, hholds⟩ := decode_record_holds P (Value.typeOfFields vs) (vs.map memberOf)
    [] [] cur (by simpa using hne) isWs_nil hwf hkeys hnames hcompat
  refine ⟨hout, ?_⟩
  rw [hres, holds_eq P (vs.map memberOf) vs res
    (fun f hf => ⟨List.mem_map.mpr ⟨f, hf, rfl⟩, (hall f hf).1, hplain f hf⟩) hholds]

/-- A plain value survives the round trip: binary64 holds every integer of
magnitude at most `2^53` exactly. -/
theorem survives_of_plain (P : Platform) (v : Value) (h : v.Plain P) : v.Survives P := by
  cases v with
  | bool b => trivial
  | int k i =>
    obtain ⟨h1, h2, h3⟩ : i.natAbs ≤ 2 ^ 53 ∧ -(2 : Int) ^ (k.bits P - 1) ≤ i
        ∧ i < (2 : Int) ^ (k.bits P - 1) := by simpa [Value.Plain] using h
    refine ⟨?_, h2, h3⟩
    rw [trunc_round _ _ h1]
    by_cases hi : i < 0
    · simp only [hi, decide_True, if_true, Option.some.injEq]; omega
    · simp only [hi, decide_False, Bool.false_eq_true, if_false, Option.some.injEq]; omega
  | string s => exact h
  | _ => simp [Value.Plain] at h

theorem recordOf_mono {ok ok1 : Value → Prop} (himp : ∀ v, ok v → ok1 v)
    {vs : List (List Nat × Bool × Value)} (h : RecordOf ok vs) : RecordOf ok1 vs :=
  ⟨h.1, h.2.1, fun f hf => ⟨(h.2.2 f hf).1, (h.2.2 f hf).2.1, himp _ (h.2.2 f hf).2.2⟩⟩

/-- A string of bytes below 128 without double quote, backslash and newline is
plain. -/
theorem plainString_of_ascii (s : List Nat)
    (h : ∀ c ∈ s, c < 128 ∧ c ≠ 34 ∧ c ≠ 92 ∧ c ≠ 10) : PlainString s :=
  ⟨fun c hc => (h c hc).2, s, fun c hc => Or.inl (by have := (h c hc).1; omega),
    encodeRunes_ascii s (fun c hc => (h c hc).1)⟩

/-- C1 (as amended): for every record with at least one field, every field
exported and distinctly named (by a name that is valid UTF-8 without double
quote, backslash and newline, as every Go identifier is), whose fields are only
booleans, signed integers that binary64 holds exactly, unsigned integers that
are 0, finite floats that are the float of their kind nearest to their own
value rounded to ten decimals, and valid UTF-8 strings without double quote,
backslash and newline, `Encode` returns no error and writes one text, and
`Decode` of that text, as `ReadRune` reads it, into a zero-valued target of the
type of the record returns no error and leaves the record in the target. -/
theorem roundtrip_record (P : Platform) (w : List Nat → Option Error)
    (vs : List (List Nat × Bool × Value)) (h : RecordOf (Value.Survives P) vs) :
    (Encode w (Value.struct vs)).err = none
      ∧ ∃ text, (Encode w (Value.struct vs)).written = [text]
        ∧ ((NewDecoder (readRunes text)).Decode P
            (some ⟨(Value.struct vs).typeOf, (Value.struct vs).typeOf.zero⟩)).out = Outcome.ok
        ∧ ((NewDecoder (readRunes text)).Decode P
            (some ⟨(Value.struct vs).typeOf, (Value.struct vs).typeOf.zero⟩)).v.map Target.cur
          = some (Value.struct vs) :=
  ⟨rfl, encValue (Value.struct vs), rfl,
    decode_encValue_record P vs (Value.struct vs).typeOf.zero h⟩

/-- Witness of `roundtrip_record`: the record with the `int` field `X` holding
`2^60`, the `float64` fields `F` and `G` holding 1.5 and 3.14, the `float32`
field `H` holding 0.25, the string field `S` holding `é` (the bytes `C3 A9`),
the boolean field `B` holding `true` and the `uint8` field `U` holding 0. -/
theorem roundtrip_record_witness :
    (Encode (fun _ => none) (Value.struct
        [(runes "X", true, Value.int IntKind.Int (2 ^ 60)),
          (runes "F", true, Value.float FloatKind.Float64 (F64.fin false (3 * 2 ^ 51) (-52))),
          (runes "G", true, Value.float FloatKind.Float64
            (F64.fin false 7070651414971679 (-51))),
          (runes "H", true, Value.float FloatKind.Float32 (F64.fin false (2 ^ 52) (-54))),
          (runes "S", true, Value.string [195, 169]),
          (runes "B", true, Value.bool true),
                (runes "U", true, Value.uint UintKind.Uint8 0)])).err = none
      ∧ ∃ text, (Encode (fun _ => none) (Value.struct
        [(runes "X", true, Value.int IntKind.Int (2 ^ 60)),
          (runes "F", true, Value.float FloatKind.Float64 (F64.fin false (3 * 2 ^ 51) (-52))),
          (runes "G", true, Value.float FloatKind.Float64
            (F64.fin false 7070651414971679 (-51))),
          (runes "H", true, Value.float FloatKind.Float32 (F64.fin false (2 ^ 52) (-54))),
          (runes "S", true, Value.string [195, 169]),
          (runes "B", true, Value.bool true),
                (runes "U", true, Value.uint UintKind.Uint8 0)])).written = [text]
        ∧ ((NewDecoder (readRunes text)).Decode Platform.sample
            (some ⟨(Value.struct
              [(runes "X", true, Value.int IntKind.Int (2 ^ 60)),
                (runes "F", true, Value.float FloatKind.Float64
                  (F64.fin false (3 * 2 ^ 51) (-52))),
                (runes "G", true, Value.float FloatKind.Float64
                  (F64.fin false 7070651414971679 (-51))),
                (runes "H", true, Value.float FloatKind.Float32 (F64.fin false (2 ^ 52) (-54))),
                (runes "S", true, Value.string [195, 169]),
                (runes "B", true, Value.bool true),
                (runes "U", true, Value.uint UintKind.Uint8 0)]).typeOf,
              (Value.struct
              [(runes "X", true, Value.int IntKind.Int (2 ^ 60)),
                (runes "F", true, Value.float FloatKind.Float64
                  (F64.fin false (3 * 2 ^ 51) (-52))),
                (runes "G", true, Value.float FloatKind.Float64
                  (F64.fin false 7070651414971679 (-51))),
                (runes "H", true, Value.float FloatKind.Float32 (F64.fin false (2 ^ 52) (-54))),
                (runes "S", true, Value.string [195, 169]),
                (runes "B", true, Value.bool true),
                (runes "U", true, Value.uint UintKind.Uint8 0)]).typeOf.zero⟩)).out = Outcome.ok
        ∧ ((NewDecoder (readRunes text)).Decode Platform.sample
            (some ⟨(Value.struct
              [(runes "X", true, Value.int IntKind.Int (2 ^ 60)),
                (runes "F", true, Value.float FloatKind.Float64
                  (F64.fin false (3 * 2 ^ 51) (-52))),
                (runes "G", true, Value.float FloatKind.Float64
                  (F64.fin false 7070651414971679 (-51))),
                (runes "H", true, Value.float FloatKind.Float32 (F64.fin false (2 ^ 52) (-54))),
                (runes "S", true, Value.string [195, 169]),
                (runes "B", true, Value.bool true),
                (runes "U", true, Value.uint UintKind.Uint8 0)]).typeOf,
              (Value.struct
              [(runes "X", true, Value.int IntKind.Int (2 ^ 60)),
                (runes "F", true, Value.float FloatKind.Float64
                  (F64.fin false (3 * 2 ^ 51) (-52))),
                (runes "G", true, Value.float FloatKind.Float64
                  (F64.fin false 7070651414971679 (-51))),
                (runes "H", true, Value.float FloatKind.Float32 (F64.fin false (2 ^ 52) (-54))),
                (runes "S", true, Value.string [195, 169]),
                (runes "B", true, Value.bool true),
                (runes "U", true, Value.uint UintKind.Uint8 0)]).typeOf.zero⟩)).v.map Target.cur
          = some (Value.struct
              [(runes "X", true, Value.int IntKind.Int (2 ^ 60)),
                (runes "F", true, Value.float FloatKind.Float64
                  (F64.fin false (3 * 2 ^ 51) (-52))),
                (runes "G", true, Value.float FloatKind.Float64
                  (F64.fin false 7070651414971679 (-51))),
                (runes "H", true, Value.float FloatKind.Float32 (F64.fin false (2 ^ 52) (-54))),
                (runes "S", true, Value.string [195, 169]),
                (runes "B", true, Value.bool true),
                (runes "U", true, Value.uint UintKind.Uint8 0)]) :=
  roundtrip_record Platform.sample (fun _ => none)
    [(runes "X", true, Value.int IntKind.Int (2 ^ 60)),
      (runes "F", true, Value.float FloatKind.Float64 (F64.fin false (3 * 2 ^ 51) (-52))),
      (runes "G", true, Value.float FloatKind.Float64 (F64.fin false 7070651414971679 (-51))),
      (runes "H", true, Value.float FloatKind.Float32 (F64.fin false (2 ^ 52) (-54))),
      (runes "S", true, Value.string [195, 169]),
      (runes "B", true, Value.bool true),
                (runes "U", true, Value.uint UintKind.Uint8 0)]
    ⟨by simp, by decide, by
      have hname : ∀ c : Nat, 65 ≤ c → c ≤ 90 → PlainString [c] := by
        intro c h1 h2
        refine ⟨?_, [c], ?_, ?_⟩
        · intro x hx; simp at hx; omega
        · intro x hx; simp at hx; left; omega
        · simp [encodeRunes, encodeRune]; omega
      intro f hf
      simp only [List.mem_cons, List.mem_singleton, List.not_mem_nil, or_false] at hf
      rcases hf with h | h | h | h | h | h | h <;> subst h <;>
        refine ⟨hname _ (by decide) (by decide), rfl, ?_⟩
      · exact ⟨by decide, by decide, by decide⟩
      · show F64.round _ _ _ = _; decide
      · show F64.round _ _ _ = _; decide
      · show F64.toFloat32 _ = _; decide
      · exact ⟨by intro x hx; simp at hx; omega, [233], by intro x hx; simp at hx; left; omega,
          by decide⟩
      · trivial
      · rfl⟩

/-- C1 as stated fails, on records that `Encode` writes and `Decode` then reads
into a zero-valued target of their type.  A string field holding `a"b` makes
`Decode` return `ErrInvalidKeyword`; one holding `a`, backslash, `n`, `b` comes
back as `a`, newline, `b`; one holding a newline makes `Decode` return "Not
terminated string"; one holding the byte `FF`, which is no valid UTF-8, comes
back as the three bytes `EF BF BD`.  A `float64` field holding `2^-40` comes
back as 0; one holding `+Inf` is written as `+Inf`, which the lexer rejects at
the `+`; one holding `NaN` makes `Decode` return `ErrInvalidKeyword`.  An
`int64` field holding `2^53 + 1` comes back as `2^53`, and one holding
`2^63 - 1` comes back, on the sample platform, as `-2^63`.  A `uint` field
holding 5 is written as nothing and comes back as 0.  A record without fields
is written as `{}`, which `Decode` rejects.  A record with the unexported field
`x` makes `Decode` return `ErrUnsettableValue`. -/
theorem roundtrip_fails :
    ((NewDecoder (readRunes (encValue (Value.struct
          [(runes "ID", true, Value.string (runes "a\"b"))])))).Decode
        Platform.sample (some ⟨GoType.struct [(runes "ID", true, GoType.string)],
          Value.struct [(runes "ID", true, Value.string [])]⟩)).out
        = Outcome.err (Error.plain ErrMsg.ErrInvalidKeyword)
      ∧ ((NewDecoder (readRunes (encValue (Value.struct
          [(runes "S", true, Value.string [97, 92, 110, 98])])))).Decode
        Platform.sample (some ⟨GoType.struct [(runes "S", true, GoType.string)],
          Value.struct [(runes "S", true, Value.string [])]⟩)).v.map Target.cur
        = some (Value.struct [(runes "S", true, Value.string [97, 10, 98])])
      ∧ ((NewDecoder (readRunes (encValue (Value.struct
          [(runes "S", true, Value.string [97, 10, 98])])))).Decode
        Platform.sample (some ⟨GoType.struct [(runes "S", true, GoType.string)],
          Value.struct [(runes "S", true, Value.string [])]⟩)).out
        = Outcome.err (Error.LexerSyntaxError 0 ErrMsg.ErrNotTerminatedString)
      ∧ ((NewDecoder (readRunes (encValue (Value.struct
          [(runes "S", true, Value.string [255])])))).Decode
        Platform.sample (some ⟨GoType.struct [(runes "S", true, GoType.string)],
          Value.struct [(runes "S", true, Value.string [])]⟩)).v.map Target.cur
        = some (Value.struct [(runes "S", true, Value.string [239, 191, 189])])
      ∧ ((NewDecoder (readRunes (encValue (Value.struct [(runes "F", true,
            Value.float FloatKind.Float64 (F64.fin false (2 ^ 52) (-92)))])))).Decode
          Platform.sample (some ⟨GoType.struct [(runes "F", true, GoType.float FloatKind.Float64)],
            Value.struct [(runes "F", true, Value.float FloatKind.Float64 F64.zero)]⟩)).v.map
              Target.cur
        = some (Value.struct [(runes "F", true, Value.float FloatKind.Float64 F64.zero)])
      ∧ ((NewDecoder (readRunes (encValue (Value.struct [(runes "F", true,
            Value.float FloatKind.Float64 (F64.inf false))])))).Decode
          Platform.sample (some ⟨GoType.struct [(runes "F", true, GoType.float FloatKind.Float64)],
            Value.struct [(runes "F", true, Value.float FloatKind.Float64 F64.zero)]⟩)).out
        = Outcome.err (Error.LexerSyntaxError 0 (ErrMsg.unexpectedCharacter 43))
      ∧ ((NewDecoder (readRunes (encValue (Value.struct [(runes "F", true,
            Value.float FloatKind.Float64 F64.nan)])))).Decode
          Platform.sample (some ⟨GoType.struct [(runes "F", true, GoType.float FloatKind.Float64)],
            Value.struct [(runes "F", true, Value.float FloatKind.Float64 F64.zero)]⟩)).out
        = Outcome.err (Error.plain ErrMsg.ErrInvalidKeyword)
      ∧ ((NewDecoder (readRunes (encValue (Value.struct
          [(runes "N", true, Value.int IntKind.Int64 (2 ^ 53 + 1))])))).Decode
        Platform.sample (some ⟨GoType.struct [(runes "N", true, GoType.int IntKind.Int64)],
          Value.struct [(runes "N", true, Value.int IntKind.Int64 0)]⟩)).v.map Target.cur
        = some (Value.struct [(runes "N", true, Value.int IntKind.Int64 (2 ^ 53))])
      ∧ ((NewDecoder (readRunes (encValue (Value.struct
          [(runes "N", true, Value.int IntKind.Int64 (2 ^ 63 - 1))])))).Decode
        Platform.sample (some ⟨GoType.struct [(runes "N", true, GoType.int IntKind.Int64)],
          Value.struct [(runes "N", true, Value.int IntKind.Int64 0)]⟩)).v.map Target.cur
        = some (Value.struct [(runes "N", true, Value.int IntKind.Int64 (-2 ^ 63))])
      ∧ ((NewDecoder (readRunes (encValue (Value.struct
          [(runes "U", true, Value.uint UintKind.Uint 5)])))).Decode
        Platform.sample (some ⟨GoType.struct [(runes "U", true, GoType.uint UintKind.Uint)],
          Value.struct [(runes "U", true, Value.uint UintKind.Uint 0)]⟩)).v.map Target.cur
        = some (Value.struct [(runes "U", true, Value.uint UintKind.Uint 0)])
      ∧ ((NewDecoder (readRunes (encValue (Value.struct [])))).Decode
        Platform.sample (some ⟨GoType.struct [], Value.struct []⟩)).out
        = Outcome.err (Error.DecoderSyntaxError 0 ErrMsg.mustBeStringLiteral)
      ∧ ((NewDecoder (readRunes (encValue (Value.struct
          [(runes "x", false, Value.bool true)])))).Decode
        Platform.sample (some ⟨GoType.struct [(runes "x", false, GoType.bool)],
          Value.struct [(runes "x", false, Value.bool false)]⟩)).out
        = Outcome.err (Error.plain ErrMsg.ErrUnsettableValue) := by
  refine ⟨by decide, rfl, by decide, rfl, rfl, by decide, by decide, rfl, rfl, rfl, by decide,
    by decide⟩

/-! ## The restricted round trip -/

/-- C21 (as amended): for every record with at least one field, every field
exported (so settable) and distinctly named (by a name that is valid UTF-8
without double quote, backslash and newline, as every Go identifier is), and
every field a boolean, a signed integer of magnitude at most `2^53` or a valid
UTF-8 string without double quote, backslash and newline, `Encode` returns no
error and writes one text, and `Decode` of each text written, as `ReadRune`
reads it, into a zero-valued target of the type of the record, returns no error
and leaves in the target a record equal to the original. -/
theorem roundtrip_restricted (P : Platform) (w : List Nat → Option Error)
    (vs : List (List Nat × Bool × Value)) (h : PlainRecord P vs) :
    (Encode w (Value.struct vs)).err = none
      ∧ (Encode w (Value.struct vs)).written.length = 1
      ∧ ∀ text ∈ (Encode w (Value.struct vs)).written,
          ((NewDecoder (readRunes text)).Decode P
              (some ⟨(Value.struct vs).typeOf, (Value.struct vs).typeOf.zero⟩)).out = Outcome.ok
            ∧ ((NewDecoder (readRunes text)).Decode P
              (some ⟨(Value.struct vs).typeOf, (Value.struct vs).typeOf.zero⟩)).v.map Target.cur
              = some (Value.struct vs) := by
  refine ⟨rfl, rfl, ?_⟩
  intro text ht
  have ht1 : text = encValue (Value.struct vs) := by
    have hw : (Encode w (Value.struct vs)).written = [encValue (Value.struct vs)] := rfl
    rw [hw] at ht
    exact List.mem_singleton.mp ht
  rw [ht1]
  exact decode_encValue_record P vs (Value.struct vs).typeOf.zero
    (recordOf_mono (survives_of_plain P) h)

/-- Witness of `roundtrip_restricted`: the record of type `S2` of
`decoder_test.go`, with the fields `ID` and `Content` holding `1192` and
`Hello, world`, and a record with a boolean, a negative integer and the string
`é` (the bytes `C3 A9`). -/
theorem roundtrip_restricted_witness :
    ((Encode (fun _ => none) (Value.struct [(runes "ID", true, Value.string (runes "1192")),
        (runes "Content", true, Value.string (runes "Hello, world"))])).written
        = [runes "\x7b\"ID\":\"1192\",\"Content\":\"Hello, world\"\x7d"]
      ∧ ((NewDecoder (readRunes
            (runes "\x7b\"ID\":\"1192\",\"Content\":\"Hello, world\"\x7d"))).Decode
          Platform.sample
          (some ⟨GoType.struct [(runes "ID", true, GoType.string),
              (runes "Content", true, GoType.string)],
            Value.struct [(runes "ID", true, Value.string []),
              (runes "Content", true, Value.string [])]⟩)).v.map Target.cur
        = some (Value.struct [(runes "ID", true, Value.string (runes "1192")),
            (runes "Content", true, Value.string (runes "Hello, world"))]))
    ∧ ((NewDecoder (readRunes
          (runes "\x7b\"B\":true,\"N\":-7,\"S\":\"" ++ [195, 169] ++ runes "\"\x7d"))).Decode
          Platform.sample
          (some ⟨GoType.struct [(runes "B", true, GoType.bool),
              (runes "N", true, GoType.int IntKind.Int8), (runes "S", true, GoType.string)],
            Value.struct [(runes "B", true, Value.bool false),
              (runes "N", true, Value.int IntKind.Int8 0),
              (runes "S", true, Value.string [])]⟩)).v.map Target.cur
        = some (Value.struct [(runes "B", true, Value.bool true),
            (runes "N", true, Value.int IntKind.Int8 (-7)),
            (runes "S", true, Value.string [195, 169])]) :=
  ⟨⟨rfl,
      ((roundtrip_restricted Platform.sample (fun _ => none)
        [(runes "ID", true, Value.string (runes "1192")),
          (runes "Content", true, Value.string (runes "Hello, world"))]
        ⟨by simp, by decide, by
          intro f hf
          simp only [List.mem_cons, List.mem_singleton, List.not_mem_nil, or_false] at hf
          rcases hf with h | h <;> subst h
          · exact ⟨plainString_of_ascii _ (by decide), rfl,
              plainString_of_ascii _ (by decide)⟩
          · exact ⟨plainString_of_ascii _ (by decide), rfl,
              plainString_of_ascii _ (by decide)⟩⟩).2.2
        (runes "\x7b\"ID\":\"1192\",\"Content\":\"Hello, world\"\x7d")
        (List.mem_singleton.mpr (by decide))).2⟩,
    ((roundtrip_restricted Platform.sample (fun _ => none)
        [(runes "B", true, Value.bool true), (runes "N", true, Value.int IntKind.Int8 (-7)),
          (runes "S", true, Value.string [195, 169])]
        ⟨by simp, by decide, by
          intro f hf
          simp only [List.mem_cons, List.mem_singleton, List.not_mem_nil, or_false] at hf
          rcases hf with h | h | h <;> subst h
          · exact ⟨plainString_of_ascii _ (by decide), rfl, trivial⟩
          · exact ⟨plainString_of_ascii _ (by decide), rfl,
              ⟨by decide, by decide, by decide⟩⟩
          · exact ⟨plainString_of_ascii _ (by decide), rfl,
              ⟨by intro x hx; simp at hx; omega, [233],
                by intro x hx; simp at hx; left; omega, by decide⟩⟩⟩).2.2
        (runes "\x7b\"B\":true,\"N\":-7,\"S\":\"" ++ [195, 169] ++ runes "\"\x7d")
        (List.mem_singleton.mpr (by decide))).2⟩

/-- C21 as stated fails: the record with the string field `S` holding the byte
`FF`, which is no double quote, backslash or newline, is written as `{"S":"`,
`FF`, `"}`; `ReadRune` reads the byte as `U+FFFD`, and `Decode` returns no error
and leaves the three bytes `EF BF BD` in the field. -/
theorem roundtrip_restricted_fails :
    (Encode (fun _ => none) (Value.struct [(runes "S", true, Value.string [255])])).written
        = [runes "\x7b\"S\":\"" ++ [255] ++ runes "\"\x7d"]
      ∧ readRunes (runes "\x7b\"S\":\"" ++ [255] ++ runes "\"\x7d")
        = runes "\x7b\"S\":\"" ++ [65533] ++ runes "\"\x7d"
      ∧ ((NewDecoder (readRunes (runes "\x7b\"S\":\"" ++ [255] ++ runes "\"\x7d"))).Decode
          Platform.sample (some ⟨GoType.struct [(runes "S", true, GoType.string)],
            Value.struct [(runes "S", true, Value.string [])]⟩)).out = Outcome.ok
      ∧ ((NewDecoder (readRunes (runes "\x7b\"S\":\"" ++ [255] ++ runes "\"\x7d"))).Decode
          Platform.sample (some ⟨GoType.struct [(runes "S", true, GoType.string)],
            Value.struct [(runes "S", true, Value.string [])]⟩)).v.map Target.cur
        = some (Value.struct [(runes "S", true, Value.string [239, 191, 189])]) := by
  refine ⟨rfl, by decide, by decide, rfl⟩

/-! ## The recursion budget of `Decode` is never used up -/

theorem dropXDigits_length (P : Platform) :
    ∀ l : List Nat, (dropXDigits P l).length ≤ l.length
  | [] => by simp [dropXDigits]
  | c :: cs => by
    rw [dropXDigits.eq_def]
    dsimp only
    by_cases hx : isXDigit P c = true
    · simp only [hx, if_true]
      have := dropXDigits_length P cs
      simp only [List.length_cons]; omega
    · simp only [hx, if_false]
      exact Nat.le_refl _

theorem readStringLoop_unicode_length (P : Platform) (buf : List Nat)
    (ih : ∀ (b l : List Nat), l.length + 6 ≤ n + 6 → (readStringLoop P b l).2.2.length ≤ l.length) :
    ∀ ds : List Nat, ds.length ≤ n + 4 →
      (readStringLoop P buf (92 :: 117 :: ds)).2.2.length ≤ ds.length + 2
  | [], _ => by rw [readStringLoop.eq_def]; simp [dropXDigits]
  | [x1], _ => by
    have := dropXDigits_length P [x1]
    rw [readStringLoop.eq_def]
    simp only [List.length_cons, List.length_nil] at this ⊢
    simp
    omega
  | [x1, x2], _ => by
    have := dropXDigits_length P [x1, x2]
    rw [readStringLoop.eq_def]
    simp only [List.length_cons, List.length_nil] at this ⊢
    simp
    omega
  | [x1, x2, x3], _ => by
    have := dropXDigits_length P [x1, x2, x3]
    rw [readStringLoop.eq_def]
    simp only [List.length_cons, List.length_nil] at this ⊢
    simp
    omega
  | x1 :: x2 :: x3 :: x4 :: rest, h => by
    have hd := dropXDigits_length P (x1 :: x2 :: x3 :: x4 :: rest)
    simp only [List.length_cons] at h hd
    rw [readStringLoop.eq_def]
    simp only [show ¬ (92 = 34) by decide, show ¬ (92 = 10) by decide, if_true, if_false]
    by_cases hx : isXDigit P x1 = true ∧ isXDigit P x2 = true
        ∧ isXDigit P x3 = true ∧ isXDigit P x4 = true
    · simp only [hx, and_self, if_true]
      have := ih (buf ++ [x1, x2, x3, x4]) rest (by omega)
      simp only [List.length_cons]; omega
    · simp only [hx, if_false]
      simp only [List.length_cons]; omega

theorem readStringLoop_length (P : Platform) :
    ∀ (n : Nat) (inp buf : List Nat), inp.length ≤ n →
      (readStringLoop P buf inp).2.2.length ≤ inp.length
  | 0, inp, buf, h => by
    have : inp = [] := List.length_eq_zero.mp (by omega)
    subst this
    rw [readStringLoop.eq_def]
  | n + 1, inp, buf, h => by
    cases inp with
    | nil => rw [readStringLoop.eq_def]
    | cons c cs =>
      have ih := fun b (l : List Nat) (hl : l.length ≤ n) => readStringLoop_length P n l b hl
      simp only [List.length_cons] at h
      by_cases h92 : c = 92
      · subst h92
        cases cs with
        | nil => rw [readStringLoop.eq_def]; simp
        | cons d ds =>
          simp only [List.length_cons] at h
          have h1 := fun b => ih b ds (by omega)
          by_cases hu : d = 117
          · subst hu
            have := readStringLoop_unicode_length (n := n) P buf
              (fun b l hl => ih b l (by omega)) ds (by omega)
            simp only [List.length_cons]; omega
          · rw [readStringLoop.eq_def]
            simp only [show ¬ (92 = 34) by decide, show ¬ (92 = 10) by decide, hu, if_true,
              if_false]
            have hlen : ds.length ≤ (92 :: d :: ds).length := by
              simp only [List.length_cons]; omega
            split_ifs
            all_goals first
              | exact le_trans (h1 _) hlen
              | simp
      · rw [readStringLoop.eq_def]
        dsimp only
        by_cases h34 : c = 34
        · simp only [h34, if_true]; exact Nat.le_refl _
        · by_cases h10 : c = 10
          · simp only [h10, if_true]; simp
          · simp only [h34, h10, h92, if_false]
            have := ih (buf ++ [c]) cs (by omega)
            simp only [List.length_cons]; omega

theorem readNumberLoop_length (P : Platform) :
    ∀ (n : Nat) (inp buf : List Nat), inp.length ≤ n →
      (readNumberLoop P buf inp).2.length ≤ inp.length
  | 0, inp, buf, h => by
    have : inp = [] := List.length_eq_zero.mp (by omega)
    subst this
    rw [readNumberLoop.eq_def]
  | n + 1, inp, buf, h => by
    cases inp with
    | nil => rw [readNumberLoop.eq_def]
    | cons c cs =>
      have ih := fun b (l : List Nat) (hl : l.length ≤ n) => readNumberLoop_length P n l b hl
      simp only [List.length_cons] at h
      rw [readNumberLoop.eq_def]
      dsimp only
      split_ifs
      · cases cs with
        | nil => simp
        | cons s cs1 =>
          simp only [List.length_cons] at h
          dsimp only
          split_ifs
          · have := ih (buf ++ [c, s]) cs1 (by omega)
            simp only [List.length_cons]; omega
          · simp
      · have := ih (buf ++ [c]) cs (by omega)
        simp only [List.length_cons]; omega
      · exact Nat.le_refl _

theorem readKeywordLoop_length (P : Platform) :
    ∀ (inp buf : List Nat), (readKeywordLoop P buf inp).2.length ≤ inp.length
  | [], buf => by rw [readKeywordLoop.eq_def]
  | c :: cs, buf => by
    rw [readKeywordLoop.eq_def]
    dsimp only
    split_ifs
    · have := readKeywordLoop_length P cs (buf ++ [c])
      simp only [List.length_cons]; omega
    · exact Nat.le_refl _

/-- The loop of `Lex` leaves no more unread runes than it found, and it either
leaves `currtoken` as it was or reads at least one rune. -/
theorem lexLoop_consumes (P : Platform) :
    ∀ (inp : List Nat) (l : Lexer),
      (lexLoop P l inp).lexer.input.length ≤ inp.length
        ∧ ((lexLoop P l inp).lexer.currtoken = l.currtoken
          ∨ (lexLoop P l inp).lexer.input.length < inp.length)
  | [], l => by rw [lexLoop.eq_def]; simp
  | c :: cs, l => by
    rw [lexLoop.eq_def]
    dsimp only
    have ih := lexLoop_consumes P cs
    by_cases h1 : c = 10
    · rw [if_pos h1]
      have := ih { l with currline := l.currline + 1 }
      simp only [List.length_cons]
      exact ⟨by omega, this.2.imp id (fun h => by omega)⟩
    rw [if_neg h1]
    by_cases h2 : c = 9 ∨ c = 13 ∨ c = 32
    · rw [if_pos h2]
      have := ih l
      simp only [List.length_cons]
      exact ⟨by omega, this.2.imp id (fun h => by omega)⟩
    rw [if_neg h2]
    by_cases h3 : c = 123
    · rw [if_pos h3]; simp
    rw [if_neg h3]
    by_cases h4 : c = 125
    · rw [if_pos h4]; simp
    rw [if_neg h4]
    by_cases h5 : c = 91
    · rw [if_pos h5]; simp
    rw [if_neg h5]
    by_cases h6 : c = 93
    · rw [if_pos h6]; simp
    rw [if_neg h6]
    by_cases h7 : c = 58
    · rw [if_pos h7]; simp
    rw [if_neg h7]
    by_cases h8 : c = 44
    · rw [if_pos h8]; simp
    rw [if_neg h8]
    by_cases h9 : c = 34
    · rw [if_pos h9]
      have := readStringLoop_length P cs.length cs [] (Nat.le_refl _)
      simp only [Lexer.readString, Lexer.genSyntaxError]
      rcases hr : readStringLoop P [] cs with ⟨e, b, rest⟩
      rw [hr] at this
      simp only at this
      cases e <;> simp only [List.length_cons, Lexer.next, List.length_tail] <;>
        constructor <;> omega
    rw [if_neg h9]
    by_cases h10 : isDigit P c = true ∨ c = 45
    · rw [if_pos h10]
      have := readNumberLoop_length P cs.length cs [c] (Nat.le_refl _)
      simp only [Lexer.readNumber, Lexer.genSyntaxError]
      rcases hr : readNumberLoop P [c] cs with ⟨b, rest⟩
      rw [hr] at this
      simp only at this
      cases b <;> simp only [List.length_cons] <;>
        constructor <;> omega
    rw [if_neg h10]
    by_cases h11 : isLetter P c = true
    · rw [if_pos h11]
      have := readKeywordLoop_length P cs [c]
      simp only [Lexer.readKeyword]
      rcases hr : readKeywordLoop P [c] cs with ⟨b, rest⟩
      rw [hr] at this
      simp only at this
      split_ifs <;> simp only [List.length_cons] <;>
        constructor <;> omega
    rw [if_neg h11]
    simp

theorem Lex_consumes (P : Platform) (l : Lexer) :
    (l.Lex P).lexer.input.length ≤ l.input.length
      ∧ ((l.Lex P).lexer.currtoken = l.currtoken
        ∨ (l.Lex P).lexer.input.length < l.input.length) := by
  rw [Lex_eq_lexLoop]
  exact lexLoop_consumes P l.input _

theorem afterLiteral_safe (P : Platform) (d : Decoder) (r : Option Error × Value) :
    (afterLiteral P d r).out ≠ Outcome.outOfFuel
      ∧ (afterLiteral P d r).d.lexer.input.length ≤ d.lexer.input.length := by
  have h := (Lex_consumes P d.lexer).1
  obtain ⟨e, rv⟩ := r
  cases e with
  | some e => simp [afterLiteral]
  | none =>
    simp only [afterLiteral]
    cases he : (d.lexer.Lex P).err <;> simp [h]

theorem valueWith_safe (P : Platform) (n : Nat) (obj : Decoder → Flag → Value → DecState)
    (h : FuelSafe n obj) : FuelSafe n (valueWith P obj) := by
  intro d fl rv hd
  unfold valueWith
  cases d.lexer.currtoken <;> first
    | exact h d fl rv hd
    | exact afterLiteral_safe P d _
    | simp

theorem objectWith_safe (n : Nat) (loop : Decoder → Flag → Value → DecState)
    (h : FuelSafe n loop) : FuelSafe n (objectWith loop) := by
  intro d fl rv hd
  unfold objectWith
  split_ifs
  · simp
  · exact h d fl rv hd

theorem fieldLoop_safe (n : Nat) (value : Decoder → Flag → Value → DecState)
    (h : FuelSafe n value) (d : Decoder) (fl : Flag) (key : List Nat)
    (hd : d.lexer.input.length < n) :
    ∀ fs : List (List Nat × Bool × Value),
      (fieldLoop value d fl key fs).1 ≠ Outcome.outOfFuel
        ∧ (fieldLoop value d fl key fs).2.1.lexer.input.length ≤ d.lexer.input.length
  | [] => by simp [fieldLoop]
  | (name, exported, v) :: fs => by
    rw [fieldLoop.eq_def]
    dsimp only
    split_ifs
    · exact h d (fl.field exported) v hd
    · exact fieldLoop_safe n value h d fl key hd fs

theorem SetMapIndex_safe (fl : Flag) (keyT elemT : GoType)
    (entries : Option (List (Key × Value))) (key : List Nat) (value : Value) :
    (SetMapIndex fl keyT elemT entries key value).1 ≠ Outcome.outOfFuel := by
  unfold SetMapIndex
  split_ifs
  · simp
  · simp
  · cases entries <;> simp

/-- The loop of `object` does not run out of budget when the budget exceeds the
number of unread runes. -/
theorem objectLoop_safe (P : Platform) : ∀ fuel : Nat, FuelSafe fuel (objectLoop P fuel)
  | 0 => by intro d fl rv hd; omega
  | fuel + 1 => by
    intro d fl rv hd
    have ih := objectLoop_safe P fuel
    have hv := valueWith_safe P fuel _ (objectWith_safe fuel _ ih)
    obtain ⟨a1, b1⟩ := Lex_consumes P d.lexer
    obtain ⟨a2, b2⟩ := Lex_consumes P (d.lexer.Lex P).lexer
    obtain ⟨a3, b3⟩ := Lex_consumes P ((d.lexer.Lex P).lexer.Lex P).lexer
    rw [objectLoop.eq_def]
    dsimp only
    cases h1 : (d.lexer.Lex P).err with
    | some e => simp [a1]
    | none =>
      dsimp only
      by_cases t1 : (d.lexer.Lex P).lexer.currtoken = Token.TK_STRING_LITERAL
      · rw [if_neg (by simpa using t1)]
        cases h2 : ((d.lexer.Lex P).lexer.Lex P).err with
        | some e => simp; omega
        | none =>
          dsimp only
          by_cases t2 : ((d.lexer.Lex P).lexer.Lex P).lexer.currtoken = Token.TK_COLON
          · rw [if_neg (by simpa using t2)]
            have hlt : ((d.lexer.Lex P).lexer.Lex P).lexer.input.length
                < (d.lexer.Lex P).lexer.input.length := by
              rcases b2 with h | h
              · rw [t1, t2] at h; cases h
              · exact h
            cases h3 : (((d.lexer.Lex P).lexer.Lex P).lexer.Lex P).err with
            | some e => simp; omega
            | none =>
              dsimp only
              have hd3 : (Decoder.mk (((d.lexer.Lex P).lexer.Lex P).lexer.Lex P).lexer).lexer.input.length
                  < fuel := by
                show (((d.lexer.Lex P).lexer.Lex P).lexer.Lex P).lexer.input.length < fuel
                omega
              have key : ∀ s : DecState, s.out ≠ Outcome.outOfFuel →
                  s.d.lexer.input.length ≤ (((d.lexer.Lex P).lexer.Lex P).lexer.Lex P).lexer.input.length →
                  (match s.out with
                    | Outcome.ok =>
                      if s.d.lexer.currtoken = Token.TK_COMMA then objectLoop P fuel s.d fl s.rv
                      else if s.d.lexer.currtoken ≠ Token.TK_RBRACE then
                        ⟨Outcome.err (s.d.genSyntaxError ErrMsg.mustBeRightBrace), s.d, s.rv⟩
                      else ⟨Outcome.ok, s.d, s.rv⟩
                    | _ => s).out ≠ Outcome.outOfFuel
                  ∧ (match s.out with
                    | Outcome.ok =>
                      if s.d.lexer.currtoken = Token.TK_COMMA then objectLoop P fuel s.d fl s.rv
                      else if s.d.lexer.currtoken ≠ Token.TK_RBRACE then
                        ⟨Outcome.err (s.d.genSyntaxError ErrMsg.mustBeRightBrace), s.d, s.rv⟩
                      else ⟨Outcome.ok, s.d, s.rv⟩
                    | _ => s).d.lexer.input.length ≤ d.lexer.input.length := by
                intro s hs1 hs2
                cases ho : s.out with
                | ok =>
                  dsimp only
                  split_ifs
                  · have := ih s.d fl s.rv (by omega)
                    exact ⟨this.1, by omega⟩
                  · exact ⟨by simp, by show s.d.lexer.input.length ≤ _; omega⟩
                  · exact ⟨by simp, by show s.d.lexer.input.length ≤ _; omega⟩
                | err e =>
                  exact ⟨by rw [ho]; simp, by show s.d.lexer.input.length ≤ _; omega⟩
                | panic p =>
                  exact ⟨by rw [ho]; simp, by show s.d.lexer.input.length ≤ _; omega⟩
                | outOfFuel => exact absurd ho hs1
              cases rv with
              | struct fields =>
                have hf := fieldLoop_safe fuel _ hv
                  ⟨(((d.lexer.Lex P).lexer.Lex P).lexer.Lex P).lexer⟩ fl
                  (encodeRunes (d.lexer.Lex P).lexer.svalue) hd3 fields
                exact key _ hf.1 hf.2
              | map keyT elemT entries =>
                have hm := hv ⟨(((d.lexer.Lex P).lexer.Lex P).lexer.Lex P).lexer⟩ ⟨true, false⟩
                  elemT.zero hd3
                dsimp only
                cases ho : (valueWith P (objectWith (objectLoop P fuel))
                    ⟨(((d.lexer.Lex P).lexer.Lex P).lexer.Lex P).lexer⟩ ⟨true, false⟩
                    elemT.zero).out with
                | ok =>
                  exact key _ (SetMapIndex_safe _ _ _ _ _ _) hm.2
                | err e => exact key ⟨Outcome.err e, _, _⟩ (by simp) hm.2
                | panic p => exact key ⟨Outcome.panic p, _, _⟩ (by simp) hm.2
                | outOfFuel => exact absurd ho hm.1
              | _ => exact key ⟨Outcome.ok, _, _⟩ (by simp) (Nat.le_refl _)
          · rw [if_pos (by simpa using t2)]
            simp; omega
      · rw [if_pos (by simpa using t1)]
        simp [a1]

/-- The call `Decode` never ends by the recursion budget running out: it
returns `nil`, returns an error, or panics. -/
theorem Decode_fuel (P : Platform) (d : Decoder) (v : Option Target) :
    (d.Decode P v).out ≠ Outcome.outOfFuel := by
  have h1 := (Lex_consumes P d.lexer).1
  have hs := valueWith_safe P _ _ (objectWith_safe _ _ (objectLoop_safe P (d.lexer.input.length + 1)))
  unfold Decoder.Decode
  dsimp only
  cases he : (d.lexer.Lex P).err with
  | some e => simp
  | none =>
    dsimp only
    cases v with
    | none => simp
    | some t =>
      dsimp only
      split_ifs
      · have := (hs ⟨(d.lexer.Lex P).lexer⟩ ⟨false, false⟩
          (match t.ty with
            | GoType.map key elem => Value.map key elem (some [])
            | other => other.zero) (by show (d.lexer.Lex P).lexer.input.length < _; omega)).1
        unfold Decoder.value
        split
        · simp
        · exact this
      · have := (hs ⟨(d.lexer.Lex P).lexer⟩ ⟨true, false⟩ t.ty.zero
          (by show (d.lexer.Lex P).lexer.input.length < _; omega)).1
        unfold Decoder.value
        split
        · simp
        · exact this

/-! ## Objects into a wrong target, and the left bracket -/

/-- C11: when the current token is a left brace and the target is neither a
record nor a map, `value` and `object` return the type error that carries the
line, the kind of the target and the kinds `[Struct, Map]`; the decoder (so the
lexer: no token is read) and the target are as before. -/
theorem object_wrong_shape (P : Platform) (fuel : Nat) (d : Decoder) (fl : Flag) (rv : Value)
    (htok : d.lexer.currtoken = Token.TK_LBRACE)
    (hkind : rv.kind ≠ Kind.Struct ∧ rv.kind ≠ Kind.Map) :
    Decoder.object P fuel d fl rv
        = ⟨Outcome.err (Error.DecoderTypeError d.lexer.currline rv.kind [Kind.Struct, Kind.Map]),
            d, rv⟩
      ∧ Decoder.value P fuel d fl rv
        = ⟨Outcome.err (Error.DecoderTypeError d.lexer.currline rv.kind [Kind.Struct, Kind.Map]),
            d, rv⟩ := by
  have hobj : Decoder.object P fuel d fl rv
      = ⟨Outcome.err (Error.DecoderTypeError d.lexer.currline rv.kind [Kind.Struct, Kind.Map]),
          d, rv⟩ := by
    unfold Decoder.object objectWith
    rw [if_pos hkind]
    rfl
  refine ⟨hobj, ?_⟩
  unfold Decoder.value valueWith
  rw [htok]
  exact hobj

/-- Witness of `object_wrong_shape`: the text `{"X":1}` decoded into a boolean. -/
theorem object_wrong_shape_witness :
    Decoder.object Platform.sample 8
        ⟨((NewLexer (runes "\x7b\"X\":1\x7d")).Lex Platform.sample).lexer⟩ ⟨true, false⟩
        (Value.bool true)
        = ⟨Outcome.err (Error.DecoderTypeError 0 Kind.Bool [Kind.Struct, Kind.Map]),
            ⟨((NewLexer (runes "\x7b\"X\":1\x7d")).Lex Platform.sample).lexer⟩, Value.bool true⟩
      ∧ Decoder.value Platform.sample 8
        ⟨((NewLexer (runes "\x7b\"X\":1\x7d")).Lex Platform.sample).lexer⟩ ⟨true, false⟩
        (Value.bool true)
        = ⟨Outcome.err (Error.DecoderTypeError 0 Kind.Bool [Kind.Struct, Kind.Map]),
            ⟨((NewLexer (runes "\x7b\"X\":1\x7d")).Lex Platform.sample).lexer⟩, Value.bool true⟩ :=
  object_wrong_shape Platform.sample 8
    ⟨((NewLexer (runes "\x7b\"X\":1\x7d")).Lex Platform.sample).lexer⟩ ⟨true, false⟩
    (Value.bool true) (by decide) (by decide)

/-- C19: when the current token is a left bracket, `value` returns `nil` for
every target, and the target and the decoder, so the whole lexer with its
current token, are as before. -/
theorem value_lbracket (P : Platform) (fuel : Nat) (d : Decoder) (fl : Flag) (rv : Value)
    (htok : d.lexer.currtoken = Token.TK_LBRACKET) :
    Decoder.value P fuel d fl rv = ⟨Outcome.ok, d, rv⟩
      ∧ (Decoder.value P fuel d fl rv).d.lexer.currtoken = Token.TK_LBRACKET := by
  have h : Decoder.value P fuel d fl rv = ⟨Outcome.ok, d, rv⟩ := by
    unfold Decoder.value valueWith
    rw [htok]
  exact ⟨h, by rw [h]; exact htok⟩

/-- Witness of `value_lbracket`: the text `[1]` and a target of type `S1`. -/
theorem value_lbracket_witness :
    Decoder.value Platform.sample 4 ⟨((NewLexer (runes "[1]")).Lex Platform.sample).lexer⟩
        ⟨true, false⟩ (S1.mk 1 2)
        = ⟨Outcome.ok, ⟨((NewLexer (runes "[1]")).Lex Platform.sample).lexer⟩, S1.mk 1 2⟩
      ∧ (Decoder.value Platform.sample 4 ⟨((NewLexer (runes "[1]")).Lex Platform.sample).lexer⟩
        ⟨true, false⟩ (S1.mk 1 2)).d.lexer.currtoken = Token.TK_LBRACKET :=
  value_lbracket Platform.sample 4 ⟨((NewLexer (runes "[1]")).Lex Platform.sample).lexer⟩
    ⟨true, false⟩ (S1.mk 1 2) (by decide)


/-! ## The empty object -/

theorem struct_or_map_of_kind (t : GoType) (h : t.kind = Kind.Struct ∨ t.kind = Kind.Map) :
    (∃ fields, t = GoType.struct fields) ∨ (∃ key elem, t = GoType.map key elem) := by
  cases t with
  | struct fields => exact Or.inl ⟨fields, rfl⟩
  | map key elem => exact Or.inr ⟨key, elem, rfl⟩
  | int k => cases k <;> simp [GoType.kind] at h
  | uint k => cases k <;> simp [GoType.kind] at h
  | float k => cases k <;> simp [GoType.kind] at h
  | other k => cases k <;> simp [GoType.kind] at h
  | _ => simp [GoType.kind] at h

theorem objectLoop_not_string (P : Platform) (fuel : Nat) (d : Decoder) (fl : Flag) (rv : Value)
    (herr : (d.lexer.Lex P).err = none)
    (htok : (d.lexer.Lex P).lexer.currtoken ≠ Token.TK_STRING_LITERAL) :
    objectLoop P (fuel + 1) d fl rv
      = ⟨Outcome.err
          (Error.DecoderSyntaxError (d.lexer.Lex P).lexer.currline ErrMsg.mustBeStringLiteral),
          ⟨(d.lexer.Lex P).lexer⟩, rv⟩ := by
  rw [objectLoop.eq_def]
  simp only [herr]
  rw [if_pos htok]
  rfl

/-- C20: for every target whose type is a record or a map, `Decode` of a text
that is a left brace, blanks and a right brace (blanks in front and any text
after it allowed) returns the decoder syntax error "This must be a string
literal but" with the line of the right brace, and the caller's target is as
before. -/
theorem decode_empty_object (P : Platform) (ws0 ws rest : List Nat) (t : Target)
    (hws0 : IsWs ws0) (hws : IsWs ws)
    (hkind : t.ty.kind = Kind.Struct ∨ t.ty.kind = Kind.Map) :
    ((NewDecoder (ws0 ++ 123 :: (ws ++ 125 :: rest))).Decode P (some t)).out
        = Outcome.err
            (Error.DecoderSyntaxError (newlines ws0 + newlines ws) ErrMsg.mustBeStringLiteral)
      ∧ ((NewDecoder (ws0 ++ 123 :: (ws ++ 125 :: rest))).Decode P (some t)).v = some t := by
  have hlex := Lex_new_lbrace P ws0 (ws ++ 125 :: rest) hws0
  generalize hl1 : (NewLexer (ws0 ++ 123 :: (ws ++ 125 :: rest))).scanned Token.TK_LBRACE ws0
    (ws ++ 125 :: rest) [] F64.zero = l1 at hlex
  have hlex : (NewDecoder (ws0 ++ 123 :: (ws ++ 125 :: rest))).lexer.Lex P
      = ⟨Token.TK_LBRACE, none, l1⟩ := hlex
  have t1 : l1.currtoken = Token.TK_LBRACE := by rw [← hl1]; rfl
  have c1 : l1.currline = newlines ws0 := by rw [← hl1]; simp [Lexer.scanned, NewLexer]
  have h2 := Lex_punct P l1 ws rest Punct.rbrace hws (by rw [← hl1]; rfl)
  have hloop : ∀ (fl : Flag) (rv : Value),
      objectLoop P ((NewDecoder (ws0 ++ 123 :: (ws ++ 125 :: rest))).lexer.input.length + 1)
          ⟨l1⟩ fl rv
        = ⟨Outcome.err (Error.DecoderSyntaxError (newlines ws0 + newlines ws)
            ErrMsg.mustBeStringLiteral), ⟨(l1.Lex P).lexer⟩, rv⟩ := by
    intro fl rv
    rw [objectLoop_not_string P _ ⟨l1⟩ fl rv (by rw [h2]) (by rw [h2]; simp [Lexer.scanned, Punct.token])]
    simp [h2, Lexer.scanned, c1]
  obtain ⟨ty, cur⟩ := t
  rcases struct_or_map_of_kind ty hkind with ⟨fields, rfl⟩ | ⟨key, elem, rfl⟩
  · simp only [Decoder.Decode, hlex, GoType.kind, Decoder.value, valueWith, t1, objectWith,
      GoType.zero, Value.kind, Value.typeOf, hloop]
    simp
  · simp only [Decoder.Decode, hlex, GoType.kind, Decoder.value, valueWith, t1, objectWith,
      Value.kind, Value.typeOf, hloop]
    simp

/-- Witness of `decode_empty_object`: the text of a left brace, a newline and a
right brace, decoded into a target of type `S1` that holds `S1{1, 2}`. -/
theorem decode_empty_object_witness :
    ((NewDecoder ([] ++ 123 :: ([10] ++ 125 :: []))).Decode Platform.sample
        (some ⟨S1, S1.mk 1 2⟩)).out
        = Outcome.err (Error.DecoderSyntaxError (newlines [] + newlines [10])
            ErrMsg.mustBeStringLiteral)
      ∧ ((NewDecoder ([] ++ 123 :: ([10] ++ 125 :: []))).Decode Platform.sample
        (some ⟨S1, S1.mk 1 2⟩)).v = some ⟨S1, S1.mk 1 2⟩ :=
  decode_empty_object Platform.sample [] [10] [] ⟨S1, S1.mk 1 2⟩ isWs_nil
    (by intro c hc; simp at hc; omega) (Or.inl (by decide))


/-! ## The grammar checks of `object` -/


/-- One iteration of the loop of `object`: the body, then the test for a comma
and, when the loop is left, the test for a right brace. -/
theorem objectLoop_member (P : Platform) (fuel : Nat) (d : Decoder) (fl : Flag) (rv : Value) :
    objectLoop P (fuel + 1) d fl rv
      = match (objectMember P fuel d fl rv).out with
        | Outcome.ok =>
          if (objectMember P fuel d fl rv).d.lexer.currtoken = Token.TK_COMMA then
            objectLoop P fuel (objectMember P fuel d fl rv).d fl (objectMember P fuel d fl rv).rv
          else if (objectMember P fuel d fl rv).d.lexer.currtoken ≠ Token.TK_RBRACE then
            ⟨Outcome.err ((objectMember P fuel d fl rv).d.genSyntaxError ErrMsg.mustBeRightBrace),
              (objectMember P fuel d fl rv).d, (objectMember P fuel d fl rv).rv⟩
          else ⟨Outcome.ok, (objectMember P fuel d fl rv).d, (objectMember P fuel d fl rv).rv⟩
        | _ => objectMember P fuel d fl rv := by
  rw [objectLoop.eq_def]
  unfold objectMember
  dsimp only
  cases h1 : (d.lexer.Lex P).err with
  | some e => rfl
  | none =>
    dsimp only
    by_cases t1 : (d.lexer.Lex P).lexer.currtoken ≠ Token.TK_STRING_LITERAL
    · simp only [if_pos t1]
    · simp only [if_neg t1]
      cases h2 : ((d.lexer.Lex P).lexer.Lex P).err with
      | some e => rfl
      | none =>
        dsimp only
        by_cases t2 : ((d.lexer.Lex P).lexer.Lex P).lexer.currtoken ≠ Token.TK_COLON
        · simp only [if_pos t2]
        · simp only [if_neg t2]
          cases h3 : (((d.lexer.Lex P).lexer.Lex P).lexer.Lex P).err with
          | some e => rfl
          | none => rfl

/-- The loop of `object` from its start is the loop from the head of any later
iteration. -/
theorem objectLoop_head (P : Platform) (fl : Flag) :
    ∀ (k n : Nat) (d : Decoder) (rv : Value) (d1 : Decoder) (rv1 : Value),
      loopHead P fl (n + k) k d rv = some (d1, rv1) →
      objectLoop P (n + k) d fl rv = objectLoop P n d1 fl rv1
  | 0, n, d, rv, d1, rv1, h => by
    simp only [loopHead, Option.some.injEq, Prod.mk.injEq] at h
    obtain ⟨rfl, rfl⟩ := h
    rfl
  | k + 1, n, d, rv, d1, rv1, h => by
    have e : n + (k + 1) = (n + k) + 1 := rfl
    rw [e] at h ⊢
    rw [loopHead] at h
    rw [objectLoop_member]
    cases hout : (objectMember P (n + k) d fl rv).out with
    | ok =>
      rw [hout] at h
      dsimp only at h ⊢
      by_cases hc : (objectMember P (n + k) d fl rv).d.lexer.currtoken = Token.TK_COMMA
      · rw [if_pos hc] at h ⊢
        exact objectLoop_head P fl k n _ _ d1 rv1 h
      · rw [if_neg hc] at h
        cases h
    | err e => rw [hout] at h; cases h
    | panic p => rw [hout] at h; cases h
    | outOfFuel => rw [hout] at h; cases h

/-- C12: while `object` fills a record or a map, at the head of any iteration of
its loop (after the left brace, or after `k` members each followed by a
comma): when `Lex` returns no error and the current token is not a string
literal, `object` returns the decoder syntax error "This must be a string
literal but"; when the key is read, the next `Lex` returns no error and the
current token is not a colon, it returns "This must be a colon token"; and when
the member is stored and the current token is neither a comma nor a right
brace, it returns "This must be a right brace token".  Each error carries the
current line. -/
theorem object_grammar (P : Platform) (fuel k : Nat) (d d1 : Decoder) (fl : Flag)
    (rv rv1 : Value) (hkind : rv.kind = Kind.Struct ∨ rv.kind = Kind.Map)
    (hhead : loopHead P fl (fuel + 1 + k) k d rv = some (d1, rv1)) :
    ((d1.lexer.Lex P).err = none →
        (d1.lexer.Lex P).lexer.currtoken ≠ Token.TK_STRING_LITERAL →
        Decoder.object P (fuel + 1 + k) d fl rv
          = ⟨Outcome.err (Error.DecoderSyntaxError (d1.lexer.Lex P).lexer.currline
              ErrMsg.mustBeStringLiteral), ⟨(d1.lexer.Lex P).lexer⟩, rv1⟩)
      ∧ ((d1.lexer.Lex P).err = none →
        (d1.lexer.Lex P).lexer.currtoken = Token.TK_STRING_LITERAL →
        ((d1.lexer.Lex P).lexer.Lex P).err = none →
        ((d1.lexer.Lex P).lexer.Lex P).lexer.currtoken ≠ Token.TK_COLON →
        Decoder.object P (fuel + 1 + k) d fl rv
          = ⟨Outcome.err (Error.DecoderSyntaxError ((d1.lexer.Lex P).lexer.Lex P).lexer.currline
              ErrMsg.mustBeColon), ⟨((d1.lexer.Lex P).lexer.Lex P).lexer⟩, rv1⟩)
      ∧ ((objectMember P fuel d1 fl rv1).out = Outcome.ok →
        (objectMember P fuel d1 fl rv1).d.lexer.currtoken ≠ Token.TK_COMMA →
        (objectMember P fuel d1 fl rv1).d.lexer.currtoken ≠ Token.TK_RBRACE →
        Decoder.object P (fuel + 1 + k) d fl rv
          = ⟨Outcome.err (Error.DecoderSyntaxError
              (objectMember P fuel d1 fl rv1).d.lexer.currline ErrMsg.mustBeRightBrace),
              (objectMember P fuel d1 fl rv1).d, (objectMember P fuel d1 fl rv1).rv⟩) := by
  have hobj : Decoder.object P (fuel + 1 + k) d fl rv = objectLoop P (fuel + 1) d1 fl rv1 := by
    unfold Decoder.object objectWith
    rw [if_neg (by intro h; rcases hkind with h1 | h1 <;> simp [h1] at h)]
    exact objectLoop_head P fl k (fuel + 1) d rv d1 rv1 hhead
  rw [hobj, objectLoop_member]
  refine ⟨?_, ?_, ?_⟩
  · intro h1 t1
    have hm : objectMember P fuel d1 fl rv1
        = ⟨Outcome.err (Error.DecoderSyntaxError (d1.lexer.Lex P).lexer.currline
            ErrMsg.mustBeStringLiteral), ⟨(d1.lexer.Lex P).lexer⟩, rv1⟩ := by
      unfold objectMember
      simp only [h1]
      rw [if_pos t1]
      rfl
    rw [hm]
  · intro h1 t1 h2 t2
    have hm : objectMember P fuel d1 fl rv1
        = ⟨Outcome.err (Error.DecoderSyntaxError ((d1.lexer.Lex P).lexer.Lex P).lexer.currline
            ErrMsg.mustBeColon), ⟨((d1.lexer.Lex P).lexer.Lex P).lexer⟩, rv1⟩ := by
      unfold objectMember
      simp only [h1, h2]
      rw [if_neg (by simp [t1]), if_pos t2]
      rfl
    rw [hm]
  · intro hok hc hr
    rw [hok]
    dsimp only
    rw [if_neg hc, if_pos hr]
    rfl

/-- Witness of `object_grammar`, one text for each of the three errors, decoded
into a zero record of type `S1` from the left brace on: in `{"X":1,2}` the token
after the comma is a number, in `{"X" 1}` the token after the key is a number,
in `{"X":1 2}` the token after the member is a number. -/
theorem object_grammar_witness :
    (Decoder.object Platform.sample 5
        ⟨((NewLexer (runes "\x7b\"X\":1,2\x7d")).Lex Platform.sample).lexer⟩ ⟨true, false⟩
        S1.zero).out = Outcome.err (Error.DecoderSyntaxError 0 ErrMsg.mustBeStringLiteral)
      ∧ (Decoder.object Platform.sample 4
        ⟨((NewLexer (runes "\x7b\"X\" 1\x7d")).Lex Platform.sample).lexer⟩ ⟨true, false⟩
        S1.zero).out = Outcome.err (Error.DecoderSyntaxError 0 ErrMsg.mustBeColon)
      ∧ (Decoder.object Platform.sample 4
        ⟨((NewLexer (runes "\x7b\"X\":1 2\x7d")).Lex Platform.sample).lexer⟩ ⟨true, false⟩
        S1.zero).out = Outcome.err (Error.DecoderSyntaxError 0 ErrMsg.mustBeRightBrace) :=
  ⟨congrArg DecState.out
      ((object_grammar Platform.sample 3 1
        ⟨((NewLexer (runes "\x7b\"X\":1,2\x7d")).Lex Platform.sample).lexer⟩
        (objectMember Platform.sample 4
          ⟨((NewLexer (runes "\x7b\"X\":1,2\x7d")).Lex Platform.sample).lexer⟩ ⟨true, false⟩
          S1.zero).d ⟨true, false⟩ S1.zero
        (objectMember Platform.sample 4
          ⟨((NewLexer (runes "\x7b\"X\":1,2\x7d")).Lex Platform.sample).lexer⟩ ⟨true, false⟩
          S1.zero).rv (Or.inl (by decide)) rfl).1 (by decide) (by decide)),
    congrArg DecState.out
      ((object_grammar Platform.sample 3 0
        ⟨((NewLexer (runes "\x7b\"X\" 1\x7d")).Lex Platform.sample).lexer⟩
        ⟨((NewLexer (runes "\x7b\"X\" 1\x7d")).Lex Platform.sample).lexer⟩ ⟨true, false⟩
        S1.zero S1.zero (Or.inl (by decide)) rfl).2.1 (by decide) (by decide) (by decide)
        (by decide)),
    congrArg DecState.out
      ((object_grammar Platform.sample 3 0
        ⟨((NewLexer (runes "\x7b\"X\":1 2\x7d")).Lex Platform.sample).lexer⟩
        ⟨((NewLexer (runes "\x7b\"X\":1 2\x7d")).Lex Platform.sample).lexer⟩ ⟨true, false⟩
        S1.zero S1.zero (Or.inl (by decide)) rfl).2.2 (by decide) (by decide) (by decide))⟩



/-! ## The encoder against the reference serialization; the failing inputs of the lexer -/


theorem digitChar_toNat (m : Nat) (h : m < 10) : (Nat.digitChar m).toNat = 48 + m := by
  interval_cases m <;> rfl

theorem toDigitsCore_formatNatAux :
    ∀ (fuel n : Nat) (ds : List Char),
      (Nat.toDigitsCore 10 fuel n ds).map Char.toNat = formatNatAux fuel n (ds.map Char.toNat)
  | 0, n, ds => by simp [Nat.toDigitsCore, formatNatAux]
  | fuel + 1, n, ds => by
    rw [Nat.toDigitsCore, formatNatAux]
    by_cases h : n < 10
    · have h0 : n / 10 = 0 := by omega
      have hm : n % 10 = n := by omega
      simp [h, h0, hm, digitChar_toNat n h]
    · have h0 : n / 10 ≠ 0 := by omega
      simp only [h0, if_false, h]
      rw [toDigitsCore_formatNatAux fuel (n / 10)]
      simp [digitChar_toNat (n % 10) (by omega)]

theorem formatNat_repr (n : Nat) : formatNat n = runes (toString n) := by
  have := toDigitsCore_formatNatAux (n + 1) n []
  simp only [List.map_nil] at this
  unfold formatNat runes
  rw [← this]
  rfl

theorem FormatInt_decimal (i : Int) : FormatInt i = decimal i := by
  unfold FormatInt decimal
  cases i with
  | ofNat n =>
    have h : ¬ (Int.ofNat n < 0) := by simp
    rw [if_neg h]
    exact formatNat_repr n
  | negSucc m =>
    have h : Int.negSucc m < 0 := Int.negSucc_lt_zero m
    rw [if_pos h]
    show 45 :: formatNat (m + 1) = _
    rw [formatNat_repr]
    rfl

theorem FormatBool_ref (b : Bool) :
    FormatBool b = if b then runes "true" else runes "false" := by
  cases b <;> decide

theorem intercalate_cons_cons (sep x y : List Nat) (xs : List (List Nat)) :
    List.intercalate sep (x :: y :: xs) = x ++ sep ++ List.intercalate sep (y :: xs) := by
  simp [List.intercalate, List.intersperse]

mutual
theorem encValue_ref : ∀ v : Value, v.Encodable → encValue v = ref v
  | Value.int _ i, _ => by rw [encValue.eq_def, ref.eq_def]; exact FormatInt_decimal i
  | Value.bool b, _ => by rw [encValue.eq_def, ref.eq_def]; exact FormatBool_ref b
  | Value.string s, _ => by rw [encValue.eq_def, ref.eq_def]; rfl
  | Value.slice _ none, _ => by rw [encValue.eq_def, ref.eq_def]; rfl
  | Value.slice _ (some elems), h => by
    rw [Value.Encodable] at h
    rw [encValue.eq_def, ref.eq_def]
    simp only [encElems_ref elems h]
  | Value.array _ elems, h => by
    rw [Value.Encodable] at h
    rw [encValue.eq_def, ref.eq_def]
    simp only [encElems_ref elems h]
  | Value.struct fields, h => by
    rw [Value.Encodable] at h
    rw [encValue.eq_def, ref.eq_def]
    simp only [encFields_ref fields h]
  | Value.uint _ _, h => by simp [Value.Encodable] at h
  | Value.float _ _, h => by simp [Value.Encodable] at h
  | Value.other _ _, h => by simp [Value.Encodable] at h
  | Value.map _ _ _, h => by simp [Value.Encodable] at h
  | Value.ptr _ _, h => by simp [Value.Encodable] at h
theorem encElems_ref : ∀ vs : List Value, Value.EncodableElems vs →
    encArrayOrSliceLoop vs = List.intercalate [44] (refElems vs)
  | [], _ => by rw [encArrayOrSliceLoop.eq_def, refElems.eq_def]; rfl
  | [v], h => by
    rw [Value.EncodableElems] at h
    rw [encArrayOrSliceLoop.eq_def, refElems.eq_def]
    simp only
    rw [refElems.eq_def]
    simp [List.intercalate, encValue_ref v h.1]
  | v :: w :: vs, h => by
    rw [Value.EncodableElems] at h
    have ih := encElems_ref (w :: vs) h.2
    rw [encArrayOrSliceLoop.eq_def]
    simp only
    rw [refElems.eq_def]
    simp only
    rw [refElems.eq_def] at ih ⊢
    simp only at ih ⊢
    rw [intercalate_cons_cons, ih, encValue_ref v h.1]
theorem encFields_ref : ∀ fs : List (List Nat × Bool × Value), Value.EncodableFields fs →
    encStructLoop fs = List.intercalate [44] (refFields fs)
  | [], _ => by rw [encStructLoop.eq_def, refFields.eq_def]; rfl
  | [(name, ex, v)], h => by
    rw [Value.EncodableFields] at h
    rw [encStructLoop.eq_def, refFields.eq_def]
    simp only
    rw [refFields.eq_def]
    simp [List.intercalate, encValue_ref v h.1]
  | (name, ex, v) :: f :: fs, h => by
    rw [Value.EncodableFields] at h
    have ih := encFields_ref (f :: fs) h.2
    rw [encStructLoop.eq_def]
    simp only
    rw [refFields.eq_def]
    simp only
    obtain ⟨n2, e2, v2⟩ := f
    rw [refFields.eq_def] at ih ⊢
    simp only at ih ⊢
    rw [intercalate_cons_cons, ih, encValue_ref v h.1]
end

/-- C16: for every value built from signed integers, booleans, strings,
sequences and records, `Encode` on a new encoder returns no error and hands the
writer one text, the reference serialization of the value. -/
theorem encode_ref (w : List Nat → Option Error) (v : Value) (h : v.Encodable) :
    (Encode w v).err = none ∧ (Encode w v).written = [ref v] := by
  refine ⟨rfl, ?_⟩
  show [[] ++ encValue v] = [ref v]
  rw [List.nil_append, encValue_ref v h]

/-- Witness of `encode_ref`: the record `S1{X: 10, Y: 20}` and the slice of
the strings `X`, `Y`, `Z` of `encoder_test.go`. -/
theorem encode_ref_witness :
    ((Encode (fun _ => none) (S1.mk 10 20)).err = none
      ∧ (Encode (fun _ => none) (S1.mk 10 20)).written
        = [runes "\x7b\"X\":10,\"Y\":20\x7d"])
    ∧ ((Encode (fun _ => none) (Value.slice GoType.string
          (some [Value.string (runes "X"), Value.string (runes "Y"),
            Value.string (runes "Z")]))).err = none
      ∧ (Encode (fun _ => none) (Value.slice GoType.string
          (some [Value.string (runes "X"), Value.string (runes "Y"),
            Value.string (runes "Z")]))).written = [runes "[\"X\",\"Y\",\"Z\"]"]) :=
  ⟨encode_ref (fun _ => none) (S1.mk 10 20) ⟨trivial, trivial, trivial⟩,
    encode_ref (fun _ => none) (Value.slice GoType.string
      (some [Value.string (runes "X"), Value.string (runes "Y"), Value.string (runes "Z")]))
      ⟨trivial, trivial, trivial, trivial⟩⟩

/-- C17: for every string, `Encode` on a new encoder returns no error and hands
the writer a double quote, the characters of the string as they are, and a
double quote; the string `a"b` is written as `"a"b"`. -/
theorem encode_string_raw (w : List Nat → Option Error) (s : List Nat) :
    (Encode w (Value.string s)).err = none
      ∧ (Encode w (Value.string s)).written = [[34] ++ s ++ [34]]
      ∧ (Encode w (Value.string (runes "a\"b"))).written = [runes "\"a\"b\""] :=
  ⟨rfl, rfl, rfl⟩

/-- C18, the failing input: the writer returns an error for every text, and
`Encode` of `true` hands it the text `true` and returns no error; `Encode`
returns no error whatever the writer returns. -/
theorem encode_drops_write_error :
    (Encode (fun _ => some (Error.io 1)) (Value.bool true)).written = [runes "true"]
      ∧ (Encode (fun _ => some (Error.io 1)) (Value.bool true)).err = none
      ∧ ∀ (w : List Nat → Option Error) (v : Value), (Encode w v).err = none :=
  ⟨rfl, rfl, fun _ _ => rfl⟩

/-- C14, the failing input: on the text `1e+`, where no digit follows the
sign, `Lex` returns the number token without error, with the payload zero. -/
theorem lex_exponent_without_digits :
    (NewLexer (runes "1e+")).Lex Platform.sample
      = ⟨Token.TK_NUMBER_LITERAL, none,
          ⟨Token.TK_NUMBER_LITERAL, 0, [], [], F64.zero, true⟩⟩ := by
  decide

/-- C15, the failing input: on the text `nul`, `Lex` returns the bare error
`ErrInvalidKeyword`, not a lexer syntax error with a line. -/
theorem lex_keyword_error_bare :
    ((NewLexer (runes "nul")).Lex Platform.sample).err
      = some (Error.plain ErrMsg.ErrInvalidKeyword) := by
  decide




end GoJSON
